import Mathlib

/-!
# Keycloak provider: role and realm-user-profile resource handlers

A shallow embedding of `provider/resource_keycloak_role.go` and
`provider/resource_keycloak_realm_user_profile.go`.

* Go strings are modelled by Lean strings (sequences of Unicode characters).
* Go maps are modelled by association lists with distinct keys; a `range` loop that
  rebuilds a map key by key is a `List.map` over the entries.
* The remote API client is a record of state-passing functions over an arbitrary state
  type; handlers run in a small monad that threads that state, stops at the first error
  (Go's `if err != nil { return ... }`) and records every remote call with its reply.
-/

set_option autoImplicit false

/-! ## Go library functions used by the handlers -/

namespace strings

/-- Position of the first occurrence of `sep` in `s` (Go `strings.Index` on character lists). -/
def indexChars (sep : List Char) : List Char → Option Nat
  | [] => if sep.isPrefixOf [] then some 0 else none
  | c :: cs =>
    if sep.isPrefixOf (c :: cs) then some 0
    else (indexChars sep cs).map (· + 1)

/-- The loop of Go's `genSplit`: cut at the leftmost occurrence of `sep`, continue after it.
`fuel` bounds the number of cuts; `s.length` is always enough for a non-empty `sep`. -/
def genSplit (sep : List Char) : Nat → List Char → List (List Char)
  | 0, s => [s]
  | fuel + 1, s =>
    match indexChars sep s with
    | none => [s]
    | some m => s.take m :: genSplit sep fuel (s.drop (m + sep.length))

/-- Go `strings.Split(s, sep)`: with an empty separator the string is exploded into its
characters, otherwise it is cut at every (leftmost, non-overlapping) occurrence of `sep`. -/
def Split (s sep : String) : List String :=
  if sep.data = [] then s.data.map (fun c => String.mk [c])
  else (genSplit sep.data s.data.length s.data).map String.mk

/-- Go `strings.Join(elems, sep)`. -/
def Join (elems : List String) (sep : String) : String :=
  String.mk (List.intercalate sep.data (elems.map String.data))

/-- Go `strings.Contains(s, substr)`. -/
def Contains (s substr : String) : Bool :=
  (indexChars substr.data s.data).isSome

/-- Go `strings.HasPrefix(s, prefix)`. -/
def HasPrefix (s pre : String) : Bool :=
  pre.data.isPrefixOf s.data

/-- Go `strings.ToLower` on the ASCII letters. Go also lower-cases letters outside ASCII,
always to characters outside `a`..`z` except for U+0130 (to `i`) and U+212A (to `k`); the
handlers only compare the result with `"true"`, which none of these can produce. -/
def ToLower (s : String) : String :=
  String.mk (s.data.map Char.toLower)

end strings

/-! ## The SDK's string set -/

namespace crc32

/-- One bit of the CRC-32 loop (reflected form, IEEE polynomial). -/
def shift (crc : Nat) : Nat :=
  if crc % 2 = 1 then (crc / 2) ^^^ 0xEDB88320 else crc / 2

/-- The CRC-32 register after one more byte. -/
def update (crc byte : Nat) : Nat :=
  shift (shift (shift (shift (shift (shift (shift (shift (crc ^^^ byte))))))))

/-- Go `crc32.ChecksumIEEE` on a list of bytes. -/
def ChecksumIEEE (data : List Nat) : Nat :=
  (data.foldl update 0xFFFFFFFF) ^^^ 0xFFFFFFFF

end crc32

namespace strings

/-- The UTF-8 bytes of a character. -/
def utf8 (c : Char) : List Nat :=
  if c.toNat < 0x80 then [c.toNat]
  else if c.toNat < 0x800 then [0xC0 + c.toNat / 64, 0x80 + c.toNat % 64]
  else if c.toNat < 0x10000 then
    [0xE0 + c.toNat / 4096, 0x80 + c.toNat / 64 % 64, 0x80 + c.toNat % 64]
  else
    [0xF0 + c.toNat / 262144, 0x80 + c.toNat / 4096 % 64, 0x80 + c.toNat / 64 % 64,
      0x80 + c.toNat % 64]

/-- Go `[]byte(s)`. -/
def bytes (s : String) : List Nat :=
  s.data.foldr (fun c rest => utf8 c ++ rest) []

end strings

namespace schema

/-- The SDK's `schema.HashString`: the CRC-32 checksum of the string, as an `int` (which on
a 64-bit platform is never negative). -/
def HashString (v : String) : Nat :=
  crc32.ChecksumIEEE (strings.bytes v)

/-- A `*schema.Set` of strings declared with `Set: schema.HashString`. The SDK keeps the
elements in a map keyed by their hash code, so a set holds at most one element for a code
and its operations find an element by the code of the item they are given. `items` lists
the elements in the order `List()` returns them (the SDK orders by the key of the map);
removing an element keeps the order of the others. -/
structure Set where
  items : List String
deriving DecidableEq, Repr

namespace Set

/-- Go `Contains`: `_, ok := s.m[s.hash(item)]`. -/
def Contains (s : Set) (item : String) : Bool :=
  s.items.any (fun x => HashString x == HashString item)

/-- Go `Remove`: `delete(s.m, s.hash(item))`, which takes out the element held under the
code of the item. -/
def Remove (s : Set) (item : String) : Set :=
  ⟨s.items.eraseP (fun x => HashString x == HashString item)⟩

/-- The key under which the SDK's map holds an item: its code in decimal digits. `List()`
returns the elements in the order of their keys. -/
def key (item : String) : String := toString (HashString item)

/-- The order of the keys (`sort.Strings`): as byte strings. -/
def keyLt (a b : String) : Bool :=
  decide ((key a).data.map Char.toNat < (key b).data.map Char.toNat)

/-- Go `Add`: the item is stored under its code unless the code is taken. -/
def Add (s : Set) (item : String) : Set :=
  if s.Contains item then s
  else
    ⟨s.items.takeWhile (fun x => keyLt x item)
      ++ item :: s.items.dropWhile (fun x => keyLt x item)⟩

def Len (s : Set) : Nat := s.items.length

def List (s : Set) : List String := s.items

end Set

/-- Go `schema.NewSet(schema.HashString, items)`. -/
def NewSet (items : List String) : Set :=
  items.foldl Set.Add ⟨[]⟩

end schema

/-! ## Data model -/

/-- Dynamic values (`interface{}`) that occur in realm attributes, validator configurations
and annotations: what `encoding/json` decodes into, with numbers restricted to integers.
A decoded object (`map[string]interface{}`) is held as its association list. -/
inductive Value where
  | null
  | bool (b : Bool)
  | num (n : Int)
  | str (s : String)
  | list (xs : List Value)
  | obj (kvs : List (String × Value))
deriving Repr

/-- Modelled from the spec: Go `error` values as the handlers see them, a message and
whether the error is a "not found" (`keycloak.ErrorIs404`, declared in the client package). -/
structure GoError where
  message : String
  is404 : Bool
deriving DecidableEq, Repr

/-- Modelled from the spec: `keycloak.Role`, declared in the client package, with the fields
that the handlers read or write. -/
structure Role where
  Id : String
  RealmId : String
  ClientId : String
  Name : String
  Description : String
  Composite : Bool
  Attributes : List (String × List String)
deriving DecidableEq, Repr

/-- The `schema.ResourceData` of a `keycloak_role` resource. `composite_roles` is `none`
when the field is not set at all and `some` of the elements of the set otherwise, in the
order `List()` returns them. -/
structure RoleData where
  Id : String
  realm_id : String
  client_id : String
  name : String
  description : String
  composite_roles : Option (List String)
  attributes : List (String × String)
  import_ : Bool
deriving DecidableEq, Repr

/-- Go `data.GetOk("composite_roles")`: the set (empty when unset) and whether it is
non-empty; for a set the SDK reports `ok` exactly when its length is positive. -/
def RoleData.GetOk_composite_roles (data : RoleData) : schema.Set × Bool :=
  (⟨data.composite_roles.getD []⟩, decide ((data.composite_roles.getD []).length > 0))

/-- Go `data.Get("composite_roles").(*schema.Set)`. -/
def RoleData.Get_composite_roles (data : RoleData) : schema.Set :=
  ⟨data.composite_roles.getD []⟩

/-- Modelled from the spec: `keycloak.RealmUserProfilePermissions`, the view and edit role
names. -/
structure RealmUserProfilePermissions where
  Edit : List String
  View : List String
deriving DecidableEq, Repr

/-- Modelled from the spec: `keycloak.RealmUserProfileSelector`, the scopes for which an
attribute is active. -/
structure RealmUserProfileSelector where
  Scopes : List String
deriving DecidableEq, Repr

/-- Modelled from the spec: `keycloak.RealmUserProfileRequired`, the roles and scopes for
which an attribute is required. -/
structure RealmUserProfileRequired where
  Roles : List String
  Scopes : List String
deriving DecidableEq, Repr

/-- Modelled from the spec: the remote form of an attribute
(`keycloak.RealmUserProfileAttribute`, declared in the client package). Pointer and map
fields that may be nil are options. -/
structure RealmUserProfileAttribute where
  Name : String
  DisplayName : String
  Group : String
  Multivalued : Bool
  MultiValued : Bool
  Permissions : Option RealmUserProfilePermissions
  Selector : Option RealmUserProfileSelector
  Validations : Option (List (String × List (String × Value)))
  Required : Option RealmUserProfileRequired
  Annotations : Option (List (String × Value))
deriving Repr

/-- Modelled from the spec: the remote form of a group (`keycloak.RealmUserProfileGroup`,
declared in the client package). -/
structure RealmUserProfileGroup where
  DisplayDescription : String
  DisplayHeader : String
  Name : String
  Annotations : Option (List (String × Value))
deriving Repr

/-- Modelled from the spec: the remote profile (`keycloak.RealmUserProfile`, declared in the
client package); a nil policy is `none`. -/
structure RealmUserProfile where
  Attributes : List RealmUserProfileAttribute
  Groups : List RealmUserProfileGroup
  UnmanagedAttributePolicy : Option String
deriving Repr

/-- Modelled from the spec: the part of `keycloak.Realm` (declared in the client package)
that is read, its attribute map. -/
structure Realm where
  Attributes : List (String × Value)
deriving Repr

/-! ## Remote calls, their log, and the handler monad -/

/-- A call on the remote API client, with its arguments. -/
inductive Call where
  | VersionIsGreaterThanOrEqualTo (version : Nat)
  | GetRealm (realmId : String)
  | GetRealmUserProfile (realmId : String)
  | UpdateRealmUserProfile (realmId : String) (profile : RealmUserProfile)
  | GetRole (realmId : String) (id : String)
  | GetRoleByName (realmId : String) (clientId : String) (name : String)
  | CreateRole (role : Role)
  | UpdateRole (role : Role)
  | DeleteRole (realmId : String) (id : String)
  | GetRoleComposites (role : Role)
  | AddCompositesToRole (role : Role) (composites : List Role)
  | RemoveCompositesFromRole (role : Role) (composites : List Role)
deriving Repr

/-- What a remote call answered. -/
inductive Reply where
  | err (e : GoError)
  | done
  | bool (b : Bool)
  | id (s : String)
  | realm (r : Realm)
  | profile (p : RealmUserProfile)
  | role (r : Role)
  | roles (rs : List Role)
deriving Repr

def Reply.isOk : Reply → Bool
  | .err _ => false
  | _ => true

/-- One remote call together with its reply. -/
structure Event where
  call : Call
  reply : Reply
deriving Repr

/-- What running a handler gives: its result, the remote state it leaves, and the remote
calls it made, in order. -/
structure Outcome (σ α : Type) where
  result : Except GoError α
  state : σ
  log : List Event

/-- A handler computation over a remote with state `σ`. -/
def Remote (σ α : Type) : Type := σ → Outcome σ α

namespace Remote

variable {σ α β : Type}

def pure (a : α) : Remote σ α := fun s => ⟨.ok a, s, []⟩

/-- Return the error to the caller without a remote call. -/
def fail (e : GoError) : Remote σ α := fun s => ⟨.error e, s, []⟩

/-- Sequencing: an error of the first part ends the handler. -/
def bind (m : Remote σ α) (f : α → Remote σ β) : Remote σ β := fun s =>
  match m s with
  | ⟨.error e, s1, l1⟩ => ⟨.error e, s1, l1⟩
  | ⟨.ok a, s1, l1⟩ =>
    match f a s1 with
    | ⟨r, s2, l2⟩ => ⟨r, s2, l1 ++ l2⟩

/-- Run `m` and hand its error to the caller as a value (Go code that inspects `err`). -/
def attempt (m : Remote σ α) : Remote σ (Except GoError α) := fun s =>
  match m s with
  | ⟨r, s1, l1⟩ => ⟨.ok r, s1, l1⟩

/-- One remote call: run the client function, record the call and its reply. -/
def call (c : Call) (toReply : α → Reply) (f : σ → Except GoError α × σ) : Remote σ α := fun s =>
  match f s with
  | (.error e, s1) => ⟨.error e, s1, [⟨c, .err e⟩]⟩
  | (.ok a, s1) => ⟨.ok a, s1, [⟨c, toReply a⟩]⟩

instance : Monad (Remote σ) where
  pure := Remote.pure
  bind := Remote.bind

end Remote

/-- Modelled from the spec: the remote API client (`*keycloak.KeycloakClient`, declared in
the client package) with the methods the handlers call. Each method takes the remote state
and returns its result with the new state. `createRole` returns the id the server gave the
new role (the Go method stores it in the role it was handed); the other methods leave the
role objects they are handed as they are. -/
structure KeycloakClient (σ : Type) where
  versionIsGreaterThanOrEqualTo : Nat → σ → Except GoError Bool × σ
  getRealm : String → σ → Except GoError Realm × σ
  getRealmUserProfile : String → σ → Except GoError RealmUserProfile × σ
  updateRealmUserProfile : String → RealmUserProfile → σ → Except GoError Unit × σ
  getRole : String → String → σ → Except GoError Role × σ
  getRoleByName : String → String → String → σ → Except GoError Role × σ
  createRole : Role → σ → Except GoError String × σ
  updateRole : Role → σ → Except GoError Unit × σ
  deleteRole : String → String → σ → Except GoError Unit × σ
  getRoleComposites : Role → σ → Except GoError (List Role) × σ
  addCompositesToRole : Role → List Role → σ → Except GoError Unit × σ
  removeCompositesFromRole : Role → List Role → σ → Except GoError Unit × σ

namespace KeycloakClient

variable {σ : Type} (kc : KeycloakClient σ)

def VersionIsGreaterThanOrEqualTo (version : Nat) : Remote σ Bool :=
  Remote.call (.VersionIsGreaterThanOrEqualTo version) .bool (kc.versionIsGreaterThanOrEqualTo version)

def GetRealm (realmId : String) : Remote σ Realm :=
  Remote.call (.GetRealm realmId) .realm (kc.getRealm realmId)

def GetRealmUserProfile (realmId : String) : Remote σ RealmUserProfile :=
  Remote.call (.GetRealmUserProfile realmId) .profile (kc.getRealmUserProfile realmId)

def UpdateRealmUserProfile (realmId : String) (profile : RealmUserProfile) : Remote σ Unit :=
  Remote.call (.UpdateRealmUserProfile realmId profile) (fun _ => .done)
    (kc.updateRealmUserProfile realmId profile)

def GetRole (realmId id : String) : Remote σ Role :=
  Remote.call (.GetRole realmId id) .role (kc.getRole realmId id)

def GetRoleByName (realmId clientId name : String) : Remote σ Role :=
  Remote.call (.GetRoleByName realmId clientId name) .role (kc.getRoleByName realmId clientId name)

def CreateRole (role : Role) : Remote σ String :=
  Remote.call (.CreateRole role) .id (kc.createRole role)

def UpdateRole (role : Role) : Remote σ Unit :=
  Remote.call (.UpdateRole role) (fun _ => .done) (kc.updateRole role)

def DeleteRole (realmId id : String) : Remote σ Unit :=
  Remote.call (.DeleteRole realmId id) (fun _ => .done) (kc.deleteRole realmId id)

def GetRoleComposites (role : Role) : Remote σ (List Role) :=
  Remote.call (.GetRoleComposites role) .roles (kc.getRoleComposites role)

def AddCompositesToRole (role : Role) (composites : List Role) : Remote σ Unit :=
  Remote.call (.AddCompositesToRole role composites) (fun _ => .done)
    (kc.addCompositesToRole role composites)

def RemoveCompositesFromRole (role : Role) (composites : List Role) : Remote σ Unit :=
  Remote.call (.RemoveCompositesFromRole role composites) (fun _ => .done)
    (kc.removeCompositesFromRole role composites)

end KeycloakClient

/-! ## The role handlers (`resource_keycloak_role.go`) -/

/-- Modelled from the spec: the separator between the values of one role attribute, "a
fixed, reserved separator constant". The constant is declared in another file of the
provider, so the handlers take it as a parameter. -/
structure ProviderConstants where
  MULTIVALUE_ATTRIBUTE_SEPARATOR : String

/-- Modelled from the spec: `handleNotFoundError`, declared in another file of the provider.
A not-found error clears the resource's id (`data.SetId("")`, passed as `SetId`) and is not
reported; any other error is returned. -/
def handleNotFoundError {σ δ : Type} (err : GoError) (data : δ) (SetId : δ → String → δ) :
    Remote σ δ :=
  if err.is404 then Remote.pure (SetId data "") else Remote.fail err

namespace mergo

/-- Modelled from the spec: `mergo.Merge` on one map-typed field. Entries of `dst` with a
non-empty value are kept, the other keys are filled from `src`. -/
def mergeAttributes (dst src : List (String × List String)) : List (String × List String) :=
  dst.map (fun kv => if kv.2 = [] then (kv.1, (src.lookup kv.1).getD []) else kv)
    ++ src.filter (fun kv => decide (kv.1 ∉ dst.map Prod.fst))

/-- Modelled from the spec: `mergo.Merge(dst, src)` of the library `dario.cat/mergo` on two
roles, "first non-zero value wins": a field of `dst` that is set is kept, a field that has
its zero value is taken from `src`. -/
def Merge (dst src : Role) : Role :=
  { Id := if dst.Id = "" then src.Id else dst.Id
    RealmId := if dst.RealmId = "" then src.RealmId else dst.RealmId
    ClientId := if dst.ClientId = "" then src.ClientId else dst.ClientId
    Name := if dst.Name = "" then src.Name else dst.Name
    Description := if dst.Description = "" then src.Description else dst.Description
    Composite := if dst.Composite = false then src.Composite else dst.Composite
    Attributes := mergeAttributes dst.Attributes src.Attributes }

end mergo

/-- Go `mapFromDataToRole`: the role object built from the configuration; every attribute
value is split on the separator. The composite flag is left at its zero value. -/
def mapFromDataToRole (k : ProviderConstants) (data : RoleData) : Role :=
  let attributes : List (String × List String) :=
    data.attributes.map (fun kv => (kv.1, strings.Split kv.2 k.MULTIVALUE_ATTRIBUTE_SEPARATOR))
  { Id := data.Id
    RealmId := data.realm_id
    ClientId := data.client_id
    Name := data.name
    Description := data.description
    Composite := false
    Attributes := attributes }

/-- Go `mapFromRoleToData`: store the role in the configuration document; every attribute
value list is joined with the separator. -/
def mapFromRoleToData (k : ProviderConstants) (data : RoleData) (role : Role) : RoleData :=
  let attributes : List (String × String) :=
    role.Attributes.map (fun kv => (kv.1, strings.Join kv.2 k.MULTIVALUE_ATTRIBUTE_SEPARATOR))
  { data with
    Id := role.Id
    realm_id := role.RealmId
    client_id := role.ClientId
    name := role.Name
    description := role.Description
    attributes := attributes }

section RoleHandlers

variable {σ : Type}

/-- Go `mapCompositeRoleIdsToRoleObjects`: look up every id in turn, stop at the first
error. -/
def mapCompositeRoleIdsToRoleObjects (kc : KeycloakClient σ) :
    List String → String → Remote σ (List Role)
  | [], _ => Remote.pure []
  | compositeRoleId :: rest, realmId => do
    let compositeRoleToAdd ← kc.GetRole realmId compositeRoleId
    let compositeRoles ← mapCompositeRoleIdsToRoleObjects kc rest realmId
    Remote.pure (compositeRoleToAdd :: compositeRoles)

/-- Go `resourceKeycloakRoleRead`. -/
def resourceKeycloakRoleRead (k : ProviderConstants) (kc : KeycloakClient σ) (data : RoleData) :
    Remote σ RoleData := do
  let realmId := data.realm_id
  let id := data.Id
  match ← (kc.GetRole realmId id).attempt with
  | .error err => handleNotFoundError err data (fun d id => { d with Id := id })
  | .ok role =>
    let data := mapFromRoleToData k data role
    let data ←
      if role.Composite then do
        let composites ← kc.GetRoleComposites role
        let compositeRoleIds := composites.map (fun composite => composite.Id)
        -- `data.Set("composite_roles", compositeRoleIds)` stores the ids as a set
        Remote.pure { data with composite_roles := some (schema.NewSet compositeRoleIds).List }
      else Remote.pure data
    -- `data.Set("import", false)` when `GetOk("import")` is not ok, i.e. when it is false
    let data := if data.import_ then data else { data with import_ := false }
    Remote.pure data

/-- The loop of `resourceKeycloakRoleUpdate` over the remote composites: a composite that is
declared is taken out of the declared set, any other is collected for removal. -/
def compositeDiff : List Role → schema.Set → List Role → schema.Set × List Role
  | [], tfCompositeIds, keycloakCompositesToRemove => (tfCompositeIds, keycloakCompositesToRemove)
  | keycloakComposite :: rest, tfCompositeIds, keycloakCompositesToRemove =>
    if tfCompositeIds.Contains keycloakComposite.Id then
      compositeDiff rest (tfCompositeIds.Remove keycloakComposite.Id) keycloakCompositesToRemove
    else
      compositeDiff rest tfCompositeIds (keycloakCompositesToRemove ++ [keycloakComposite])

/-- Go `resourceKeycloakRoleUpdate`. The lookups of the roles to add are the same loop as
`mapCompositeRoleIdsToRoleObjects`. `tfCompositeIds` is the set the document holds, not a
copy, so the document that goes on to the final read holds what the loop has left of it. -/
def resourceKeycloakRoleUpdate (k : ProviderConstants) (kc : KeycloakClient σ) (data : RoleData) :
    Remote σ RoleData := do
  let role := mapFromDataToRole k data
  kc.UpdateRole role
  let keycloakComposites ← kc.GetRoleComposites role
  match data.GetOk_composite_roles with
  | (v, true) =>
    let (tfCompositeIds, keycloakCompositesToRemove) := compositeDiff keycloakComposites v []
    let data := { data with composite_roles := some tfCompositeIds.List }
    if keycloakCompositesToRemove.length ≠ 0 then
      kc.RemoveCompositesFromRole role keycloakCompositesToRemove
    if tfCompositeIds.Len ≠ 0 then
      let compositesToAdd ← mapCompositeRoleIdsToRoleObjects kc tfCompositeIds.List role.RealmId
      kc.AddCompositesToRole role compositesToAdd
    resourceKeycloakRoleRead k kc data
  | (_, false) =>
    if keycloakComposites.length ≠ 0 then
      kc.RemoveCompositesFromRole role keycloakComposites
    resourceKeycloakRoleRead k kc data

/-- Go `resourceKeycloakRoleCreate`. -/
def resourceKeycloakRoleCreate (k : ProviderConstants) (kc : KeycloakClient σ) (data : RoleData) :
    Remote σ RoleData := do
  let role := mapFromDataToRole k data
  let role ←
    if data.import_ then do
      let realmId := data.realm_id
      let name := data.name
      let clientId := data.client_id
      let (compositeRolesValue, compositeRolesSpecified) := data.GetOk_composite_roles
      let compositeRoles ← mapCompositeRoleIdsToRoleObjects kc compositeRolesValue.List role.RealmId
      let role := if compositeRoles.length ≠ 0 then { role with Composite := true } else role
      let existingRole ← kc.GetRoleByName realmId clientId name
      let role := mergo.Merge role existingRole
      kc.UpdateRole role
      let existingCompositeRoles ← kc.GetRoleComposites role
      if role.Composite && compositeRolesSpecified then
        kc.RemoveCompositesFromRole role existingCompositeRoles
        kc.AddCompositesToRole role compositeRoles
      Remote.pure role
    else do
      let compositeRoles ←
        mapCompositeRoleIdsToRoleObjects kc data.Get_composite_roles.List role.RealmId
      let role := if compositeRoles.length ≠ 0 then { role with Composite := true } else role
      let id ← kc.CreateRole role
      let role := { role with Id := id }
      if role.Composite then
        kc.AddCompositesToRole role compositeRoles
      Remote.pure role
  let data := mapFromRoleToData k data role
  resourceKeycloakRoleRead k kc data

/-- Go `resourceKeycloakRoleDelete`. -/
def resourceKeycloakRoleDelete (kc : KeycloakClient σ) (data : RoleData) : Remote σ Unit :=
  if data.import_ then Remote.pure ()
  else
    let realmId := data.realm_id
    let id := data.Id
    kc.DeleteRole realmId id

/-- The error of a malformed import id. -/
def invalidImportError : GoError :=
  ⟨"Invalid import. Supported import format: \x7b\x7brealm\x7d\x7d/\x7b\x7broleId\x7d\x7d.", false⟩

/-- Go `resourceKeycloakRoleImport`. -/
def resourceKeycloakRoleImport (k : ProviderConstants) (kc : KeycloakClient σ) (d : RoleData) :
    Remote σ (List RoleData) :=
  match strings.Split d.Id "/" with
  | [part0, part1] => do
    let _ ← kc.GetRole part0 part1
    let d := { d with realm_id := part0, import_ := false, Id := part1 }
    match ← (resourceKeycloakRoleRead k kc d).attempt with
    | .error e => Remote.fail ⟨e.message, false⟩
    | .ok d => Remote.pure [d]
  | _ => Remote.fail invalidImportError

end RoleHandlers

/-! ## `encoding/json`

The handlers call `json.Unmarshal` and `json.Marshal`. They take the codec as a parameter;
`goJson` is a model of the Go library on a fragment of JSON: texts without string escapes,
and numbers that are integers below 2^53 without a fraction, an exponent or a negative
zero. On a text outside the fragment `goJson` answers with an error, which the library does
not; the general theorems hold for every codec, and `goJson` is only run on texts of the
fragment. -/

/-- The two functions of `encoding/json` that the handlers use. `Unmarshal` decodes a text
into an `interface{}` (`none` is an error), `Marshal` encodes a value (`none` is an error). -/
structure JsonCodec where
  Unmarshal : String → Option Value
  Marshal : Value → Option String

/-- Go `t := make([]interface{}, 0); json.Unmarshal([]byte(value), &t)`: on an error, or when
the text is not an array, `t` stays the empty slice. -/
def JsonCodec.unmarshalSlice (json : JsonCodec) (value : String) : List Value :=
  match json.Unmarshal value with
  | some (.list xs) => xs
  | _ => []

/-- Go `var t interface{}; json.Unmarshal([]byte(value), &t)`: on an error `t` stays nil. -/
def JsonCodec.unmarshalAny (json : JsonCodec) (value : String) : Value :=
  match json.Unmarshal value with
  | some v => v
  | none => .null

/-- Go `t, _ := json.Marshal(v); string(t)`: on an error the string is empty. -/
def JsonCodec.marshalString (json : JsonCodec) (v : Value) : String :=
  (json.Marshal v).getD ""

namespace goJson

def isSpace (c : Char) : Bool := c = ' ' || c = '\t' || c = '\n' || c = '\r'

def skipSpace : List Char → List Char
  | [] => []
  | c :: cs => if isSpace c then skipSpace cs else c :: cs

/-- The characters of a string literal up to the closing quote. A backslash (an escape) is
outside the fragment and a control character is invalid: both give `none`. -/
def parseChars : List Char → List Char → Option (String × List Char)
  | _, [] => none
  | acc, c :: cs =>
    if c = '"' then some (String.mk acc.reverse, cs)
    else if c = '\\' || c.toNat < 32 then none
    else parseChars (c :: acc) cs

def parseDigits : Nat → List Char → Nat × List Char
  | n, [] => (n, [])
  | n, c :: cs => if c.isDigit then parseDigits (10 * n + (c.toNat - 48)) cs else (n, c :: cs)

/-- After the digits of an integer: a fraction or an exponent is outside the fragment, and
so is an integer that a `float64` does not hold exactly. -/
def finishNumber (n : Nat) (rest : List Char) : Option (Nat × List Char) :=
  match rest with
  | '.' :: _ => none
  | 'e' :: _ => none
  | 'E' :: _ => none
  | _ => if n < 9007199254740992 then some (n, rest) else none

/-- An unsigned integer literal without a leading zero. -/
def parseNat : List Char → Option (Nat × List Char)
  | '0' :: rest => finishNumber 0 rest
  | c :: rest =>
    if c.isDigit then
      match parseDigits (c.toNat - 48) rest with
      | (n, rest1) => finishNumber n rest1
    else none
  | [] => none

/-- Order of keys as `json.Marshal` writes them: as byte strings, which for UTF-8 is the
order of the character codes. -/
def keyLt (a b : String) : Bool :=
  decide (a.data.map Char.toNat < b.data.map Char.toNat)

/-- Go assignment `m[key] = v` on a decoded object, which is held as its association list
in key order: a key that is present gets the new value. -/
def setKey : List (String × Value) → String → Value → List (String × Value)
  | [], key, v => [(key, v)]
  | (k, x) :: rest, key, v =>
    if key = k then (key, v) :: rest
    else if keyLt key k then (key, v) :: (k, x) :: rest
    else (k, x) :: setKey rest key v

mutual

/-- One JSON value, after optional white space. `fuel` bounds the nesting and the number of
elements; twice the length of the text is always enough. -/
def parseValue : Nat → List Char → Option (Value × List Char)
  | 0, _ => none
  | fuel + 1, cs =>
    match skipSpace cs with
    | 'n' :: 'u' :: 'l' :: 'l' :: rest => some (.null, rest)
    | 't' :: 'r' :: 'u' :: 'e' :: rest => some (.bool true, rest)
    | 'f' :: 'a' :: 'l' :: 's' :: 'e' :: rest => some (.bool false, rest)
    | '"' :: rest => (parseChars [] rest).map (fun r => (Value.str r.1, r.2))
    | '[' :: rest =>
      match skipSpace rest with
      | ']' :: rest1 => some (.list [], rest1)
      | _ => (parseElements fuel rest).map (fun r => (Value.list r.1, r.2))
    | '{' :: rest =>
      match skipSpace rest with
      | '}' :: rest1 => some (.obj [], rest1)
      | _ => (parseMembers fuel rest []).map (fun r => (Value.obj r.1, r.2))
    | '-' :: rest =>
      match parseNat rest with
      | some (0, _) => none
      | some (n, rest1) => some (.num (-(n : Int)), rest1)
      | none => none
    | rest => (parseNat rest).map (fun r => (Value.num (r.1 : Int), r.2))

/-- The elements of a non-empty array up to the closing bracket. -/
def parseElements : Nat → List Char → Option (List Value × List Char)
  | 0, _ => none
  | fuel + 1, cs =>
    match parseValue fuel cs with
    | none => none
    | some (v, rest) =>
      match skipSpace rest with
      | ',' :: rest1 => (parseElements fuel rest1).map (fun r => (v :: r.1, r.2))
      | ']' :: rest1 => some ([v], rest1)
      | _ => none

/-- The members of a non-empty object up to the closing brace; a repeated key keeps its
last value. -/
def parseMembers : Nat → List Char → List (String × Value) → Option (List (String × Value) × List Char)
  | 0, _, _ => none
  | fuel + 1, cs, acc =>
    match skipSpace cs with
    | '"' :: rest =>
      match parseChars [] rest with
      | none => none
      | some (key, rest1) =>
        match skipSpace rest1 with
        | ':' :: rest2 =>
          match parseValue fuel rest2 with
          | none => none
          | some (v, rest3) =>
            match skipSpace rest3 with
            | ',' :: rest4 => parseMembers fuel rest4 (setKey acc key v)
            | '}' :: rest4 => some (setKey acc key v, rest4)
            | _ => none
        | _ => none
    | _ => none

end

/-- Model of `json.Unmarshal` into an `interface{}` on the fragment of JSON without string
escapes, fractions and exponents: one value, white space around it, nothing else. Texts
outside the fragment are reported as errors. -/
def Unmarshal (s : String) : Option Value :=
  match parseValue (2 * s.data.length + 2) s.data with
  | some (v, rest) => if skipSpace rest = [] then some v else none
  | none => none

def hexDigit (n : Nat) : Char := Char.ofNat (if n < 10 then 48 + n else 87 + n)

/-- The encoding of one character of a string, as `json.Marshal` escapes it (HTML-safe);
control characters other than `\n`, `\r`, `\t` are outside the fragment. -/
def escapeChar (c : Char) : Option (List Char) :=
  if c = '"' then some ['\\', '"']
  else if c = '\\' then some ['\\', '\\']
  else if c = '\n' then some ['\\', 'n']
  else if c = '\r' then some ['\\', 'r']
  else if c = '\t' then some ['\\', 't']
  else if c.toNat < 32 then none
  else if c = '<' || c = '>' || c = '&' then
    some ['\\', 'u', '0', '0', hexDigit (c.toNat / 16), hexDigit (c.toNat % 16)]
  else if c.toNat = 8232 then some ['\\', 'u', '2', '0', '2', '8']
  else if c.toNat = 8233 then some ['\\', 'u', '2', '0', '2', '9']
  else some [c]

def marshalChars : List Char → Option (List Char)
  | [] => some []
  | c :: cs =>
    match escapeChar c, marshalChars cs with
    | some e, some rest => some (e ++ rest)
    | _, _ => none

def marshalText (s : String) : Option (List Char) :=
  (marshalChars s.data).map (fun body => '"' :: body ++ ['"'])

mutual

def marshalValue : Value → Option (List Char)
  | .null => some "null".data
  | .bool true => some "true".data
  | .bool false => some "false".data
  | .num n => some (toString n).data
  | .str s => marshalText s
  | .list xs => (marshalElements xs).map (fun body => '[' :: body ++ [']'])
  | .obj kvs => (marshalMembers kvs).map (fun body => '{' :: body ++ ['}'])

def marshalElements : List Value → Option (List Char)
  | [] => some []
  | [x] => marshalValue x
  | x :: xs =>
    match marshalValue x, marshalElements xs with
    | some a, some rest => some (a ++ ',' :: rest)
    | _, _ => none

/-- The members, in the key order in which a decoded object is held. -/
def marshalMembers : List (String × Value) → Option (List Char)
  | [] => some []
  | [(key, v)] =>
    match marshalText key, marshalValue v with
    | some a, some b => some (a ++ ':' :: b)
    | _, _ => none
  | (key, v) :: kvs =>
    match marshalText key, marshalValue v, marshalMembers kvs with
    | some a, some b, some rest => some (a ++ ':' :: b ++ ',' :: rest)
    | _, _, _ => none

end

/-- Model of `json.Marshal` on the values of the fragment. -/
def Marshal (v : Value) : Option String :=
  (marshalValue v).map String.mk

end goJson

/-- The model of `encoding/json`. -/
def goJsonCodec : JsonCodec := ⟨goJson.Unmarshal, goJson.Marshal⟩

/-! ## The realm user profile handlers (`resource_keycloak_realm_user_profile.go`) -/

def DISABLED : String := "DISABLED"
def ENABLED : String := "ENABLED"
def ADMIN_VIEW : String := "ADMIN_VIEW"
def ADMIN_EDIT : String := "ADMIN_EDIT"

def USER_PROFILE_ENABLED : String := "userProfileEnabled"

namespace keycloak

/-- Modelled from the spec: the server versions the handlers compare with (declared in the
client package), as major version numbers. -/
def Version_24 : Nat := 24

/-- Modelled from the spec: the version from which `username` and `email` are mandatory. -/
def Version_23 : Nat := 23

end keycloak

/-- The `permissions` block of an attribute in the configuration document. -/
structure PermissionsData where
  view : Option (List String)
  edit : Option (List String)
deriving DecidableEq, Repr

/-- A `validator` block; `V` is the type of the configuration values: strings in what the SDK
hands to the provider, dynamic values in what the provider hands to `data.Set`. -/
structure ValidatorData (V : Type) where
  name : String
  config : Option (List (String × V))
deriving Repr

/-- An `attribute` block (`map[string]interface{}`) with the keys of the schema; a key that
the code tests for presence is an option. An element of the `permissions` list is `none`
when it is Go's `nil`, which is what the SDK hands to the provider for a `permissions`
block that sets neither `view` nor `edit`. -/
structure AttributeData (V : Type) where
  name : String
  display_name : String
  multi_valued : Bool
  group : String
  multivalued : Bool
  enabled_when_scope : Option (List String)
  required_for_roles : Option (List String)
  required_for_scopes : Option (List String)
  permissions : Option (List (Option PermissionsData))
  validator : Option (List (ValidatorData V))
  annotations : Option (List (String × V))
deriving Repr

/-- A `group` block. -/
structure GroupData (V : Type) where
  name : String
  display_header : String
  display_description : String
  annotations : Option (List (String × V))
deriving Repr

/-- The `schema.ResourceData` of a `keycloak_realm_user_profile` resource; `attribute_` is
its `attribute` list. -/
structure ProfileData (V : Type) where
  Id : String
  realm_id : String
  attribute_ : List (AttributeData V)
  group : List (GroupData V)
  unmanaged_attribute_policy : String
deriving Repr

/-- Go assignment `m[key] = v` on a map held as an association list. -/
def goMapSet {α : Type} (m : List (String × α)) (key : String) (v : α) : List (String × α) :=
  if m.any (fun kv => decide (kv.1 = key)) then
    m.map (fun kv => if kv.1 = key then (key, v) else kv)
  else m ++ [(key, v)]

/-- Modelled from the spec: `interfaceSliceToStringSlice`, declared in another file of the
provider. The spec holds scopes and roles as lists of strings; the function returns the
elements it is given, typed as strings. -/
def interfaceSliceToStringSlice (xs : List String) : List String := xs

/-- Go `getRealmUserProfileAttributeFromData`. The result is `none` when the Go function
panics: line 178 asserts the first element of a non-empty `permissions` list to be a map,
which fails on a nil element. The Go code builds the attribute and then fills one field per
block; here the `permissions` block, the only one that can panic, comes first and each
other field is given with the block that fills it. -/
def getRealmUserProfileAttributeFromData (json : JsonCodec) (m : AttributeData String) :
    Option RealmUserProfileAttribute :=
  let filled : Option (Option RealmUserProfilePermissions) :=
    match m.permissions with
    | some (some permissionsConfig :: _) =>
      let permissions : RealmUserProfilePermissions := { Edit := [], View := [] }
      let permissions :=
        match permissionsConfig.view with
        | some v => { permissions with View := v }
        | none => permissions
      let permissions :=
        match permissionsConfig.edit with
        | some v => { permissions with Edit := v }
        | none => permissions
      some (some permissions)
    -- `v.([]interface{})[0].(map[string]interface{})` on a nil element
    | some (none :: _) => none
    | _ => some none
  match filled with
  | none => none
  | some permissions =>
    some
      { Name := m.name
        DisplayName := m.display_name
        Group := m.group
        Multivalued := m.multivalued
        -- `if v, ok := m["multivalued"].(bool); ok { attribute.MultiValued = v }`: the key
        -- always holds a bool, so `ok` is true
        MultiValued := m.multivalued
        Permissions := permissions
        Selector :=
          match m.enabled_when_scope with
          | some v =>
            if (interfaceSliceToStringSlice v).length ≠ 0 then
              some { Scopes := interfaceSliceToStringSlice v }
            else none
          | none => none
        Validations :=
          match m.validator with
          | some v =>
            some (v.foldl (fun validations validationConfig =>
              let name := validationConfig.name
              if name = "" then validations
              else
                let config : List (String × Value) :=
                  match validationConfig.config with
                  | some c =>
                    c.map (fun kv =>
                      if strings.HasPrefix kv.2 "[" then
                        (kv.1, Value.list (json.unmarshalSlice kv.2))
                      else (kv.1, Value.str kv.2))
                  | none => []
                goMapSet validations name config) [])
          | none => none
        Required :=
          let required : RealmUserProfileRequired := { Roles := [], Scopes := [] }
          let required :=
            match m.required_for_roles with
            | some v => { required with Roles := interfaceSliceToStringSlice v }
            | none => required
          let required :=
            match m.required_for_scopes with
            | some v => { required with Scopes := interfaceSliceToStringSlice v }
            | none => required
          if required.Roles.length ≠ 0 || required.Scopes.length ≠ 0 then some required
          else none
        Annotations :=
          match m.annotations with
          | some v =>
            some (v.map (fun kv =>
              if strings.HasPrefix kv.2 "\x7b" then (kv.1, json.unmarshalAny kv.2)
              else (kv.1, Value.str kv.2)))
          | none => none }

/-- Go `getRealmUserProfileAttributesFromData`; `none` when the mapping of an element
panics. -/
def getRealmUserProfileAttributesFromData (json : JsonCodec) (lst : List (AttributeData String)) :
    Option (List RealmUserProfileAttribute) :=
  lst.foldlM (fun attributes m =>
    match getRealmUserProfileAttributeFromData json m with
    | none => none
    | some userProfileAttribute =>
      if userProfileAttribute.Name ≠ "" then some (attributes ++ [userProfileAttribute])
      else some attributes) []

/-- Go `getRealmUserProfileGroupFromData`. -/
def getRealmUserProfileGroupFromData (json : JsonCodec) (m : GroupData String) :
    RealmUserProfileGroup :=
  { DisplayDescription := m.display_description
    DisplayHeader := m.display_header
    Name := m.name
    Annotations :=
      match m.annotations with
      | some v =>
        some (v.map (fun kv =>
          if strings.HasPrefix kv.2 "\x7b" then (kv.1, json.unmarshalAny kv.2)
          else (kv.1, Value.str kv.2)))
      | none => none }

/-- Go `getRealmUserProfileGroupsFromData`. -/
def getRealmUserProfileGroupsFromData (json : JsonCodec) (lst : List (GroupData String)) :
    List RealmUserProfileGroup :=
  lst.foldl (fun groups m =>
    let userProfileGroup := getRealmUserProfileGroupFromData json m
    if userProfileGroup.Name ≠ "" then groups ++ [userProfileGroup]
    else groups) []

/-- Go `getRealmUserProfileAttributeData`. -/
def getRealmUserProfileAttributeData (json : JsonCodec) (attr : RealmUserProfileAttribute) :
    AttributeData Value :=
  { name := attr.Name
    display_name := attr.DisplayName
    multi_valued := attr.MultiValued
    group := attr.Group
    multivalued := attr.Multivalued
    enabled_when_scope :=
      match attr.Selector with
      | some selector => if selector.Scopes.length ≠ 0 then some selector.Scopes else none
      | none => none
    required_for_roles :=
      match attr.Required with
      | some required => some required.Roles
      | none => some []
    required_for_scopes :=
      match attr.Required with
      | some required => some required.Scopes
      | none => some []
    permissions :=
      match attr.Permissions with
      | some permissions =>
        some [some { edit := some permissions.Edit, view := some permissions.View }]
      | none => none
    validator :=
      match attr.Validations with
      | some validations =>
        some (validations.map (fun nc =>
          { name := nc.1
            config := some (nc.2.map (fun kv =>
              match kv.2 with
              | .list _ => (kv.1, Value.str (json.marshalString kv.2))
              | v => (kv.1, v))) }))
      | none => none
    annotations :=
      match attr.Annotations with
      | some annotations =>
        some (annotations.map (fun kv =>
          match kv.2 with
          | .obj _ => (kv.1, Value.str (json.marshalString kv.2))
          | v => (kv.1, v)))
      | none => none }

/-- Go `getRealmUserProfileGroupData`. -/
def getRealmUserProfileGroupData (json : JsonCodec) (group : RealmUserProfileGroup) :
    GroupData Value :=
  { name := group.Name
    display_header := group.DisplayHeader
    display_description := group.DisplayDescription
    annotations :=
      some ((group.Annotations.getD []).map (fun kv =>
        match kv.2 with
        | .obj _ => (kv.1, Value.str (json.marshalString kv.2))
        | v => (kv.1, v))) }

section ProfileHandlers

variable {σ : Type}

/-- The error of `checkUserProfileEnabled`. -/
def userProfileDisabledError (realmId : String) : GoError :=
  ⟨"User Profile is disabled for the " ++ realmId ++ " realm", false⟩

/-- Go `checkUserProfileEnabled`. -/
def checkUserProfileEnabled (kc : KeycloakClient σ) (realmId : String) : Remote σ Unit := do
  let versionOk ← kc.VersionIsGreaterThanOrEqualTo keycloak.Version_24
  if versionOk then
    Remote.pure ()
  else
    let realm ← kc.GetRealm realmId
    let userProfileEnabled := realm.Attributes.lookup USER_PROFILE_ENABLED
    match userProfileEnabled with
    | some (.bool value) =>
      if value then Remote.pure () else Remote.fail (userProfileDisabledError realmId)
    | some (.str value) =>
      if strings.ToLower value = "true" then Remote.pure ()
      else Remote.fail (userProfileDisabledError realmId)
    | _ => Remote.fail (userProfileDisabledError realmId)

/-- Go `getRealmUserProfileFromData`. The attribute and group lists are built before the
first remote call; the result is `none` when building the attribute list panics. -/
def getRealmUserProfileFromData (json : JsonCodec) (kc : KeycloakClient σ)
    (data : ProfileData String) : Option (Remote σ RealmUserProfile) :=
  match getRealmUserProfileAttributesFromData json data.attribute_ with
  | none => none
  | some attributes => some (do
    let realmUserProfile : RealmUserProfile :=
      { Attributes := attributes
        Groups := getRealmUserProfileGroupsFromData json data.group
        UnmanagedAttributePolicy := none }
    let versionOk ← kc.VersionIsGreaterThanOrEqualTo keycloak.Version_24
    let unmanagedAttr := data.unmanaged_attribute_policy
    if versionOk && unmanagedAttr ≠ DISABLED then
      Remote.pure { realmUserProfile with UnmanagedAttributePolicy := some unmanagedAttr }
    else Remote.pure realmUserProfile)

/-- Go `setRealmUserProfileData`. The document it fills holds dynamic values. -/
def setRealmUserProfileData (json : JsonCodec) (kc : KeycloakClient σ) (data : ProfileData Value)
    (realmUserProfile : RealmUserProfile) : Remote σ (ProfileData Value) := do
  let attributes := realmUserProfile.Attributes.map (getRealmUserProfileAttributeData json)
  let data := { data with attribute_ := attributes }
  let groups := realmUserProfile.Groups.map (getRealmUserProfileGroupData json)
  let data := { data with group := groups }
  let versionOk ← kc.VersionIsGreaterThanOrEqualTo keycloak.Version_24
  if versionOk then
    match realmUserProfile.UnmanagedAttributePolicy with
    | some policy => Remote.pure { data with unmanaged_attribute_policy := policy }
    | none => Remote.pure { data with unmanaged_attribute_policy := DISABLED }
  else Remote.pure data

/-- Go `resourceKeycloakRealmUserProfileDelete`. The error of the version query is ignored
(`ok, _ := ...`), so a failed query counts as "below 23". -/
def resourceKeycloakRealmUserProfileDelete (kc : KeycloakClient σ) (data : ProfileData String) :
    Remote σ Unit := do
  let realmId := data.realm_id
  checkUserProfileEnabled kc realmId
  let realmUserProfile : RealmUserProfile :=
    { Attributes := [], Groups := [], UnmanagedAttributePolicy := none }
  let ok ← (kc.VersionIsGreaterThanOrEqualTo keycloak.Version_23).attempt
  let realmUserProfile :=
    match ok with
    | .ok true =>
      { realmUserProfile with
        Attributes := [
          { Name := "username", DisplayName := "", Group := "", Multivalued := false,
            MultiValued := false, Permissions := none, Selector := none, Validations := none,
            Required := none, Annotations := none },
          { Name := "email", DisplayName := "", Group := "", Multivalued := false,
            MultiValued := false, Permissions := none, Selector := none, Validations := none,
            Required := none, Annotations := none }] }
    | _ => realmUserProfile
  kc.UpdateRealmUserProfile realmId realmUserProfile

end ProfileHandlers

/-! ## Vocabulary of the statements -/

/-- No remote call in the log was answered with an error. -/
@[reducible] def AllOk (log : List Event) : Prop := ∀ e ∈ log, e.reply.isOk = true

/-- The remote composites that are not declared. -/
def compositesToRemove (R : List Role) (D : List String) : List Role :=
  R.filter (fun r => decide (r.Id ∉ D))

/-- The declared composite ids that the remote does not have. -/
def compositeIdsToAdd (R : List Role) (D : List String) : List String :=
  D.filter (fun id => decide (id ∉ R.map Role.Id))

/-- The call changes the composite set of a role. -/
def Call.isCompositeChange : Call → Bool
  | .AddCompositesToRole _ _ => true
  | .RemoveCompositesFromRole _ _ => true
  | _ => false

/-- The role object a call sends to the remote to be stored (`CreateRole`, `UpdateRole`). -/
def Call.sentRole? : Call → Option Role
  | .CreateRole role => some role
  | .UpdateRole role => some role
  | _ => none

/-- The role objects sent to the remote during a run, in order. -/
def sentRoles (log : List Event) : List Role :=
  log.filterMap (fun e => e.call.sentRole?)

/-- No call in the log changes a composite set. -/
@[reducible] def NoCompositeChange (log : List Event) : Prop :=
  ∀ e ∈ log, e.call.isCompositeChange = false

/-- A role lookup was answered with a role that carries the id and realm asked for; true of
every other event. -/
def Event.faithfulLookup : Event → Bool
  | ⟨.GetRole realmId id, .role r⟩ => decide (r.Id = id ∧ r.RealmId = realmId)
  | _ => true

/-- The composite set a remote holds after it has applied the composite calls of a log to
the set `R`: a removal deletes the listed roles by id, an addition appends the listed
roles. -/
def applyCompositeCalls : List Role → List Event → List Role
  | R, [] => R
  | R, ⟨.RemoveCompositesFromRole _ cs, .done⟩ :: rest =>
    applyCompositeCalls (R.filter (fun r => decide (r.Id ∉ cs.map Role.Id))) rest
  | R, ⟨.AddCompositesToRole _ cs, .done⟩ :: rest => applyCompositeCalls (R ++ cs) rest
  | R, _ :: rest => applyCompositeCalls R rest

/-! ## A concrete remote, to run the handlers on examples -/

/-- A small remote: the roles it knows, the composites of the managed role, its version and
the realm. -/
structure SimRemote where
  roles : List Role
  composites : List Role
  version : Nat
  realm : Realm

/-- A client that answers from a `SimRemote` and applies composite changes to it. -/
def simClient : KeycloakClient SimRemote where
  versionIsGreaterThanOrEqualTo := fun v s => (.ok (decide (v ≤ s.version)), s)
  getRealm := fun _ s => (.ok s.realm, s)
  getRealmUserProfile := fun _ s => (.ok ⟨[], [], none⟩, s)
  updateRealmUserProfile := fun _ _ s => (.ok (), s)
  getRole := fun _ id s =>
    match s.roles.find? (fun r => r.Id == id) with
    | some r => (.ok r, s)
    | none => (.error ⟨"role not found", true⟩, s)
  getRoleByName := fun _ _ name s =>
    match s.roles.find? (fun r => r.Name == name) with
    | some r => (.ok r, s)
    | none => (.error ⟨"role not found", true⟩, s)
  createRole := fun role s =>
    (.ok "new-id", { s with roles := { role with Id := "new-id" } :: s.roles })
  updateRole := fun _ s => (.ok (), s)
  deleteRole := fun _ id s => (.ok (), { s with roles := s.roles.filter (fun r => r.Id != id) })
  getRoleComposites := fun _ s => (.ok s.composites, s)
  addCompositesToRole := fun _ cs s => (.ok (), { s with composites := s.composites ++ cs })
  removeCompositesFromRole := fun _ cs s =>
    (.ok (), { s with composites := s.composites.filter (fun r => decide (r.Id ∉ cs.map Role.Id)) })

def simRole (id : String) : Role := ⟨id, "realm", "", id, "", false, []⟩

def simConstants : ProviderConstants := ⟨"##"⟩

/-- A role document that declares the composites B, C and D, listed as `List()` returns
them: in the order of their keys, which puts C first. -/
def simData : RoleData := ⟨"role", "realm", "", "role", "", some ["C", "B", "D"], [], false⟩

/-- A remote on which the managed role has the composites A, B and C. -/
def simRemoteABC : SimRemote :=
  { roles := [simRole "role", simRole "A", simRole "B", simRole "C", simRole "D"]
    composites := [simRole "A", simRole "B", simRole "C"]
    version := 24
    realm := ⟨[]⟩ }

/-- A role document that declares the one composite `declared`. -/
def simCollisionData (declared : String) : RoleData :=
  ⟨"role", "realm", "", "role", "", some [declared], [], false⟩

/-- A remote that knows the roles `held` and `declared` and on which the managed role has
the one composite `held`. -/
def simCollisionRemote (held declared : String) : SimRemote :=
  { roles := [simRole "role", simRole held, simRole declared]
    composites := [simRole held]
    version := 24
    realm := ⟨[]⟩ }

/-- A validator configuration text that does not start with `[`, or that is the text
`json.Marshal` writes for the list it decodes to. -/
def JsonCodec.stableListText (json : JsonCodec) (v : String) : Bool :=
  !strings.HasPrefix v "[" ||
    match json.Unmarshal v with
    | some (.list xs) => decide (json.Marshal (.list xs) = some v)
    | _ => false

/-- An attribute document in which only the name and the two multi-valued flags are set. -/
def simAttribute (name : String) (multi_valued multivalued : Bool) : AttributeData String :=
  { name := name
    display_name := ""
    multi_valued := multi_valued
    group := ""
    multivalued := multivalued
    enabled_when_scope := some []
    required_for_roles := some []
    required_for_scopes := some []
    permissions := some []
    validator := some []
    annotations := some [] }

/-- An attribute document with the given name whose `permissions` block sets neither
`view` nor `edit`: the SDK hands the block to the provider as a nil element. -/
def simNilPermissionsAttribute (name : String) : AttributeData String :=
  { simAttribute name false false with permissions := some [none] }

/-- Mapping an attribute document to the remote form and the result back to a document;
`none` when the first mapping panics. -/
def attributeRoundTrip (json : JsonCodec) (m : AttributeData String) :
    Option (AttributeData Value) :=
  (getRealmUserProfileAttributeFromData json m).map (getRealmUserProfileAttributeData json)

/-- The configuration value of the first entry of the first validator, when it is a string. -/
def firstValidatorConfigValue (d : AttributeData Value) : Option String :=
  match d.validator with
  | some (v :: _) =>
    match v.config with
    | some ((_, .str s) :: _) => some s
    | _ => none
  | _ => none

/-- An attribute document with one validator, `options`, whose configuration has the one
entry `options = value`. -/
def simValidatorAttribute (value : String) : AttributeData String :=
  { simAttribute "department" false false with
    validator := some [{ name := "options", config := some [("options", value)] }] }

/-- An attribute document with the given validators. -/
def simValidatorsAttribute (validators : List (ValidatorData String)) : AttributeData String :=
  { simAttribute "department" false false with validator := some validators }

/-- No occurrence of the separator starts inside the value, not even one that runs into a
separator that follows the value: the separator does not occur in the value followed by the
separator without its last character. -/
def separatorFree (sep v : String) : Bool :=
  (strings.indexChars sep.data (v.data ++ sep.data.dropLast)).isNone

/-- The list of values can be told apart after joining: it is not empty, its last value does
not contain the separator, and in every value before the last no occurrence of the
separator starts (`separatorFree`). -/
def separable (sep : String) : List String → Bool
  | [] => false
  | [v] => !strings.Contains v sep
  | v :: w :: rest => separatorFree sep v && separable sep (w :: rest)

/-- The condition `separable` on character lists. -/
def strings.separableChars (sep : List Char) : List (List Char) → Prop
  | [] => False
  | [v] => strings.indexChars sep v = none
  | v :: w :: rest =>
    strings.indexChars sep (v ++ sep.dropLast) = none ∧ strings.separableChars sep (w :: rest)

/-- The text of an import id before its first `/`. -/
def importRealm (id : String) : String :=
  String.mk (id.data.takeWhile (fun x => !decide (x = '/')))

/-- The text of an import id after its first `/`. -/
def importRoleId (id : String) : String :=
  String.mk ((id.data.dropWhile (fun x => !decide (x = '/'))).tail)

/-- The text is `true` up to the case of its four letters. -/
def equalsTrueIgnoringCase (s : String) : Bool :=
  match s.data with
  | [a, b, c, d] =>
    (a = 't' || a = 'T') && (b = 'r' || b = 'R') && (c = 'u' || c = 'U') && (d = 'e' || d = 'E')
  | _ => false

/-- The realm attribute `userProfileEnabled` is the boolean `true` or a string equal to
`true` ignoring case. -/
def userProfileFlag (realm : Realm) : Bool :=
  match realm.Attributes.lookup "userProfileEnabled" with
  | some (.bool b) => b
  | some (.str v) => equalsTrueIgnoringCase v
  | _ => false

/-- The example remote at another server version and with other realm attributes. -/
def simRemoteRealm (version : Nat) (attributes : List (String × Value)) : SimRemote :=
  { simRemoteABC with version := version, realm := ⟨attributes⟩ }

def Call.isCreateRole : Call → Bool
  | .CreateRole _ => true
  | _ => false

/-- The role that the import path of create pushes: the role built from the document, with
the composite flag set when composites were resolved, merged with the existing role. -/
def importMergedRole (k : ProviderConstants) (data : RoleData) (resolved : List Role)
    (existingRole : Role) : Role :=
  mergo.Merge
    (if resolved.length ≠ 0 then { mapFromDataToRole k data with Composite := true }
      else mapFromDataToRole k data)
    existingRole

/-- A role document in import mode that declares the composites B and D. -/
def simImportData : RoleData :=
  ⟨"", "realm", "", "role", "", some ["B", "D"], [], true⟩

/-- A role document in import mode that declares no composites. -/
def simImportDataPlain : RoleData :=
  ⟨"", "realm", "", "role", "", none, [], true⟩

/-- The reply that the log records for a call without a value: the error, or `done`. -/
def Reply.ofResult : Except GoError Unit → Reply
  | .error e => .err e
  | .ok _ => .done

/-- The reply that the log records for a version query: the error, or the answer. -/
def Reply.ofAnswer : Except GoError Bool → Reply
  | .error e => .err e
  | .ok b => .bool b

/-- The version query was answered, and the answer was "yes". -/
def answeredYes : Except GoError Bool → Bool
  | .ok true => true
  | _ => false

/-- The example client with a version query for 23 that fails; every other call is
answered as by `simClient`. -/
def simClientQueryFails : KeycloakClient SimRemote :=
  { simClient with
    versionIsGreaterThanOrEqualTo := fun v s =>
      if v = keycloak.Version_23 then (.error ⟨"version query failed", false⟩, s)
      else simClient.versionIsGreaterThanOrEqualTo v s }

/-- The example client on a remote where a role is deleted right after it has been looked
up: the lookup answers with the role and the role is gone for the next lookup. -/
def simClientRoleVanishes : KeycloakClient SimRemote :=
  { simClient with
    getRole := fun _ id s =>
      match s.roles.find? (fun r => r.Id == id) with
      | some r => (.ok r, { s with roles := s.roles.filter (fun r => r.Id != id) })
      | none => (.error ⟨"role not found", true⟩, s) }

/-- The remote policy that stands for a declared policy on a server at version 24 or
above: none for `DISABLED`, the declared text otherwise. -/
def writtenPolicy (declared : String) : Option String :=
  if declared = DISABLED then none else some declared

/-- A profile document with the given policy and prior attributes. -/
def simProfileData (policy : String) (attributes : List (AttributeData String)) :
    ProfileData String :=
  { Id := "realm", realm_id := "realm", attribute_ := attributes, group := [],
    unmanaged_attribute_policy := policy }

/-- The state document of a profile before a read, with the given policy. -/
def simProfileState (policy : String) : ProfileData Value :=
  { Id := "realm", realm_id := "realm", attribute_ := [], group := [],
    unmanaged_attribute_policy := policy }

/-- A role document with the given id and import flag. -/
def simRoleState (id : String) (imported : Bool) : RoleData :=
  ⟨id, "realm", "", id, "", none, [], imported⟩

/-- A remote attribute of which only the name is set. -/
def nameOnlyAttribute (name : String) : RealmUserProfileAttribute :=
  { Name := name, DisplayName := "", Group := "", Multivalued := false, MultiValued := false,
    Permissions := none, Selector := none, Validations := none, Required := none,
    Annotations := none }

/-- The profile a delete resets to: no groups, no policy, and the attributes `username` and
`email` by name only when they are mandatory. -/
def resetProfile (mandatory : Bool) : RealmUserProfile :=
  { Attributes := if mandatory then [nameOnlyAttribute "username", nameOnlyAttribute "email"]
      else []
    Groups := []
    UnmanagedAttributePolicy := none }

/-- The call replaces the realm user profile. -/
def Call.isProfileUpdate : Call → Bool
  | .UpdateRealmUserProfile _ _ => true
  | _ => false

/-- A populated attribute document, as prior configuration. -/
def simPriorAttribute : AttributeData String :=
  { simValidatorAttribute "[\"a\",\"b\"]" with display_name := "Department", group := "work" }

/-- An annotation text that does not start with an opening brace, or that is the text
`json.Marshal` writes for the object it decodes to. -/
def JsonCodec.stableObjectText (json : JsonCodec) (v : String) : Bool :=
  !strings.HasPrefix v "\x7b" ||
    match json.Unmarshal v with
    | some (.obj kvs) => decide (json.Marshal (.obj kvs) = some v)
    | _ => false

/-- An attribute document with the one annotation `note = value`. -/
def simAnnotatedAttribute (value : String) : AttributeData String :=
  { simAttribute "department" false false with annotations := some [("note", value)] }

/-- A group document with the one annotation `note = value`. -/
def simAnnotatedGroup (value : String) : GroupData String :=
  { name := "work", display_header := "", display_description := "",
    annotations := some [("note", value)] }

/-- The value of the first annotation of a document, when it is a string. -/
def firstAnnotationText (annotations : Option (List (String × Value))) : Option String :=
  match annotations with
  | some ((_, .str s) :: _) => some s
  | _ => none

/-! # Theorems -/

namespace Remote
variable {σ α β : Type}

theorem bind_eq (m : Remote σ α) (f : α → Remote σ β) : (m >>= f) = Remote.bind m f := rfl
theorem pure_eq (a : α) : (Pure.pure a : Remote σ α) = Remote.pure a := rfl

theorem pure_bind (a : α) (f : α → Remote σ β) : (Remote.pure a).bind f = f a := by
  funext s
  simp [Remote.bind, Remote.pure]

theorem bind_run_ok {m : Remote σ α} {f : α → Remote σ β} {s s1 : σ} {a : α} {l1 : List Event}
    (h : m s = ⟨.ok a, s1, l1⟩) :
    m.bind f s = ⟨(f a s1).result, (f a s1).state, l1 ++ (f a s1).log⟩ := by
  simp [Remote.bind, h]

theorem bind_run_err {m : Remote σ α} {f : α → Remote σ β} {s s1 : σ} {e : GoError}
    {l1 : List Event} (h : m s = ⟨.error e, s1, l1⟩) :
    m.bind f s = ⟨.error e, s1, l1⟩ := by
  simp [Remote.bind, h]

theorem call_run_ok {c : Call} {r : α → Reply} {f : σ → Except GoError α × σ} {s s1 : σ} {a : α}
    (h : f s = (.ok a, s1)) : Remote.call c r f s = ⟨.ok a, s1, [⟨c, r a⟩]⟩ := by
  simp [Remote.call, h]

theorem call_run_err {c : Call} {r : α → Reply} {f : σ → Except GoError α × σ} {s s1 : σ}
    {e : GoError} (h : f s = (.error e, s1)) :
    Remote.call c r f s = ⟨.error e, s1, [⟨c, .err e⟩]⟩ := by
  simp [Remote.call, h]

/-- A call followed by more work: when the log shows no error, the call succeeded and the
rest ran in the state it left. -/
theorem step_call {c : Call} {r : α → Reply} {f : σ → Except GoError α × σ}
    {g : α → Remote σ β} {s : σ}
    (h : AllOk ((Remote.call c r f).bind g s).log) :
    ∃ a s1, f s = (.ok a, s1) ∧
      (Remote.call c r f).bind g s
        = ⟨(g a s1).result, (g a s1).state, ⟨c, r a⟩ :: (g a s1).log⟩ := by
  rcases hf : f s with ⟨_ | a, s1⟩
  · rw [bind_run_err (call_run_err hf)] at h
    have := h _ (List.mem_singleton_self _)
    simp [Reply.isOk] at this
  · exact ⟨a, s1, rfl, by rw [bind_run_ok (call_run_ok hf)]; rfl⟩

/-- An optional call (Go `if cond { err = call(); if err != nil { return } }`) followed by
more work. -/
theorem step_when {c : Call} {f : σ → Except GoError Unit × σ} {g : PUnit → Remote σ β}
    {p : Prop} [Decidable p] {s : σ}
    (h : AllOk ((if p then (Remote.call c (fun _ => Reply.done) f).bind g
      else (Remote.pure PUnit.unit).bind g) s).log) :
    ∃ s1, (if p then (Remote.call c (fun _ => Reply.done) f).bind g
        else (Remote.pure PUnit.unit).bind g) s
      = ⟨(g PUnit.unit s1).result, (g PUnit.unit s1).state,
          (if p then [⟨c, Reply.done⟩] else []) ++ (g PUnit.unit s1).log⟩ := by
  by_cases hp : p
  · simp only [hp, if_true] at h ⊢
    obtain ⟨a, s1, _, hrun⟩ := step_call h
    exact ⟨s1, by rw [hrun]; rfl⟩
  · simp only [hp, if_false] at h ⊢
    exact ⟨s, by rw [pure_bind]; rfl⟩

theorem AllOk_tail {e : Event} {l : List Event} (h : AllOk (e :: l)) : AllOk l :=
  fun x hx => h x (List.mem_cons_of_mem _ hx)

theorem AllOk_right {l1 l2 : List Event} (h : AllOk (l1 ++ l2)) : AllOk l2 :=
  fun x hx => h x (List.mem_append_right _ hx)

end Remote

theorem mapCompositeRoleIdsToRoleObjects_step {σ β : Type} (kc : KeycloakClient σ)
    (realmId : String) (g : List Role → Remote σ β) (ids : List String) (s : σ)
    (h : AllOk ((mapCompositeRoleIdsToRoleObjects kc ids realmId).bind g s).log) :
    ∃ roles s1, roles.length = ids.length ∧
      (mapCompositeRoleIdsToRoleObjects kc ids realmId).bind g s =
        ⟨(g roles s1).result, (g roles s1).state,
          List.zipWith (fun id r => ⟨.GetRole realmId id, .role r⟩) ids roles
            ++ (g roles s1).log⟩ := by
  induction ids generalizing s g with
  | nil =>
    refine ⟨[], s, rfl, ?_⟩
    simp only [mapCompositeRoleIdsToRoleObjects, Remote.pure_bind]
    rfl
  | cons id rest ih =>
    have hassoc : (mapCompositeRoleIdsToRoleObjects kc (id :: rest) realmId).bind g
        = (kc.GetRole realmId id).bind (fun r =>
            (mapCompositeRoleIdsToRoleObjects kc rest realmId).bind (fun rs => g (r :: rs))) := by
      funext s
      simp only [mapCompositeRoleIdsToRoleObjects, Remote.bind_eq, Remote.bind, Remote.pure]
      rcases kc.GetRole realmId id s with ⟨_ | a, s1, l1⟩
      · rfl
      · simp only
        rcases mapCompositeRoleIdsToRoleObjects kc rest realmId s1 with ⟨_ | b, s2, l2⟩
        · simp
        · simp
    rw [hassoc] at h ⊢
    simp only [KeycloakClient.GetRole] at h ⊢
    obtain ⟨a, s1, _, hrun⟩ := Remote.step_call h
    rw [hrun] at h ⊢
    obtain ⟨roles, s2, hlen, hrun2⟩ := ih (fun rs => g (a :: rs)) s1 (Remote.AllOk_tail h)
    refine ⟨a :: roles, s2, by simp [hlen], ?_⟩
    rw [hrun2]
    simp

/-! ### The declared set and the loop over the remote composites -/

theorem schemaSet_Contains_iff (s : schema.Set) (item : String) :
    s.Contains item = true ↔ schema.HashString item ∈ s.items.map schema.HashString := by
  simp only [schema.Set.Contains, List.any_eq_true, beq_iff_eq, List.mem_map]

/-- Removing an item takes one occurrence of its code out of the codes of the set. -/
theorem schemaSet_Remove_codes (s : schema.Set) (item : String) :
    (s.Remove item).items.map schema.HashString
      = (s.items.map schema.HashString).erase (schema.HashString item) := by
  obtain ⟨items⟩ := s
  simp only [schema.Set.Remove]
  induction items with
  | nil => rfl
  | cons x rest ih =>
    by_cases h : schema.HashString x = schema.HashString item
    · simp [List.eraseP_cons, h]
    · simp [List.eraseP_cons, List.erase_cons, h, ih]

/-- When no two of the ids at hand share a hash code, `Contains` is membership. -/
theorem schemaSet_Contains_of_injOn (D : List String) (id : String)
    (hinj : ∀ d ∈ D, schema.HashString d = schema.HashString id → d = id) :
    (⟨D⟩ : schema.Set).Contains id = decide (id ∈ D) := by
  rw [Bool.eq_iff_iff, schemaSet_Contains_iff, decide_eq_true_eq]
  simp only [List.mem_map]
  constructor
  · rintro ⟨d, hd, h⟩
    exact hinj d hd h ▸ hd
  · intro h
    exact ⟨id, h, rfl⟩

/-- When no two of the ids at hand share a hash code and the set has no repetition,
`Remove` takes out the item itself. -/
theorem schemaSet_Remove_of_injOn (D : List String) (id : String) (hD : D.Nodup)
    (hinj : ∀ d ∈ D, schema.HashString d = schema.HashString id → d = id) :
    (⟨D⟩ : schema.Set).Remove id = ⟨D.filter (fun x => decide (x ≠ id))⟩ := by
  simp only [schema.Set.Remove, schema.Set.mk.injEq]
  induction D with
  | nil => rfl
  | cons x rest ih =>
    simp only [List.nodup_cons] at hD
    by_cases h : schema.HashString x = schema.HashString id
    · have hx : x = id := hinj x (List.mem_cons_self _ _) h
      subst hx
      have hrest : rest.filter (fun y => decide (y ≠ x)) = rest := by
        rw [List.filter_eq_self]
        intro y hy
        simp only [ne_eq, decide_not, Bool.not_eq_true', decide_eq_false_iff_not]
        intro heq
        exact hD.1 (heq ▸ hy)
      rw [List.eraseP_cons, List.filter_cons, hrest]
      simp
    · have hx : x ≠ id := fun heq => h (heq ▸ rfl)
      have hb : (schema.HashString x == schema.HashString id) = false := by simpa using h
      rw [List.eraseP_cons, List.filter_cons, hb, cond_false,
        ih hD.2 (fun d hd => hinj d (List.mem_cons_of_mem _ hd))]
      simp [hx]

/-- With nothing declared, the loop collects every remote composite for removal. -/
theorem compositeDiff_nil (R : List Role) (acc : List Role) :
    compositeDiff R ⟨[]⟩ acc = (⟨[]⟩, acc ++ R) := by
  induction R generalizing acc with
  | nil => simp [compositeDiff]
  | cons r rest ih =>
    simp only [compositeDiff, schema.Set.Contains, List.any_nil, Bool.false_eq_true, if_false]
    rw [ih]
    simp

/-- The loop in closed form, when the remote ids and the declared ids are sets and no two
of them share a hash code: the declared ids the remote lacks are left in the set, the
remote composites that are not declared are collected. -/
theorem compositeDiff_eq (R : List Role) (D : List String) (acc : List Role)
    (hR : (R.map Role.Id).Nodup) (hD : D.Nodup)
    (hinj : ∀ r ∈ R, ∀ d ∈ D, schema.HashString d = schema.HashString r.Id → d = r.Id) :
    compositeDiff R ⟨D⟩ acc =
      (⟨D.filter (fun id => decide (id ∉ R.map Role.Id))⟩,
        acc ++ R.filter (fun r => decide (r.Id ∉ D))) := by
  induction R generalizing D acc with
  | nil => simp [compositeDiff]
  | cons r rest ih =>
    simp only [List.map_cons, List.nodup_cons] at hR
    obtain ⟨hr, hrest⟩ := hR
    have hinj_r := hinj r (List.mem_cons_self _ _)
    have hinj_rest : ∀ x ∈ rest, ∀ d ∈ D,
        schema.HashString d = schema.HashString x.Id → d = x.Id :=
      fun x hx => hinj x (List.mem_cons_of_mem _ hx)
    by_cases hmem : r.Id ∈ D
    · simp only [compositeDiff, schemaSet_Contains_of_injOn D r.Id hinj_r, hmem, decide_True,
        if_true, schemaSet_Remove_of_injOn D r.Id hD hinj_r]
      rw [ih _ _ hrest (hD.filter _)
        (fun x hx d hd => hinj_rest x hx d (List.mem_of_mem_filter hd))]
      congr 1
      · congr 1
        simp only [List.filter_filter, List.map_cons, List.mem_cons, not_or]
        apply List.filter_congr
        intro x _
        simp only [Bool.decide_and, Bool.and_comm]
      · congr 1
        simp only [List.filter_cons, hmem, not_true_eq_false, decide_False]
        apply List.filter_congr
        intro x hx
        have hne : x.Id ≠ r.Id := by
          intro heq
          exact hr (heq ▸ List.mem_map_of_mem Role.Id hx)
        simp [List.mem_filter, hne]
    · simp only [compositeDiff, schemaSet_Contains_of_injOn D r.Id hinj_r, hmem, decide_False,
        Bool.false_eq_true, if_false]
      rw [ih _ _ hrest hD hinj_rest]
      congr 1
      · congr 1
        apply List.filter_congr
        intro x hx
        have hne : x ≠ r.Id := fun heq => hmem (heq ▸ hx)
        simp [hne]
      · simp [List.filter_cons, hmem]

/-- What the loop does in terms of hash codes, for remote ids without repetition: the
composites it does not collect for removal, together with what it leaves in the declared
set, carry the hash codes of the declared set, each as often as the set has it. -/
theorem compositeDiff_codes (R : List Role) (D : List String) (acc : List Role)
    (hR : (R.map Role.Id).Nodup) :
    ∃ rem, (compositeDiff R ⟨D⟩ acc).2 = acc ++ rem ∧ rem.Sublist R ∧
      ((R.filter (fun r => decide (r.Id ∉ rem.map Role.Id))).map
          (fun r => schema.HashString r.Id)
        ++ (compositeDiff R ⟨D⟩ acc).1.items.map schema.HashString).Perm
        (D.map schema.HashString) := by
  induction R generalizing D acc with
  | nil => exact ⟨[], by simp [compositeDiff], List.Sublist.refl _, by simp [compositeDiff]⟩
  | cons r rest ih =>
    simp only [List.map_cons, List.nodup_cons] at hR
    obtain ⟨hr, hrest⟩ := hR
    by_cases hc : (⟨D⟩ : schema.Set).Contains r.Id = true
    · obtain ⟨rem, hrem, hsub, hperm⟩ := ih ((⟨D⟩ : schema.Set).Remove r.Id).items acc hrest
      have hkeep : r.Id ∉ rem.map Role.Id := fun h => hr ((hsub.map Role.Id).subset h)
      refine ⟨rem, ?_, hsub.cons _, ?_⟩
      · simp only [compositeDiff, hc, if_true]
        exact hrem
      · simp only [compositeDiff, hc, if_true, List.filter_cons, hkeep, not_false_eq_true,
          decide_True, List.map_cons, List.cons_append]
        rw [schemaSet_Remove_codes] at hperm
        exact (hperm.cons _).trans
          (List.perm_cons_erase ((schemaSet_Contains_iff _ _).mp hc)).symm
    · obtain ⟨rem, hrem, hsub, hperm⟩ := ih D (acc ++ [r]) hrest
      refine ⟨r :: rem, ?_, hsub.cons₂ _, ?_⟩
      · simp only [compositeDiff, hc, Bool.false_eq_true, if_false]
        rw [hrem]
        simp
      · simp only [compositeDiff, hc, Bool.false_eq_true, if_false, List.filter_cons,
          List.map_cons, List.mem_cons, true_or, not_true_eq_false, decide_False]
        have hfilter : rest.filter (fun x => decide (¬(x.Id = r.Id ∨ x.Id ∈ rem.map Role.Id)))
            = rest.filter (fun x => decide (x.Id ∉ rem.map Role.Id)) := by
          apply List.filter_congr
          intro x hx
          have hne : x.Id ≠ r.Id := fun heq => hr (heq ▸ List.mem_map_of_mem Role.Id hx)
          simp [hne]
        rw [hfilter]
        exact hperm

/-- On remote composites that carry the hash codes of the declared set, each as often as
the set has it, the loop collects nothing for removal and leaves nothing in the set. -/
theorem compositeDiff_of_perm (R : List Role) (D : List String) (acc : List Role)
    (h : (R.map (fun r => schema.HashString r.Id)).Perm (D.map schema.HashString)) :
    compositeDiff R ⟨D⟩ acc = (⟨[]⟩, acc) := by
  induction R generalizing D with
  | nil =>
    have hD : D = [] := by
      have := h.length_eq
      simpa using this.symm
    subst hD
    rfl
  | cons r rest ih =>
    simp only [List.map_cons] at h
    obtain ⟨hmem, hperm⟩ := List.cons_perm_iff_perm_erase.mp h
    have hc : (⟨D⟩ : schema.Set).Contains r.Id = true := (schemaSet_Contains_iff _ _).mpr hmem
    simp only [compositeDiff, hc, if_true]
    apply ih
    have hcodes := schemaSet_Remove_codes ⟨D⟩ r.Id
    simp only [schema.Set.Remove] at hcodes
    rw [hcodes]
    exact hperm

/-- The calls of an update in which every call succeeds, in terms of what the loop over the
remote composites `R` leaves in the declared set and collects for removal. -/
theorem resourceKeycloakRoleUpdate_log {σ : Type} (k : ProviderConstants)
    (kc : KeycloakClient σ) (data : RoleData) (s s1 s2 : σ) (R : List Role)
    (hUpdate : kc.updateRole (mapFromDataToRole k data) s = (.ok (), s1))
    (hComposites : kc.getRoleComposites (mapFromDataToRole k data) s1 = (.ok R, s2))
    (hok : AllOk (resourceKeycloakRoleUpdate k kc data s).log) :
    ∃ (added : List Role) (s3 : σ) (d3 : RoleData),
      added.length = (compositeDiff R ⟨data.composite_roles.getD []⟩ []).1.items.length ∧
      d3.realm_id = data.realm_id ∧ d3.Id = data.Id ∧
      (resourceKeycloakRoleUpdate k kc data s).log =
        [⟨.UpdateRole (mapFromDataToRole k data), .done⟩,
          ⟨.GetRoleComposites (mapFromDataToRole k data), .roles R⟩]
        ++ (if (compositeDiff R ⟨data.composite_roles.getD []⟩ []).2.length ≠ 0 then
              [⟨.RemoveCompositesFromRole (mapFromDataToRole k data)
                (compositeDiff R ⟨data.composite_roles.getD []⟩ []).2, .done⟩]
            else [])
        ++ List.zipWith (fun id r => ⟨.GetRole data.realm_id id, .role r⟩)
            (compositeDiff R ⟨data.composite_roles.getD []⟩ []).1.items added
        ++ (if (compositeDiff R ⟨data.composite_roles.getD []⟩ []).1.items.length ≠ 0 then
              [⟨.AddCompositesToRole (mapFromDataToRole k data) added, .done⟩]
            else [])
        ++ (resourceKeycloakRoleRead k kc d3 s3).log := by
  unfold resourceKeycloakRoleUpdate at hok ⊢
  simp only [Remote.bind_eq, Remote.pure_eq, KeycloakClient.UpdateRole,
    KeycloakClient.GetRoleComposites, KeycloakClient.RemoveCompositesFromRole,
    KeycloakClient.AddCompositesToRole] at hok ⊢
  rw [Remote.bind_run_ok (Remote.call_run_ok hUpdate)] at hok ⊢
  simp only at hok ⊢
  rw [Remote.bind_run_ok (Remote.call_run_ok hComposites)] at hok ⊢
  simp only [RoleData.GetOk_composite_roles] at hok ⊢
  have hok2 := Remote.AllOk_right (Remote.AllOk_right hok)
  clear hok
  by_cases hD : data.composite_roles.getD [] = []
  · rw [hD] at hok2 ⊢
    simp only [List.length_nil, gt_iff_lt, lt_self_iff_false, decide_False] at hok2 ⊢
    obtain ⟨s3, hrun⟩ := Remote.step_when hok2
    rw [hrun]
    refine ⟨[], s3, data, by simp [compositeDiff_nil], rfl, rfl, ?_⟩
    simp [compositeDiff_nil]
  · have hlen : decide ((data.composite_roles.getD []).length > 0) = true := by
      simpa [List.length_pos] using hD
    rcases hdiff : compositeDiff R ⟨data.composite_roles.getD []⟩ [] with ⟨tf, rem⟩
    simp only [hlen, hdiff, schema.Set.Len, schema.Set.List] at hok2 ⊢
    obtain ⟨s3, hrun⟩ := Remote.step_when hok2
    rw [hrun] at hok2 ⊢
    have hok3 := Remote.AllOk_right hok2
    clear hok2 hrun
    by_cases hadd : tf.items.length ≠ 0
    · simp only [hadd, ne_eq, not_false_eq_true, if_true] at hok3 ⊢
      obtain ⟨roles, s4, hlen2, hrun2⟩ := mapCompositeRoleIdsToRoleObjects_step kc _ _ _ s3 hok3
      rw [hrun2] at hok3 ⊢
      simp only at hok3 ⊢
      have hok4 := Remote.AllOk_right hok3
      obtain ⟨_, s5, _, hrun3⟩ := Remote.step_call hok4
      refine ⟨roles, s5, { data with composite_roles := some tf.items }, hlen2, rfl, rfl, ?_⟩
      rw [hrun3]
      simp only [hadd, ne_eq, not_false_eq_true, if_true, List.append_assoc, List.cons_append,
        List.nil_append, mapFromDataToRole]
    · have hnil : tf.items = [] := by
        simpa [List.length_eq_zero] using hadd
      refine ⟨[], s3, { data with composite_roles := some tf.items }, by simp [hnil], rfl,
        rfl, ?_⟩
      simp only [hnil, List.length_nil, ne_eq, not_true_eq_false, if_false, Remote.pure_bind,
        List.append_assoc, List.cons_append, List.nil_append, List.zipWith_nil_right]

/-! ### Properties of every logged event -/

namespace Remote
variable {σ α β : Type}

/-- A property of events holds of the one event a call logs when it holds of the call with
any reply. -/
theorem all_call (P : Event → Prop) {c : Call} {r : α → Reply}
    {f : σ → Except GoError α × σ} {s : σ}
    (hc : ∀ reply, P ⟨c, reply⟩) : ∀ e ∈ (Remote.call c r f s).log, P e := by
  intro e he
  rcases hf : f s with ⟨_ | a, s1⟩
  · rw [call_run_err hf] at he
    simp only [List.mem_singleton] at he
    rw [he]
    exact hc _
  · rw [call_run_ok hf] at he
    simp only [List.mem_singleton] at he
    rw [he]
    exact hc _

theorem all_bind (P : Event → Prop) {m : Remote σ α} {f : α → Remote σ β} {s : σ}
    (hm : ∀ e ∈ (m s).log, P e)
    (hf : ∀ a s1 l1, m s = ⟨.ok a, s1, l1⟩ → ∀ e ∈ (f a s1).log, P e) :
    ∀ e ∈ (m.bind f s).log, P e := by
  rcases hrun : m s with ⟨_ | a, s1, l1⟩
  · rw [bind_run_err hrun]
    rw [hrun] at hm
    exact hm
  · rw [bind_run_ok hrun]
    rw [hrun] at hm
    intro e he
    rcases List.mem_append.mp he with h | h
    · exact hm e h
    · exact hf a s1 l1 hrun e h

theorem all_attempt (P : Event → Prop) {m : Remote σ α} {s : σ}
    (hm : ∀ e ∈ (m s).log, P e) : ∀ e ∈ (m.attempt s).log, P e := by
  simpa [Remote.attempt] using hm

theorem all_pure (P : Event → Prop) {a : α} {s : σ} :
    ∀ e ∈ ((Remote.pure a : Remote σ α) s).log, P e := by
  intro e he
  simp [Remote.pure] at he

theorem all_fail (P : Event → Prop) {e : GoError} {s : σ} :
    ∀ x ∈ ((Remote.fail e : Remote σ α) s).log, P x := by
  intro x hx
  simp [Remote.fail] at hx

theorem noChange_call {c : Call} {r : α → Reply} {f : σ → Except GoError α × σ} {s : σ}
    (hc : c.isCompositeChange = false) : NoCompositeChange (Remote.call c r f s).log :=
  all_call _ (fun _ => hc)

theorem noChange_bind {m : Remote σ α} {f : α → Remote σ β} {s : σ}
    (hm : NoCompositeChange (m s).log)
    (hf : ∀ a s1 l1, m s = ⟨.ok a, s1, l1⟩ → NoCompositeChange (f a s1).log) :
    NoCompositeChange (m.bind f s).log :=
  all_bind _ hm hf

theorem noChange_attempt {m : Remote σ α} {s : σ} (hm : NoCompositeChange (m s).log) :
    NoCompositeChange (m.attempt s).log :=
  all_attempt _ hm

theorem noChange_pure {a : α} {s : σ} :
    NoCompositeChange ((Remote.pure a : Remote σ α) s).log :=
  all_pure _

theorem noChange_fail {e : GoError} {s : σ} :
    NoCompositeChange ((Remote.fail e : Remote σ α) s).log :=
  all_fail _

end Remote

theorem resourceKeycloakRoleRead_noChange {σ : Type} (k : ProviderConstants)
    (kc : KeycloakClient σ) (data : RoleData) (s : σ) :
    NoCompositeChange (resourceKeycloakRoleRead k kc data s).log := by
  unfold resourceKeycloakRoleRead
  simp only [Remote.bind_eq, Remote.pure_eq]
  apply Remote.noChange_bind
  · exact Remote.noChange_attempt (Remote.noChange_call rfl)
  · intro a s1 l1 _
    cases a with
    | error err =>
      simp only [handleNotFoundError]
      split
      · exact Remote.noChange_pure
      · exact Remote.noChange_fail
    | ok role =>
      simp only [KeycloakClient.GetRoleComposites]
      split
      · refine Remote.noChange_bind (Remote.noChange_call ?_) ?_
        · rfl
        intro _ _ _ _
        apply Remote.noChange_bind Remote.noChange_pure
        intro _ _ _ _
        exact Remote.noChange_pure
      · apply Remote.noChange_bind Remote.noChange_pure
        intro _ _ _ _
        exact Remote.noChange_pure

/-- An update on a remote whose composites carry the hash codes of the declared set, each
as often as the set has it, changes nothing. -/
theorem resourceKeycloakRoleUpdate_noChange {σ : Type} (k : ProviderConstants)
    (kc : KeycloakClient σ) (data : RoleData) (t : σ)
    (h : ∀ R2, (kc.getRoleComposites (mapFromDataToRole k data)
          (kc.updateRole (mapFromDataToRole k data) t).2).1 = .ok R2 →
        (R2.map (fun r => schema.HashString r.Id)).Perm
          ((data.composite_roles.getD []).map schema.HashString)) :
    NoCompositeChange (resourceKeycloakRoleUpdate k kc data t).log := by
  unfold resourceKeycloakRoleUpdate
  simp only [Remote.bind_eq, Remote.pure_eq, KeycloakClient.UpdateRole,
    KeycloakClient.GetRoleComposites, KeycloakClient.RemoveCompositesFromRole,
    KeycloakClient.AddCompositesToRole]
  refine Remote.noChange_bind (Remote.noChange_call ?_) ?_
  · rfl
  intro _ t1 _ hrun1
  have ht1 : (kc.updateRole (mapFromDataToRole k data) t).2 = t1 := by
    rcases hf : kc.updateRole (mapFromDataToRole k data) t with ⟨_ | a, s1⟩
    · rw [Remote.call_run_err hf] at hrun1
      simp at hrun1
    · rw [Remote.call_run_ok hf] at hrun1
      simp only [Outcome.mk.injEq] at hrun1
      exact hrun1.2.1
  rw [ht1] at h
  refine Remote.noChange_bind (Remote.noChange_call ?_) ?_
  · rfl
  intro R2 t2 _ hrun2
  have hR2 : (kc.getRoleComposites (mapFromDataToRole k data) t1).1 = .ok R2 := by
    rcases hf : kc.getRoleComposites (mapFromDataToRole k data) t1 with ⟨_ | a, s1⟩
    · rw [Remote.call_run_err hf] at hrun2
      simp at hrun2
    · rw [Remote.call_run_ok hf] at hrun2
      simp only [Outcome.mk.injEq, Except.ok.injEq] at hrun2
      rw [hrun2.1]
  have hperm := h R2 hR2
  simp only [RoleData.GetOk_composite_roles]
  by_cases hD : data.composite_roles.getD [] = []
  · rw [hD] at hperm ⊢
    have hR2nil : R2 = [] := by
      have := hperm.length_eq
      simpa using this
    subst hR2nil
    simp only [List.length_nil, gt_iff_lt, lt_self_iff_false, decide_False, ne_eq,
      not_true_eq_false, if_false, Remote.pure_bind]
    exact resourceKeycloakRoleRead_noChange k kc data t2
  · have hlen : decide ((data.composite_roles.getD []).length > 0) = true := by
      simpa [List.length_pos] using hD
    simp only [hlen, compositeDiff_of_perm R2 _ [] hperm, schema.Set.Len,
      schema.Set.List, List.length_nil, ne_eq, not_true_eq_false, if_false,
      Remote.pure_bind]
    exact resourceKeycloakRoleRead_noChange k kc _ t2

/-! ### What a faithful remote holds after an update -/

theorem applyCompositeCalls_append (R : List Role) (l1 l2 : List Event) :
    applyCompositeCalls R (l1 ++ l2) = applyCompositeCalls (applyCompositeCalls R l1) l2 := by
  induction l1 generalizing R with
  | nil => rfl
  | cons e rest ih =>
    rcases e with ⟨c, r⟩
    cases c <;> cases r <;>
      (simp only [List.cons_append, applyCompositeCalls, List.append_eq]; exact ih _)

theorem applyCompositeCalls_noChange (R : List Role) (l : List Event)
    (h : NoCompositeChange l) : applyCompositeCalls R l = R := by
  induction l generalizing R with
  | nil => rfl
  | cons e rest ih =>
    have he := h e (List.mem_cons_self _ _)
    have hrest : NoCompositeChange rest := fun x hx => h x (List.mem_cons_of_mem _ hx)
    rcases e with ⟨c, r⟩
    cases c <;> cases r <;>
      first
        | (simp only [applyCompositeCalls]; exact ih R hrest)
        | (simp [Call.isCompositeChange] at he)

theorem lookups_noChange (realmId : String) (ids : List String) (roles : List Role) :
    NoCompositeChange
      (List.zipWith (fun id r => (⟨.GetRole realmId id, .role r⟩ : Event)) ids roles) := by
  intro e he
  induction ids generalizing roles with
  | nil => simp at he
  | cons id rest ih =>
    cases roles with
    | nil => simp at he
    | cons r rs =>
      simp only [List.zipWith_cons_cons, List.mem_cons] at he
      rcases he with h | h
      · rw [h]
        rfl
      · exact ih rs h

theorem lookups_faithful_ids (realmId : String) (ids : List String) (roles : List Role)
    (hlen : roles.length = ids.length)
    (h : ∀ e ∈ List.zipWith (fun id r => (⟨.GetRole realmId id, .role r⟩ : Event)) ids roles,
      e.faithfulLookup = true) :
    roles.map Role.Id = ids := by
  induction ids generalizing roles with
  | nil =>
    cases roles with
    | nil => rfl
    | cons r rs => simp at hlen
  | cons id rest ih =>
    cases roles with
    | nil => simp at hlen
    | cons r rs =>
      simp only [List.zipWith_cons_cons, List.mem_cons, forall_eq_or_imp] at h
      have h1 : r.Id = id := by
        have := h.1
        simp only [Event.faithfulLookup, decide_eq_true_eq] at this
        exact this.1
      have h2 := ih rs (by simpa using hlen) h.2
      simp [h1, h2]

/-- After a successful update against a remote that answers lookups faithfully, the
composites the remote holds carry the hash codes of the declared set, each as often as the
set has it. -/
theorem resourceKeycloakRoleUpdate_settles {σ : Type} (k : ProviderConstants)
    (kc : KeycloakClient σ) (data : RoleData) (s s1 s2 : σ) (R : List Role)
    (hUpdate : kc.updateRole (mapFromDataToRole k data) s = (.ok (), s1))
    (hComposites : kc.getRoleComposites (mapFromDataToRole k data) s1 = (.ok R, s2))
    (hR : (R.map Role.Id).Nodup)
    (hok : AllOk (resourceKeycloakRoleUpdate k kc data s).log)
    (hfaithful : ∀ e ∈ (resourceKeycloakRoleUpdate k kc data s).log, e.faithfulLookup = true) :
    ((applyCompositeCalls R (resourceKeycloakRoleUpdate k kc data s).log).map
        (fun r => schema.HashString r.Id)).Perm
      ((data.composite_roles.getD []).map schema.HashString) := by
  obtain ⟨added, s3, d3, hlen, -, -, hlog⟩ :=
    resourceKeycloakRoleUpdate_log k kc data s s1 s2 R hUpdate hComposites hok
  rw [hlog] at hfaithful ⊢
  obtain ⟨rem, hrem, -, hperm⟩ := compositeDiff_codes R (data.composite_roles.getD []) [] hR
  rw [List.nil_append] at hrem
  generalize compositeDiff R ⟨data.composite_roles.getD []⟩ [] = diff
    at hlen hfaithful hrem hperm ⊢
  obtain ⟨tf, rem2⟩ := diff
  simp only at hlen hfaithful hrem hperm ⊢
  subst hrem
  have hids : added.map Role.Id = tf.items := by
    apply lookups_faithful_ids data.realm_id _ _ hlen
    intro e he
    apply hfaithful
    simp only [List.mem_append]
    exact Or.inl (Or.inl (Or.inr he))
  have happlied : applyCompositeCalls R
      ([⟨.UpdateRole (mapFromDataToRole k data), .done⟩,
          ⟨.GetRoleComposites (mapFromDataToRole k data), .roles R⟩]
        ++ (if rem2.length ≠ 0 then
              [⟨.RemoveCompositesFromRole (mapFromDataToRole k data) rem2, .done⟩]
            else [])
        ++ List.zipWith (fun id r => ⟨.GetRole data.realm_id id, .role r⟩) tf.items added
        ++ (if tf.items.length ≠ 0 then
              [⟨.AddCompositesToRole (mapFromDataToRole k data) added, .done⟩]
            else [])
        ++ (resourceKeycloakRoleRead k kc d3 s3).log)
      = R.filter (fun r => decide (r.Id ∉ rem2.map Role.Id)) ++ added := by
    rw [applyCompositeCalls_append, applyCompositeCalls_append, applyCompositeCalls_append,
      applyCompositeCalls_append,
      applyCompositeCalls_noChange _ _ (resourceKeycloakRoleRead_noChange k kc d3 s3)]
    have h1 : applyCompositeCalls R
        [⟨.UpdateRole (mapFromDataToRole k data), .done⟩,
          ⟨.GetRoleComposites (mapFromDataToRole k data), .roles R⟩] = R := rfl
    rw [h1]
    have h2 : applyCompositeCalls R
        (if rem2.length ≠ 0 then
              [⟨.RemoveCompositesFromRole (mapFromDataToRole k data) rem2, .done⟩]
            else []) = R.filter (fun r => decide (r.Id ∉ rem2.map Role.Id)) := by
      split
      · simp only [applyCompositeCalls]
      · rename_i hz
        have hnil : rem2 = [] := by
          simpa [List.length_eq_zero] using hz
        rw [hnil]
        simp [applyCompositeCalls]
    rw [h2, applyCompositeCalls_noChange _ _ (lookups_noChange _ _ _)]
    split
    · simp only [applyCompositeCalls]
    · rename_i hz
      have hnil : added = [] := by
        apply List.length_eq_zero.mp
        rw [hlen]
        simpa using hz
      simp [applyCompositeCalls, hnil]
  rw [happlied, List.map_append]
  have hadded : added.map (fun r => schema.HashString r.Id) = tf.items.map schema.HashString := by
    rw [← hids, List.map_map]
    rfl
  rw [hadded]
  exact hperm

/-! ### The composite flag of the role that is sent -/

theorem mem_sentRoles {log : List Event} {role : Role} :
    role ∈ sentRoles log ↔ ∃ e ∈ log, e.call.sentRole? = some role := by
  simp [sentRoles, List.mem_filterMap]

theorem mapCompositeRoleIdsToRoleObjects_all {σ : Type} (P : Event → Prop)
    (kc : KeycloakClient σ) (realmId : String) (ids : List String) (s : σ)
    (hP : ∀ id reply, P ⟨.GetRole realmId id, reply⟩) :
    ∀ e ∈ (mapCompositeRoleIdsToRoleObjects kc ids realmId s).log, P e := by
  induction ids generalizing s with
  | nil => exact Remote.all_pure P
  | cons id rest ih =>
    simp only [mapCompositeRoleIdsToRoleObjects, Remote.bind_eq, KeycloakClient.GetRole]
    apply Remote.all_bind P (Remote.all_call P (hP id))
    intro _ s1 _ _
    apply Remote.all_bind P (ih s1)
    intro _ _ _ _
    exact Remote.all_pure P

theorem mapCompositeRoleIdsToRoleObjects_length {σ : Type} (kc : KeycloakClient σ)
    (realmId : String) (ids : List String) (s s1 : σ) (roles : List Role) (l : List Event)
    (h : mapCompositeRoleIdsToRoleObjects kc ids realmId s = ⟨.ok roles, s1, l⟩) :
    roles.length = ids.length := by
  induction ids generalizing s roles l with
  | nil =>
    simp only [mapCompositeRoleIdsToRoleObjects, Remote.pure, Outcome.mk.injEq,
      Except.ok.injEq] at h
    rw [← h.1]
    rfl
  | cons id rest ih =>
    simp only [mapCompositeRoleIdsToRoleObjects, Remote.bind_eq] at h
    rcases h1 : kc.GetRole realmId id s with ⟨_ | a, t1, l1⟩
    · rw [Remote.bind_run_err h1] at h
      simp at h
    · rw [Remote.bind_run_ok h1] at h
      rcases h2 : mapCompositeRoleIdsToRoleObjects kc rest realmId t1 with ⟨_ | rs, t2, l2⟩
      · rw [Remote.bind_run_err h2] at h
        simp at h
      · rw [Remote.bind_run_ok h2] at h
        simp only [Remote.pure, Outcome.mk.injEq, Except.ok.injEq] at h
        rw [← h.1, List.length_cons, List.length_cons, ih t1 rs l2 (h.2.1 ▸ h2)]

theorem resourceKeycloakRoleRead_all {σ : Type} (P : Event → Prop) (k : ProviderConstants)
    (kc : KeycloakClient σ) (data : RoleData) (s : σ)
    (h1 : ∀ realmId id reply, P ⟨.GetRole realmId id, reply⟩)
    (h2 : ∀ role reply, P ⟨.GetRoleComposites role, reply⟩) :
    ∀ e ∈ (resourceKeycloakRoleRead k kc data s).log, P e := by
  unfold resourceKeycloakRoleRead
  simp only [Remote.bind_eq, Remote.pure_eq, KeycloakClient.GetRole]
  apply Remote.all_bind P
  · exact Remote.all_attempt P (Remote.all_call P (h1 _ _))
  · intro a s1 l1 _
    cases a with
    | error err =>
      simp only [handleNotFoundError]
      split
      · exact Remote.all_pure P
      · exact Remote.all_fail P
    | ok role =>
      simp only [KeycloakClient.GetRoleComposites]
      split
      · apply Remote.all_bind P (Remote.all_call P (h2 _))
        intro _ _ _ _
        apply Remote.all_bind P (Remote.all_pure P)
        intro _ _ _ _
        exact Remote.all_pure P
      · apply Remote.all_bind P (Remote.all_pure P)
        intro _ _ _ _
        exact Remote.all_pure P

/-- In the direct create path every role sent to the remote has the composite flag set
exactly when composites are declared. -/
theorem resourceKeycloakRoleCreate_flag {σ : Type} (k : ProviderConstants)
    (kc : KeycloakClient σ) (data : RoleData) (s : σ) (himport : data.import_ = false) :
    ∀ e ∈ (resourceKeycloakRoleCreate k kc data s).log, ∀ role,
      e.call.sentRole? = some role →
        (role.Composite = true ↔ data.composite_roles.getD [] ≠ []) := by
  unfold resourceKeycloakRoleCreate
  simp only [Remote.bind_eq, Remote.pure_eq, himport, Bool.false_eq_true, if_false,
    KeycloakClient.CreateRole, KeycloakClient.AddCompositesToRole,
    RoleData.Get_composite_roles, schema.Set.List]
  have hread : ∀ d t, ∀ e ∈ (resourceKeycloakRoleRead k kc d t).log, ∀ role,
      e.call.sentRole? = some role →
        (role.Composite = true ↔ data.composite_roles.getD [] ≠ []) := by
    intro d t
    apply resourceKeycloakRoleRead_all
    · intro _ _ _ role h
      simp [Call.sentRole?] at h
    · intro _ _ role h
      simp [Call.sentRole?] at h
  apply Remote.all_bind
  · apply mapCompositeRoleIdsToRoleObjects_all
    intro _ _ role h
    simp [Call.sentRole?] at h
  · intro roles s1 l1 hrun
    have hlen := mapCompositeRoleIdsToRoleObjects_length kc _ _ s s1 roles l1 hrun
    have hD : roles.length ≠ 0 ↔ data.composite_roles.getD [] ≠ [] := by
      rw [hlen, ne_eq, List.length_eq_zero]
    by_cases hz : roles.length ≠ 0
    · simp only [hz, ne_eq, not_false_eq_true, if_true]
      apply Remote.all_bind
      · apply Remote.all_call
        intro _ role h
        simp only [Call.sentRole?, Option.some.injEq] at h
        rw [← h]
        simp only [true_iff]
        exact hD.mp hz
      · intro _ _ _ _
        apply Remote.all_bind
        · apply Remote.all_call
          intro _ role h
          simp [Call.sentRole?] at h
        · intro _ _ _ _
          simp only [Remote.pure_bind]
          exact hread _ _
    · simp only [hz, if_false]
      apply Remote.all_bind
      · apply Remote.all_call
        intro _ role h
        simp only [Call.sentRole?, Option.some.injEq] at h
        rw [← h]
        simp only [mapFromDataToRole, Bool.false_eq_true, false_iff]
        exact fun hne => hz (hD.mpr hne)
      · intro _ _ _ _
        simp only [mapFromDataToRole, Bool.false_eq_true, if_false, Remote.pure_bind]
        exact hread _ _

/-- In the update path every role sent to the remote has the composite flag unset. -/
theorem resourceKeycloakRoleUpdate_flag {σ : Type} (k : ProviderConstants)
    (kc : KeycloakClient σ) (data : RoleData) (s : σ) :
    ∀ e ∈ (resourceKeycloakRoleUpdate k kc data s).log, ∀ role,
      e.call.sentRole? = some role → role.Composite = false := by
  have hread : ∀ d t, ∀ e ∈ (resourceKeycloakRoleRead k kc d t).log, ∀ role,
      e.call.sentRole? = some role → role.Composite = false := by
    intro d t
    apply resourceKeycloakRoleRead_all
    · intro _ _ _ role h
      simp [Call.sentRole?] at h
    · intro _ _ role h
      simp [Call.sentRole?] at h
  have hlookups : ∀ ids realmId t,
      ∀ e ∈ (mapCompositeRoleIdsToRoleObjects kc ids realmId t).log, ∀ role,
        e.call.sentRole? = some role → role.Composite = false := by
    intro ids realmId t
    apply mapCompositeRoleIdsToRoleObjects_all
    intro _ _ role h
    simp [Call.sentRole?] at h
  have hadd : ∀ ids d t, ∀ e ∈ ((mapCompositeRoleIdsToRoleObjects kc ids
        (mapFromDataToRole k data).RealmId).bind (fun compositesToAdd =>
          (Remote.call (Call.AddCompositesToRole (mapFromDataToRole k data) compositesToAdd)
            (fun _ => Reply.done)
            (kc.addCompositesToRole (mapFromDataToRole k data) compositesToAdd)).bind
              fun _ => resourceKeycloakRoleRead k kc d) t).log, ∀ role,
        e.call.sentRole? = some role → role.Composite = false := by
    intro ids d t
    apply Remote.all_bind _ (hlookups _ _ _)
    intro _ _ _ _
    apply Remote.all_bind
    · apply Remote.all_call
      intro _ role h
      simp [Call.sentRole?] at h
    · intro _ _ _ _
      exact hread _ _
  unfold resourceKeycloakRoleUpdate
  simp only [Remote.bind_eq, Remote.pure_eq, KeycloakClient.UpdateRole,
    KeycloakClient.GetRoleComposites, KeycloakClient.RemoveCompositesFromRole,
    KeycloakClient.AddCompositesToRole, RoleData.GetOk_composite_roles, Remote.pure_bind]
  apply Remote.all_bind
  · apply Remote.all_call
    intro _ role h
    simp only [Call.sentRole?, Option.some.injEq] at h
    rw [← h]
    rfl
  intro _ _ _ _
  apply Remote.all_bind
  · apply Remote.all_call
    intro _ role h
    simp [Call.sentRole?] at h
  intro R _ _ _
  by_cases hD : (data.composite_roles.getD []).length > 0
  · simp only [hD, decide_True]
    split
    · apply Remote.all_bind
      · apply Remote.all_call
        intro _ role h
        simp [Call.sentRole?] at h
      · intro _ _ _ _
        split
        · exact hadd _ _ _
        · exact hread _ _
    · split
      · exact hadd _ _ _
      · exact hread _ _
  · simp only [hD, decide_False]
    split
    · apply Remote.all_bind
      · apply Remote.all_call
        intro _ role h
        simp [Call.sentRole?] at h
      · intro _ _ _ _
        exact hread _ _
    · exact hread _ _

/-- The calls of a successful direct create: the lookups of the declared composites, the
create, the attachment of the looked-up roles when there are any, and the final read. -/
theorem resourceKeycloakRoleCreate_direct_log {σ : Type} (k : ProviderConstants)
    (kc : KeycloakClient σ) (data : RoleData) (s : σ) (himport : data.import_ = false)
    (hok : AllOk (resourceKeycloakRoleCreate k kc data s).log) :
    ∃ (roles : List Role) (id : String) (s1 : σ),
      roles.length = (data.composite_roles.getD []).length ∧
      (resourceKeycloakRoleCreate k kc data s).log =
        List.zipWith (fun id r => ⟨.GetRole data.realm_id id, .role r⟩)
            (data.composite_roles.getD []) roles
        ++ [⟨.CreateRole { mapFromDataToRole k data with
              Composite := decide (roles.length ≠ 0) }, .id id⟩]
        ++ (if roles.length ≠ 0 then
              [⟨.AddCompositesToRole { mapFromDataToRole k data with
                  Composite := true, Id := id } roles, .done⟩]
            else [])
        ++ (resourceKeycloakRoleRead k kc
              (mapFromRoleToData k data { mapFromDataToRole k data with
                Composite := decide (roles.length ≠ 0), Id := id }) s1).log := by
  unfold resourceKeycloakRoleCreate at hok ⊢
  simp only [Remote.bind_eq, Remote.pure_eq, himport, Bool.false_eq_true, if_false,
    KeycloakClient.CreateRole, KeycloakClient.AddCompositesToRole,
    RoleData.Get_composite_roles, schema.Set.List] at hok ⊢
  obtain ⟨roles, s1, hlen, hrun⟩ := mapCompositeRoleIdsToRoleObjects_step kc _ _ _ s hok
  rw [hrun] at hok ⊢
  have hok2 := Remote.AllOk_right hok
  clear hok hrun
  by_cases hz : roles.length ≠ 0
  · simp only [hz, ne_eq, not_false_eq_true, if_true] at hok2 ⊢
    obtain ⟨id, s2, _, hrun2⟩ := Remote.step_call hok2
    rw [hrun2] at hok2 ⊢
    have hok3 := Remote.AllOk_tail hok2
    obtain ⟨_, s3, _, hrun3⟩ := Remote.step_call hok3
    rw [hrun3]
    simp only [Remote.pure_bind, decide_True]
    refine ⟨roles, id, s3, hlen, ?_⟩
    simp [mapFromDataToRole, hz]
  · simp only [hz, if_false] at hok2 ⊢
    obtain ⟨id, s2, _, hrun2⟩ := Remote.step_call hok2
    rw [hrun2]
    simp only [mapFromDataToRole, Bool.false_eq_true, if_false, Remote.pure_bind, decide_False]
    refine ⟨roles, id, s2, hlen, ?_⟩
    simp [hz]

/-- After a successful direct create a faithful remote holds, for the new role, the roles
that were looked up for the declared ids. -/
theorem resourceKeycloakRoleCreate_direct_applied {σ : Type} (k : ProviderConstants)
    (kc : KeycloakClient σ) (data : RoleData) (s : σ) (himport : data.import_ = false)
    (hok : AllOk (resourceKeycloakRoleCreate k kc data s).log) :
    (applyCompositeCalls [] (resourceKeycloakRoleCreate k kc data s).log).length
      = (data.composite_roles.getD []).length := by
  obtain ⟨roles, id, s1, hlen, hlog⟩ :=
    resourceKeycloakRoleCreate_direct_log k kc data s himport hok
  rw [hlog, applyCompositeCalls_append, applyCompositeCalls_append, applyCompositeCalls_append,
    applyCompositeCalls_noChange _ _ (resourceKeycloakRoleRead_noChange k kc _ s1),
    applyCompositeCalls_noChange _ _ (lookups_noChange _ _ _)]
  have h1 : applyCompositeCalls []
      [⟨.CreateRole { mapFromDataToRole k data with Composite := decide (roles.length ≠ 0) },
        .id id⟩] = [] := rfl
  rw [h1, ← hlen]
  split
  · simp [applyCompositeCalls]
  · rename_i hz
    have hnil : roles = [] := List.length_eq_zero.mp (by simpa using hz)
    simp [applyCompositeCalls, hnil]

/-! ### Create in import mode -/

theorem resourceKeycloakRoleCreate_import_log {σ : Type} (k : ProviderConstants)
    (kc : KeycloakClient σ) (data : RoleData) (s : σ) (himport : data.import_ = true)
    (hok : AllOk (resourceKeycloakRoleCreate k kc data s).log) :
    ∃ (resolved : List Role) (existingRole : Role) (existingCompositeRoles : List Role)
      (s1 : σ),
      resolved.length = (data.composite_roles.getD []).length ∧
      (resourceKeycloakRoleCreate k kc data s).log =
        List.zipWith (fun id r => ⟨.GetRole data.realm_id id, .role r⟩)
            (data.composite_roles.getD []) resolved
        ++ [⟨.GetRoleByName data.realm_id data.client_id data.name, .role existingRole⟩,
            ⟨.UpdateRole (importMergedRole k data resolved existingRole), .done⟩,
            ⟨.GetRoleComposites (importMergedRole k data resolved existingRole),
              .roles existingCompositeRoles⟩]
        ++ (if (data.composite_roles.getD []).length ≠ 0 then
              [⟨.RemoveCompositesFromRole (importMergedRole k data resolved existingRole)
                  existingCompositeRoles, .done⟩,
                ⟨.AddCompositesToRole (importMergedRole k data resolved existingRole)
                  resolved, .done⟩]
            else [])
        ++ (resourceKeycloakRoleRead k kc
              (mapFromRoleToData k data (importMergedRole k data resolved existingRole))
              s1).log := by
  unfold resourceKeycloakRoleCreate at hok ⊢
  simp only [Remote.bind_eq, Remote.pure_eq, himport, if_true,
    KeycloakClient.UpdateRole, KeycloakClient.GetRoleByName, KeycloakClient.GetRoleComposites,
    KeycloakClient.RemoveCompositesFromRole, KeycloakClient.AddCompositesToRole,
    RoleData.GetOk_composite_roles, schema.Set.List] at hok ⊢
  obtain ⟨resolved, s1, hlen, hrun⟩ := mapCompositeRoleIdsToRoleObjects_step kc _ _ _ s hok
  rw [hrun] at hok ⊢
  have hok2 := Remote.AllOk_right hok
  clear hok hrun
  simp only at hok2 ⊢
  obtain ⟨existingRole, s2, _, hrun2⟩ := Remote.step_call hok2
  rw [hrun2] at hok2 ⊢
  have hok3 := Remote.AllOk_tail hok2
  clear hok2 hrun2
  simp only at hok3 ⊢
  obtain ⟨_, s3, _, hrun3⟩ := Remote.step_call hok3
  rw [hrun3] at hok3 ⊢
  have hok4 := Remote.AllOk_tail hok3
  clear hok3 hrun3
  simp only at hok4 ⊢
  obtain ⟨existingCompositeRoles, s4, _, hrun4⟩ := Remote.step_call hok4
  rw [hrun4] at hok4 ⊢
  have hok5 := Remote.AllOk_tail hok4
  clear hok4 hrun4
  simp only at hok5 ⊢
  by_cases hD : (data.composite_roles.getD []).length ≠ 0
  · have hres : resolved.length ≠ 0 := by rw [hlen]; exact hD
    have hpos : (data.composite_roles.getD []).length > 0 := Nat.pos_of_ne_zero hD
    have hgate : ((mergo.Merge
        (if resolved.length ≠ 0 then
          { mapFromDataToRole k data with Composite := true }
        else mapFromDataToRole k data) existingRole).Composite
          && decide ((data.composite_roles.getD []).length > 0)) = true := by
      simp [hres, hpos, mergo.Merge]
    simp only [hgate, if_true] at hok5 ⊢
    obtain ⟨_, s5, _, hrun5⟩ := Remote.step_call hok5
    rw [hrun5] at hok5 ⊢
    have hok6 := Remote.AllOk_tail hok5
    clear hok5 hrun5
    simp only at hok6 ⊢
    obtain ⟨_, s6, _, hrun6⟩ := Remote.step_call hok6
    rw [hrun6]
    refine ⟨resolved, existingRole, existingCompositeRoles, s6, hlen, ?_⟩
    simp only [Remote.pure_bind, importMergedRole, hD, if_true, mapFromDataToRole,
      List.append_assoc, List.cons_append, List.nil_append, ne_eq, not_false_eq_true]
  · have hpos : ¬ (data.composite_roles.getD []).length > 0 := by omega
    have hgate : ((mergo.Merge
        (if resolved.length ≠ 0 then
          { mapFromDataToRole k data with Composite := true }
        else mapFromDataToRole k data) existingRole).Composite
          && decide ((data.composite_roles.getD []).length > 0)) = false := by
      simp [hpos]
    simp only [hgate, Bool.false_eq_true, if_false] at hok5 ⊢
    refine ⟨resolved, existingRole, existingCompositeRoles, s4, hlen, ?_⟩
    simp only [Remote.pure_bind, importMergedRole, hD, if_false, mapFromDataToRole,
      List.append_assoc, List.cons_append, List.nil_append, List.append_nil]

theorem resourceKeycloakRoleRead_noCreate {σ : Type} (k : ProviderConstants)
    (kc : KeycloakClient σ) (data : RoleData) (s : σ) :
    ∀ e ∈ (resourceKeycloakRoleRead k kc data s).log, e.call.isCreateRole = false :=
  resourceKeycloakRoleRead_all (fun e => e.call.isCreateRole = false) k kc data s
    (fun _ _ _ => rfl) (fun _ _ => rfl)

theorem lookups_noCreate (realmId : String) (ids : List String) (roles : List Role) :
    ∀ e ∈ List.zipWith (fun id r => (⟨.GetRole realmId id, .role r⟩ : Event)) ids roles,
      e.call.isCreateRole = false := by
  intro e he
  induction ids generalizing roles with
  | nil => simp at he
  | cons id rest ih =>
    cases roles with
    | nil => simp at he
    | cons r rs =>
      simp only [List.zipWith_cons_cons, List.mem_cons] at he
      rcases he with h | h
      · rw [h]
        rfl
      · exact ih rs h

/-! ### The profile mappings -/

theorem foldl_append_filter {α β : Type} (f : α → β) (p : β → Prop) [DecidablePred p]
    (lst : List α) (acc : List β) :
    lst.foldl (fun out m => if p (f m) then out ++ [f m] else out) acc
      = acc ++ (lst.map f).filter (fun b => decide (p b)) := by
  induction lst generalizing acc with
  | nil => simp
  | cons m rest ih =>
    simp only [List.foldl_cons, List.map_cons, List.filter_cons, decide_eq_true_eq]
    rw [ih]
    by_cases h : p (f m)
    · simp [h]
    · simp [h]

theorem foldlM_append_filter {α β : Type} (f : α → Option β) (p : β → Prop) [DecidablePred p]
    (step : List β → α → Option (List β))
    (hstep : ∀ out m, step out m
      = match f m with
        | none => none
        | some b => if p b then some (out ++ [b]) else some out)
    (lst : List α) (acc : List β) :
    lst.foldlM step acc
      = (lst.mapM f).map (fun bs => acc ++ bs.filter (fun b => decide (p b))) := by
  induction lst generalizing acc with
  | nil =>
    rw [List.mapM_nil]
    simp
  | cons m rest ih =>
    rw [List.foldlM_cons, List.mapM_cons, hstep]
    cases hf : f m with
    | none => rfl
    | some b =>
      by_cases hp : p b
      · simp only [hp, if_true, Option.some_bind, ih, List.filter_cons, decide_True,
          Option.bind_eq_bind, Option.pure_def]
        cases rest.mapM f <;> simp [List.filter_cons, hp]
      · simp only [hp, if_false, Option.some_bind, ih, List.filter_cons, decide_False,
          Option.bind_eq_bind, Option.pure_def]
        cases rest.mapM f <;> simp [List.filter_cons, hp]

/-- The attribute mapping returns unless the `permissions` list starts with a nil
element. -/
theorem getRealmUserProfileAttributeFromData_eq_none (json : JsonCodec)
    (m : AttributeData String) :
    getRealmUserProfileAttributeFromData json m = none
      ↔ ∃ rest, m.permissions = some (none :: rest) := by
  unfold getRealmUserProfileAttributeFromData
  rcases hp : m.permissions with _ | ⟨_ | ⟨_ | pc, rest⟩⟩ <;> simp

/-- What the attribute mapping returns, when it returns: every field but `Permissions` is
a function of the document's field of the same name. -/
theorem getRealmUserProfileAttributeFromData_eq_some (json : JsonCodec)
    (m : AttributeData String) (attr : RealmUserProfileAttribute)
    (h : getRealmUserProfileAttributeFromData json m = some attr) :
    attr.Name = m.name ∧ attr.DisplayName = m.display_name ∧ attr.Group = m.group ∧
    attr.Multivalued = m.multivalued ∧ attr.MultiValued = m.multivalued ∧
    attr.Validations
      = m.validator.map (fun v =>
          v.foldl (fun validations validationConfig =>
            if validationConfig.name = "" then validations
            else goMapSet validations validationConfig.name
              ((validationConfig.config.getD []).map (fun kv =>
                if strings.HasPrefix kv.2 "[" then (kv.1, Value.list (json.unmarshalSlice kv.2))
                else (kv.1, Value.str kv.2)))) []) ∧
    attr.Annotations
      = m.annotations.map (fun v =>
          v.map (fun kv =>
            if strings.HasPrefix kv.2 "\x7b" then (kv.1, json.unmarshalAny kv.2)
            else (kv.1, Value.str kv.2))) := by
  unfold getRealmUserProfileAttributeFromData at h
  have hval : ∀ (v : List (ValidatorData String)),
      v.foldl (fun validations validationConfig =>
          let name := validationConfig.name
          if name = "" then validations
          else
            let config : List (String × Value) :=
              match validationConfig.config with
              | some c =>
                c.map (fun kv =>
                  if strings.HasPrefix kv.2 "[" then
                    (kv.1, Value.list (json.unmarshalSlice kv.2))
                  else (kv.1, Value.str kv.2))
              | none => []
            goMapSet validations name config) []
        = v.foldl (fun validations validationConfig =>
            if validationConfig.name = "" then validations
            else goMapSet validations validationConfig.name
              ((validationConfig.config.getD []).map (fun kv =>
                if strings.HasPrefix kv.2 "[" then (kv.1, Value.list (json.unmarshalSlice kv.2))
                else (kv.1, Value.str kv.2)))) [] := by
    intro v
    congr 1
    funext validations validationConfig
    cases validationConfig.config <;> rfl
  rcases hp : m.permissions with _ | ⟨_ | ⟨_ | pc, rest⟩⟩ <;> simp only [hp] at h
  all_goals first
    | exact Option.noConfusion h
    | (injection h with h
       subst h
       refine ⟨rfl, rfl, rfl, rfl, rfl, ?_, ?_⟩
       · cases hv : m.validator with
         | none => rfl
         | some v => simp only [Option.map_some', hval]
       · cases m.annotations <;> rfl)

theorem goMapSet_mem_self {α : Type} (m : List (String × α)) (key : String) (v : α) :
    (key, v) ∈ goMapSet m key v := by
  unfold goMapSet
  by_cases hany : (m.any fun kv => decide (kv.1 = key)) = true
  · simp only [hany, if_true]
    obtain ⟨kv, hkv, hk⟩ := List.any_eq_true.mp hany
    simp only [decide_eq_true_eq] at hk
    exact List.mem_map.mpr ⟨kv, hkv, by simp [hk]⟩
  · simp [hany]

theorem goMapSet_mem_of_ne {α : Type} (m : List (String × α)) (key : String) (v : α)
    (x : String × α) (hx : x ∈ m) (hne : x.1 ≠ key) : x ∈ goMapSet m key v := by
  unfold goMapSet
  by_cases hany : (m.any fun kv => decide (kv.1 = key)) = true
  · simp only [hany, if_true]
    exact List.mem_map.mpr ⟨x, hx, by simp [hne]⟩
  · simp only [hany, Bool.false_eq_true, if_false]
    exact List.mem_append_left _ hx

/-- An entry of the map stays in it while elements with other names are written. -/
theorem foldl_goMapSet_mem_of_mem {α γ : Type} (name : γ → String) (cfg : γ → α)
    (vs : List γ) (acc : List (String × α)) (x : String × α) (hx : x ∈ acc)
    (hne : ∀ w ∈ vs, name w ≠ x.1) :
    x ∈ vs.foldl (fun out v => if name v = "" then out else goMapSet out (name v) (cfg v))
      acc := by
  induction vs generalizing acc with
  | nil => exact hx
  | cons w rest ih =>
    simp only [List.foldl_cons]
    apply ih
    · by_cases hw : name w = ""
      · simp only [hw, if_true]
        exact hx
      · simp only [hw, if_false]
        exact goMapSet_mem_of_ne _ _ _ x hx (fun h => hne w (List.mem_cons_self _ _) h.symm)
    · intro u hu
      exact hne u (List.mem_cons_of_mem _ hu)

/-- The map built from a list of named elements holds, under a non-empty name, what the
last element with that name wrote. -/
theorem foldl_goMapSet_mem {α γ : Type} (name : γ → String) (cfg : γ → α)
    (before after : List γ) (v : γ) (acc : List (String × α))
    (hname : name v ≠ "") (hlast : ∀ w ∈ after, name w ≠ name v) :
    (name v, cfg v) ∈ (before ++ v :: after).foldl
      (fun out v => if name v = "" then out else goMapSet out (name v) (cfg v)) acc := by
  rw [List.foldl_append, List.foldl_cons]
  apply foldl_goMapSet_mem_of_mem name cfg after _ _ _ hlast
  simp only [hname, if_false]
  exact goMapSet_mem_self _ _ _

/-- What the two mappings make of one validator configuration entry with a stable text. -/
theorem validatorEntry_roundTrip (json : JsonCodec) (kv : String × String)
    (h : json.stableListText kv.2 = true) :
    (fun kv : String × Value =>
        match kv.2 with
        | .list _ => (kv.1, Value.str (json.marshalString kv.2))
        | v => (kv.1, v))
      ((fun kv : String × String =>
        if strings.HasPrefix kv.2 "[" then (kv.1, Value.list (json.unmarshalSlice kv.2))
        else (kv.1, Value.str kv.2)) kv)
      = (kv.1, Value.str kv.2) := by
  by_cases hp : strings.HasPrefix kv.2 "[" = true
  · simp only [hp, if_true]
    simp only [JsonCodec.stableListText, hp, Bool.not_true, Bool.false_or] at h
    rcases hu : json.Unmarshal kv.2 with _ | v
    · simp [hu] at h
    · cases v with
      | list xs =>
        simp only [hu, decide_eq_true_eq] at h
        simp [JsonCodec.unmarshalSlice, hu, JsonCodec.marshalString, h]
      | _ => simp [hu] at h
  · simp [hp]

/-- A validator with a non-empty name that no later validator of the attribute repeats
comes back, and with it every configuration value with a stable text, whatever the other
values are. -/
theorem getRealmUserProfileAttributeData_validator (json : JsonCodec) (m : AttributeData String)
    (attr : RealmUserProfileAttribute)
    (hmapped : getRealmUserProfileAttributeFromData json m = some attr)
    (before after : List (ValidatorData String)) (v : ValidatorData String)
    (hm : m.validator = some (before ++ v :: after))
    (hname : v.name ≠ "") (hlast : ∀ w ∈ after, w.name ≠ v.name) :
    ∃ out ∈ (getRealmUserProfileAttributeData json attr).validator.getD [],
      out.name = v.name ∧
      ∀ kv ∈ v.config.getD [], json.stableListText kv.2 = true →
        (kv.1, Value.str kv.2) ∈ out.config.getD [] := by
  obtain ⟨-, -, -, -, -, hval, -⟩ := getRealmUserProfileAttributeFromData_eq_some json m attr hmapped
  rw [hm, Option.map_some'] at hval
  have hmem := foldl_goMapSet_mem (fun w : ValidatorData String => w.name)
    (fun w => (w.config.getD []).map (fun kv =>
      if strings.HasPrefix kv.2 "[" then (kv.1, Value.list (json.unmarshalSlice kv.2))
      else (kv.1, Value.str kv.2))) before after v [] hname hlast
  simp only [getRealmUserProfileAttributeData, hval, Option.getD_some]
  refine ⟨_, List.mem_map.mpr ⟨_, hmem, rfl⟩, rfl, ?_⟩
  intro kv hkv hstable
  simp only [Option.getD_some, List.map_map]
  refine List.mem_map.mpr ⟨kv, hkv, ?_⟩
  exact validatorEntry_roundTrip json kv hstable

/-! ### Splitting what was joined -/

namespace strings

theorem isPrefixOf_append_of_length_le (sep a b : List Char) (h : sep.length ≤ a.length) :
    sep.isPrefixOf (a ++ b) = sep.isPrefixOf a := by
  rw [Bool.eq_iff_iff, List.isPrefixOf_iff_prefix, List.isPrefixOf_iff_prefix]
  constructor
  · intro hp
    exact List.prefix_of_prefix_length_le hp (List.prefix_append a b) h
  · intro hp
    exact hp.trans (List.prefix_append a b)

theorem indexChars_eq_none_cons (sep : List Char) (c : Char) (cs : List Char)
    (h : indexChars sep (c :: cs) = none) :
    sep.isPrefixOf (c :: cs) = false ∧ indexChars sep cs = none := by
  unfold indexChars at h
  by_cases hp : sep.isPrefixOf (c :: cs) = true
  · simp [hp] at h
  · simp only [hp, Bool.false_eq_true, if_false, Option.map_eq_none'] at h
    exact ⟨Bool.eq_false_iff.mpr hp, h⟩

theorem indexChars_none_of_append (sep v x : List Char) (hsep : sep ≠ [])
    (h : indexChars sep (v ++ x) = none) : indexChars sep v = none := by
  induction v with
  | nil =>
    cases sep with
    | nil => exact absurd rfl hsep
    | cons a as => simp [indexChars, List.isPrefixOf]
  | cons c cs ih =>
    obtain ⟨h1, h2⟩ := indexChars_eq_none_cons sep c (cs ++ x) h
    have h3 : sep.isPrefixOf (c :: cs) = false := by
      rw [Bool.eq_false_iff] at h1 ⊢
      intro hp
      apply h1
      rw [List.isPrefixOf_iff_prefix] at hp ⊢
      exact hp.trans (List.prefix_append (c :: cs) x)
    unfold indexChars
    simp [h3, ih h2]

/-- When no occurrence of the separator starts inside `v`, the first occurrence in
`v ++ sep ++ rest` is the one right after `v`. -/
theorem indexChars_append_sep (sep v rest : List Char) (hsep : sep ≠ [])
    (h : indexChars sep (v ++ sep.dropLast) = none) :
    indexChars sep (v ++ (sep ++ rest)) = some v.length := by
  induction v with
  | nil =>
    cases sep with
    | nil => exact absurd rfl hsep
    | cons a as =>
      have hp : (a :: as).isPrefixOf (a :: as ++ rest) = true := by
        rw [List.isPrefixOf_iff_prefix]
        exact List.prefix_append _ _
      simp only [List.nil_append, List.cons_append, List.length_nil] at hp ⊢
      unfold indexChars
      simp [hp]
  | cons c cs ih =>
    obtain ⟨h1, h2⟩ := indexChars_eq_none_cons sep c (cs ++ sep.dropLast) h
    have hsplit : c :: cs ++ (sep ++ rest)
        = (c :: (cs ++ sep.dropLast)) ++ ([sep.getLast hsep] ++ rest) := by
      conv_lhs => rw [← List.dropLast_append_getLast hsep]
      simp
    have hlen : sep.length ≤ (c :: (cs ++ sep.dropLast)).length := by
      simp only [List.length_cons, List.length_append, List.length_dropLast]
      have : 0 < sep.length := List.length_pos.mpr hsep
      omega
    have hp : sep.isPrefixOf (c :: cs ++ (sep ++ rest)) = false := by
      rw [hsplit, isPrefixOf_append_of_length_le _ _ _ hlen]
      exact h1
    have hcons : c :: cs ++ (sep ++ rest) = c :: (cs ++ (sep ++ rest)) := rfl
    rw [hcons] at hp ⊢
    unfold indexChars
    simp [hp, ih h2]

/-- The separator does not occur in a text shorter than itself. -/
theorem indexChars_none_of_length_lt (sep x : List Char) (h : x.length < sep.length) :
    indexChars sep x = none := by
  induction x with
  | nil =>
    cases sep with
    | nil => simp at h
    | cons a as => simp [indexChars, List.isPrefixOf]
  | cons c cs ih =>
    have hp : sep.isPrefixOf (c :: cs) = false := by
      rw [Bool.eq_false_iff]
      intro hp
      rw [List.isPrefixOf_iff_prefix] at hp
      have := hp.length_le
      omega
    have hcs : cs.length < sep.length := by
      simp only [List.length_cons] at h
      omega
    unfold indexChars
    simp [hp, ih hcs]

/-- When the first occurrence of the separator in `v ++ sep ++ rest` is the one right after
`v`, no occurrence starts inside `v`. -/
theorem indexChars_append_sep_inv (sep v rest : List Char) (hsep : sep ≠ [])
    (h : indexChars sep (v ++ (sep ++ rest)) = some v.length) :
    indexChars sep (v ++ sep.dropLast) = none := by
  induction v with
  | nil =>
    apply indexChars_none_of_length_lt
    have : 0 < sep.length := List.length_pos.mpr hsep
    simp only [List.nil_append, List.length_dropLast]
    omega
  | cons c cs ih =>
    have hsplit : c :: cs ++ (sep ++ rest)
        = (c :: (cs ++ sep.dropLast)) ++ ([sep.getLast hsep] ++ rest) := by
      conv_lhs => rw [← List.dropLast_append_getLast hsep]
      simp
    have hlen : sep.length ≤ (c :: (cs ++ sep.dropLast)).length := by
      simp only [List.length_cons, List.length_append, List.length_dropLast]
      have : 0 < sep.length := List.length_pos.mpr hsep
      omega
    have hcons : c :: cs ++ (sep ++ rest) = c :: (cs ++ (sep ++ rest)) := rfl
    rw [hcons] at h
    unfold indexChars at h
    by_cases hp : sep.isPrefixOf (c :: (cs ++ (sep ++ rest))) = true
    · simp [hp] at h
    · simp only [hp, Bool.false_eq_true, if_false, Option.map_eq_some', List.length_cons] at h
      obtain ⟨n, hn, hnl⟩ := h
      have hn2 : indexChars sep (cs ++ (sep ++ rest)) = some cs.length := by
        rw [hn]
        congr 1
        omega
      have hp2 : sep.isPrefixOf (c :: (cs ++ sep.dropLast)) = false := by
        rw [← isPrefixOf_append_of_length_le _ _ ([sep.getLast hsep] ++ rest) hlen, ← hsplit,
          hcons]
        exact Bool.eq_false_iff.mpr hp
      have hcons2 : c :: cs ++ sep.dropLast = c :: (cs ++ sep.dropLast) := rfl
      rw [hcons2]
      unfold indexChars
      simp [hp2, ih hn2]

theorem genSplit_ne_nil (sep : List Char) (fuel : Nat) (s : List Char) :
    genSplit sep fuel s ≠ [] := by
  cases fuel with
  | zero => simp [genSplit]
  | succ f =>
    unfold genSplit
    cases indexChars sep s <;> simp

theorem genSplit_intercalate (sep : List Char) (hsep : sep ≠ []) (vs : List (List Char))
    (h : separableChars sep vs)
    (fuel : Nat) (hfuel : vs.length ≤ fuel + 1) :
    genSplit sep fuel (List.intercalate sep vs) = vs := by
  induction vs generalizing fuel with
  | nil => exact absurd h (by simp [separableChars])
  | cons v rest ih =>
    cases rest with
    | nil =>
      have hv : indexChars sep v = none := h
      have hj : List.intercalate sep [v] = v := by simp [List.intercalate]
      rw [hj]
      cases fuel with
      | zero => rfl
      | succ f => simp [genSplit, hv]
    | cons w ws =>
      have hj : List.intercalate sep (v :: w :: ws)
          = v ++ (sep ++ List.intercalate sep (w :: ws)) := by
        simp [List.intercalate]
      rw [hj]
      cases fuel with
      | zero => simp at hfuel
      | succ f =>
        have hidx := indexChars_append_sep sep v (List.intercalate sep (w :: ws)) hsep h.1
        have hrec := ih h.2 f (by simpa using hfuel)
        simp only [genSplit, hidx]
        rw [List.take_left' rfl, ← List.append_assoc, List.drop_left' (by simp), hrec]

/-- Splitting with enough fuel gives the joined list back only if the list is separable. -/
theorem separableChars_of_genSplit (sep : List Char) (hsep : sep ≠ []) (vs : List (List Char))
    (fuel : Nat) (hfuel : (List.intercalate sep vs).length ≤ fuel)
    (h : genSplit sep fuel (List.intercalate sep vs) = vs) :
    separableChars sep vs := by
  induction vs generalizing fuel with
  | nil => exact absurd h (genSplit_ne_nil _ _ _)
  | cons v rest ih =>
    cases rest with
    | nil =>
      have hj : List.intercalate sep [v] = v := by simp [List.intercalate]
      rw [hj] at h hfuel
      show indexChars sep v = none
      rcases hidx : indexChars sep v with _ | m
      · rfl
      · exfalso
        have hlen : ¬ v.length < sep.length := by
          intro hlt
          rw [indexChars_none_of_length_lt sep v hlt] at hidx
          exact Option.noConfusion hidx
        have hpos : 0 < sep.length := List.length_pos.mpr hsep
        obtain ⟨f, rfl⟩ : ∃ f, fuel = f + 1 := ⟨fuel - 1, by omega⟩
        simp only [genSplit, hidx, List.cons.injEq] at h
        exact genSplit_ne_nil _ _ _ h.2
    | cons w ws =>
      have hj : List.intercalate sep (v :: w :: ws)
          = v ++ (sep ++ List.intercalate sep (w :: ws)) := by
        simp [List.intercalate]
      rw [hj] at h hfuel
      have hpos : 0 < sep.length := List.length_pos.mpr hsep
      simp only [List.length_append] at hfuel
      obtain ⟨f, rfl⟩ : ∃ f, fuel = f + 1 := ⟨fuel - 1, by omega⟩
      rcases hidx : indexChars sep (v ++ (sep ++ List.intercalate sep (w :: ws))) with _ | m
      · simp [genSplit, hidx] at h
      · simp only [genSplit, hidx, List.cons.injEq] at h
        obtain ⟨htake, hrest⟩ := h
        have hm : m = v.length := by
          have hl := congrArg List.length htake
          simp only [List.length_take, List.length_append] at hl
          omega
        subst hm
        rw [← List.append_assoc, List.drop_left' (by simp)] at hrest
        exact ⟨indexChars_append_sep_inv sep v _ hsep hidx,
          ih f (by omega) hrest⟩

theorem length_le_intercalate (sep : List Char) (hsep : sep ≠ []) (vs : List (List Char)) :
    vs.length ≤ (List.intercalate sep vs).length + 1 := by
  induction vs with
  | nil => simp
  | cons v rest ih =>
    cases rest with
    | nil => simp
    | cons w ws =>
      have hj : List.intercalate sep (v :: w :: ws)
          = v ++ (sep ++ List.intercalate sep (w :: ws)) := by
        simp [List.intercalate]
      rw [hj]
      have : 0 < sep.length := List.length_pos.mpr hsep
      simp only [List.length_cons, List.length_append] at ih ⊢
      omega

theorem separable_iff (sep : String) (vs : List String) :
    separable sep vs = true ↔ separableChars sep.data (vs.map String.data) := by
  induction vs with
  | nil => simp [separable, separableChars]
  | cons v rest ih =>
    cases rest with
    | nil =>
      simp only [separable, Contains, List.map_cons, List.map_nil, separableChars,
        Bool.not_eq_true']
      cases indexChars sep.data v.data <;> simp
    | cons w ws =>
      simp only [separable, Bool.and_eq_true, ih, List.map_cons, separableChars,
        separatorFree, Option.isNone_iff_eq_none]

/-- Splitting a joined list gives the list back exactly when the list is separable. -/
theorem Split_Join (sep : String) (hsep : sep ≠ "") (vs : List String) :
    Split (Join vs sep) sep = vs ↔ separable sep vs = true := by
  have hsepd : sep.data ≠ [] := by
    intro hd
    apply hsep
    cases sep
    simp_all
  rw [separable_iff]
  unfold Split Join
  simp only [hsepd, if_false]
  constructor
  · intro h
    apply separableChars_of_genSplit sep.data hsepd (vs.map String.data) _ (le_refl _)
    have h2 := congrArg (List.map String.data) h
    simpa [List.map_map, Function.comp_def] using h2
  · intro h
    rw [genSplit_intercalate sep.data hsepd (vs.map String.data) h]
    · simp [List.map_map, Function.comp_def]
    · have := length_le_intercalate sep.data hsepd (vs.map String.data)
      simpa using this

end strings

/-! ### Splitting on a single character -/

namespace strings

theorem indexChars_singleton_of_not_mem (c : Char) (s : List Char) (h : c ∉ s) :
    indexChars [c] s = none := by
  induction s with
  | nil => simp [indexChars, List.isPrefixOf]
  | cons x xs ih =>
    simp only [List.mem_cons, not_or] at h
    have hx : (x == c) = false := by
      simpa using fun heq => h.1 heq.symm
    have hx' : (c == x) = false := by
      simpa using h.1
    unfold indexChars
    simp [List.isPrefixOf, hx', ih h.2]

theorem indexChars_singleton_of_mem (c : Char) (s : List Char) (h : c ∈ s) :
    indexChars [c] s = some (s.takeWhile (fun x => !decide (x = c))).length := by
  induction s with
  | nil => simp at h
  | cons x xs ih =>
    by_cases hx : x = c
    · subst hx
      unfold indexChars
      simp [List.isPrefixOf]
    · have hmem : c ∈ xs := by
        rcases List.mem_cons.mp h with h1 | h1
        · exact absurd h1.symm hx
        · exact h1
      have hx' : (c == x) = false := by
        simpa using fun heq => hx heq.symm
      unfold indexChars
      simp [List.isPrefixOf, hx', ih hmem, hx]

theorem drop_takeWhile_length_succ (c : Char) (s : List Char) (h : c ∈ s) :
    s.drop ((s.takeWhile (fun x => !decide (x = c))).length + 1)
      = (s.dropWhile (fun x => !decide (x = c))).tail := by
  induction s with
  | nil => simp at h
  | cons x xs ih =>
    by_cases hx : x = c
    · subst hx
      simp
    · have hmem : c ∈ xs := by
        rcases List.mem_cons.mp h with h1 | h1
        · exact absurd h1.symm hx
        · exact h1
      simp [hx, ih hmem]

theorem take_takeWhile_length (p : Char → Bool) (s : List Char) :
    s.take (s.takeWhile p).length = s.takeWhile p := by
  induction s with
  | nil => rfl
  | cons x xs ih =>
    by_cases hx : p x = true
    · simp [List.takeWhile_cons, hx, ih]
    · simp [List.takeWhile_cons, hx]

theorem count_tail_dropWhile (c : Char) (s : List Char) (h : c ∈ s) :
    ((s.dropWhile (fun x => !decide (x = c))).tail).count c + 1 = s.count c := by
  induction s with
  | nil => simp at h
  | cons x xs ih =>
    by_cases hx : x = c
    · subst hx
      simp
    · have hmem : c ∈ xs := by
        rcases List.mem_cons.mp h with h1 | h1
        · exact absurd h1.symm hx
        · exact h1
      have hx' : (x == c) = false := by simpa using hx
      simp [hx, List.count_cons, hx', ih hmem]

/-- Splitting on one character gives one more piece than the character occurs. -/
theorem genSplit_singleton_length (c : Char) (fuel : Nat) (s : List Char)
    (hfuel : s.count c ≤ fuel) : (genSplit [c] fuel s).length = s.count c + 1 := by
  induction fuel generalizing s with
  | zero =>
    have : s.count c = 0 := Nat.le_zero.mp hfuel
    simp [genSplit, this]
  | succ f ih =>
    by_cases hmem : c ∈ s
    · have hrest := count_tail_dropWhile c s hmem
      simp only [genSplit, indexChars_singleton_of_mem c s hmem, List.length_singleton,
        drop_takeWhile_length_succ c s hmem, List.length_cons, List.length_nil, Nat.zero_add]
      rw [ih _ (by omega)]
      omega
    · simp [genSplit, indexChars_singleton_of_not_mem c s hmem, List.count_eq_zero_of_not_mem hmem]

/-- With exactly one occurrence of the character, the pieces are the text before it and the
text after it. -/
theorem genSplit_singleton_of_count_one (c : Char) (fuel : Nat) (s : List Char)
    (hcount : s.count c = 1) (hfuel : 1 ≤ fuel) :
    genSplit [c] fuel s
      = [s.takeWhile (fun x => !decide (x = c)), (s.dropWhile (fun x => !decide (x = c))).tail] := by
  have hmem : c ∈ s := List.count_pos_iff.mp (by omega)
  have hrest := count_tail_dropWhile c s hmem
  have hnot : c ∉ (s.dropWhile (fun x => !decide (x = c))).tail := by
    intro hin
    have := List.count_pos_iff.mpr hin
    omega
  obtain ⟨f, rfl⟩ : ∃ f, fuel = f + 1 := ⟨fuel - 1, by omega⟩
  simp only [genSplit, indexChars_singleton_of_mem c s hmem, List.length_singleton,
    drop_takeWhile_length_succ c s hmem, List.length_cons, List.length_nil, Nat.zero_add]
  rw [take_takeWhile_length]
  cases f with
  | zero => rfl
  | succ g => simp [genSplit, indexChars_singleton_of_not_mem c _ hnot]

end strings

/-! ### Import by reference -/

theorem Split_slash_length (id : String) :
    (strings.Split id "/").length = id.data.count '/' + 1 := by
  have hsep : ("/" : String).data = ['/'] := rfl
  unfold strings.Split
  rw [hsep]
  simp only [List.cons_ne_nil, if_false, List.length_map]
  exact strings.genSplit_singleton_length '/' _ _ (List.count_le_length _ _)

theorem Split_slash_of_count_one (id : String) (h : id.data.count '/' = 1) :
    strings.Split id "/"
      = [String.mk (id.data.takeWhile (fun x => !decide (x = '/'))),
          String.mk ((id.data.dropWhile (fun x => !decide (x = '/'))).tail)] := by
  have hsep : ("/" : String).data = ['/'] := rfl
  unfold strings.Split
  rw [hsep]
  simp only [List.cons_ne_nil, if_false]
  rw [strings.genSplit_singleton_of_count_one '/' _ _ h]
  · rfl
  · have := List.count_le_length '/' id.data
    omega

namespace Remote
variable {σ α β : Type}

/-- A call whose error is inspected, followed by more work: when the log shows no error,
the call succeeded. -/
theorem step_attempt_call {c : Call} {r : α → Reply} {f : σ → Except GoError α × σ}
    {g : Except GoError α → Remote σ β} {s : σ}
    (h : AllOk ((Remote.call c r f).attempt.bind g s).log) :
    ∃ a s1, f s = (.ok a, s1) ∧
      (Remote.call c r f).attempt.bind g s
        = ⟨(g (.ok a) s1).result, (g (.ok a) s1).state, ⟨c, r a⟩ :: (g (.ok a) s1).log⟩ := by
  rcases hf : f s with ⟨e | a, s1⟩
  · have hrun : (Remote.call c r f).attempt s = ⟨.ok (.error e), s1, [⟨c, .err e⟩]⟩ := by
      simp [Remote.attempt, call_run_err hf]
    rw [bind_run_ok hrun] at h
    have := h _ (List.mem_append_left _ (List.mem_singleton_self _))
    simp [Reply.isOk] at this
  · have hrun : (Remote.call c r f).attempt s = ⟨.ok (.ok a), s1, [⟨c, r a⟩]⟩ := by
      simp [Remote.attempt, call_run_ok hf]
    exact ⟨a, s1, rfl, by rw [bind_run_ok hrun]; rfl⟩

/-- The log of a call followed by more work starts with the call. -/
theorem call_bind_log {c : Call} {r : α → Reply} {f : σ → Except GoError α × σ}
    {g : α → Remote σ β} {s : σ} :
    ∃ reply rest, ((Remote.call c r f).bind g s).log = ⟨c, reply⟩ :: rest := by
  rcases hf : f s with ⟨_ | a, s1⟩
  · exact ⟨_, [], by rw [bind_run_err (call_run_err hf)]⟩
  · exact ⟨_, _, by rw [bind_run_ok (call_run_ok hf)]; rfl⟩

end Remote

/-- A read whose calls all succeed and whose lookup is answered faithfully returns a
document with the id, realm and import flag it was given. -/
theorem resourceKeycloakRoleRead_ok {σ : Type} (k : ProviderConstants) (kc : KeycloakClient σ)
    (data : RoleData) (s : σ)
    (hok : AllOk (resourceKeycloakRoleRead k kc data s).log)
    (hfaithful : ∀ e ∈ (resourceKeycloakRoleRead k kc data s).log, e.faithfulLookup = true) :
    ∃ d, (resourceKeycloakRoleRead k kc data s).result = .ok d ∧
      d.Id = data.Id ∧ d.realm_id = data.realm_id ∧ d.import_ = data.import_ := by
  unfold resourceKeycloakRoleRead at hok hfaithful ⊢
  simp only [Remote.bind_eq, Remote.pure_eq, KeycloakClient.GetRole,
    KeycloakClient.GetRoleComposites] at hok hfaithful ⊢
  obtain ⟨role, s1, _, hrun⟩ := Remote.step_attempt_call hok
  rw [hrun] at hok hfaithful ⊢
  have hrole := hfaithful _ (List.mem_cons_self _ _)
  simp only [Event.faithfulLookup, decide_eq_true_eq] at hrole
  have hok2 := Remote.AllOk_tail hok
  clear hok hfaithful hrun
  simp only at hok2 ⊢
  by_cases hc : role.Composite = true
  · simp only [hc, if_true] at hok2 ⊢
    obtain ⟨comps, s2, _, hrun2⟩ := Remote.step_call hok2
    rw [hrun2]
    simp only [Remote.pure_bind, Remote.pure]
    refine ⟨_, rfl, ?_⟩
    by_cases hi : data.import_ = true <;> simp [mapFromRoleToData, hi, hrole]
  · simp only [hc, if_false, Remote.pure_bind, Remote.pure]
    refine ⟨_, rfl, ?_⟩
    by_cases hi : data.import_ = true <;> simp [mapFromRoleToData, hi, hrole]

theorem resourceKeycloakRoleImport_of_count_ne_one {σ : Type} (k : ProviderConstants)
    (kc : KeycloakClient σ) (d : RoleData) (s : σ) (h : d.Id.data.count '/' ≠ 1) :
    resourceKeycloakRoleImport k kc d s = ⟨.error invalidImportError, s, []⟩ := by
  have hlen := Split_slash_length d.Id
  unfold resourceKeycloakRoleImport
  rcases hsp : strings.Split d.Id "/" with _ | ⟨a, _ | ⟨b, _ | ⟨c, rest⟩⟩⟩
  · rfl
  · rfl
  · rw [hsp] at hlen
    simp only [List.length_cons, List.length_nil] at hlen
    omega
  · rfl

theorem resourceKeycloakRoleImport_of_count_one {σ : Type} (k : ProviderConstants)
    (kc : KeycloakClient σ) (d : RoleData) (s : σ) (h : d.Id.data.count '/' = 1) :
    resourceKeycloakRoleImport k kc d s =
      ((kc.GetRole (importRealm d.Id) (importRoleId d.Id)).bind (fun _ =>
        (resourceKeycloakRoleRead k kc
          { d with realm_id := importRealm d.Id, import_ := false,
                   Id := importRoleId d.Id }).attempt.bind (fun r =>
            match r with
            | .error e => Remote.fail ⟨e.message, false⟩
            | .ok d => Remote.pure [d]))) s := by
  unfold resourceKeycloakRoleImport
  rw [Split_slash_of_count_one d.Id h]
  rfl

theorem resourceKeycloakRoleImport_ok {σ : Type} (k : ProviderConstants)
    (kc : KeycloakClient σ) (d : RoleData) (s : σ) (h : d.Id.data.count '/' = 1)
    (hok : AllOk (resourceKeycloakRoleImport k kc d s).log)
    (hfaithful : ∀ e ∈ (resourceKeycloakRoleImport k kc d s).log, e.faithfulLookup = true) :
    ∃ d1, (resourceKeycloakRoleImport k kc d s).result = .ok [d1] ∧
      d1.realm_id = importRealm d.Id ∧ d1.Id = importRoleId d.Id ∧ d1.import_ = false := by
  rw [resourceKeycloakRoleImport_of_count_one k kc d s h] at hok hfaithful ⊢
  simp only [KeycloakClient.GetRole] at hok hfaithful ⊢
  obtain ⟨_, s1, _, hrun⟩ := Remote.step_call hok
  rw [hrun] at hok hfaithful ⊢
  have hok2 := Remote.AllOk_tail hok
  have hf2 := fun (e : Event) he => hfaithful e (List.mem_cons_of_mem _ he)
  clear hok hfaithful hrun
  simp only at hok2 hf2 ⊢
  rcases hread : resourceKeycloakRoleRead k kc
      { d with realm_id := importRealm d.Id, import_ := false, Id := importRoleId d.Id } s1
    with ⟨res, s2, l2⟩
  have hattempt : (resourceKeycloakRoleRead k kc
      { d with realm_id := importRealm d.Id, import_ := false, Id := importRoleId d.Id }).attempt
      s1 = ⟨.ok res, s2, l2⟩ := by
    simp [Remote.attempt, hread]
  rw [Remote.bind_run_ok hattempt] at hok2 hf2 ⊢
  have hokr : AllOk (resourceKeycloakRoleRead k kc
      { d with realm_id := importRealm d.Id, import_ := false, Id := importRoleId d.Id }
        s1).log := by
    rw [hread]
    intro e he
    exact hok2 e (List.mem_append_left _ he)
  have hfr : ∀ e ∈ (resourceKeycloakRoleRead k kc
      { d with realm_id := importRealm d.Id, import_ := false, Id := importRoleId d.Id }
        s1).log, e.faithfulLookup = true := by
    rw [hread]
    intro e he
    exact hf2 e (List.mem_append_left _ he)
  obtain ⟨d1, hres, hid, hrealm, himp⟩ := resourceKeycloakRoleRead_ok k kc _ s1 hokr hfr
  rw [hread] at hres
  simp only at hres
  subst hres
  exact ⟨d1, rfl, hrealm, hid, himp⟩

/-- A read whose calls all succeed returns a document with the id and realm of the role
that its lookup returned, and the import flag it was given. -/
theorem resourceKeycloakRoleRead_found {σ : Type} (k : ProviderConstants)
    (kc : KeycloakClient σ) (data : RoleData) (s : σ)
    (hok : AllOk (resourceKeycloakRoleRead k kc data s).log) :
    ∃ role s1 d, kc.getRole data.realm_id data.Id s = (.ok role, s1) ∧
      (resourceKeycloakRoleRead k kc data s).result = .ok d ∧
      d.Id = role.Id ∧ d.realm_id = role.RealmId ∧ d.import_ = data.import_ := by
  unfold resourceKeycloakRoleRead at hok ⊢
  simp only [Remote.bind_eq, Remote.pure_eq, KeycloakClient.GetRole,
    KeycloakClient.GetRoleComposites] at hok ⊢
  obtain ⟨role, s1, hget, hrun⟩ := Remote.step_attempt_call hok
  rw [hrun] at hok ⊢
  have hok2 := Remote.AllOk_tail hok
  clear hok hrun
  simp only at hok2 ⊢
  refine ⟨role, s1, ?_⟩
  by_cases hc : role.Composite = true
  · simp only [hc, if_true] at hok2 ⊢
    obtain ⟨comps, s2, _, hrun2⟩ := Remote.step_call hok2
    rw [hrun2]
    simp only [Remote.pure_bind, Remote.pure]
    refine ⟨_, hget, rfl, ?_⟩
    by_cases hi : data.import_ = true <;> simp [mapFromRoleToData, hi]
  · simp only [hc, if_false, Remote.pure_bind, Remote.pure]
    refine ⟨_, hget, rfl, ?_⟩
    by_cases hi : data.import_ = true <;> simp [mapFromRoleToData, hi]

/-- A read whose lookup is answered "not found" clears the id of the document and reports
no error. -/
theorem resourceKeycloakRoleRead_notFound {σ : Type} (k : ProviderConstants)
    (kc : KeycloakClient σ) (data : RoleData) (s s1 : σ) (e : GoError)
    (hget : kc.getRole data.realm_id data.Id s = (.error e, s1)) (h404 : e.is404 = true) :
    resourceKeycloakRoleRead k kc data s
      = ⟨.ok { data with Id := "" }, s1, [⟨.GetRole data.realm_id data.Id, .err e⟩]⟩ := by
  unfold resourceKeycloakRoleRead
  simp only [Remote.bind_eq, Remote.pure_eq, KeycloakClient.GetRole]
  have hattempt : (Remote.call (Call.GetRole data.realm_id data.Id) Reply.role
      (kc.getRole data.realm_id data.Id)).attempt s
      = ⟨.ok (.error e), s1, [⟨.GetRole data.realm_id data.Id, .err e⟩]⟩ := by
    simp [Remote.attempt, Remote.call_run_err hget]
  rw [Remote.bind_run_ok hattempt]
  simp [handleNotFoundError, h404, Remote.pure]

/-- An import whose calls all succeed returns one document, not imported, with the id and
realm of the role that the lookup of its read returned. -/
theorem resourceKeycloakRoleImport_found {σ : Type} (k : ProviderConstants)
    (kc : KeycloakClient σ) (d : RoleData) (s : σ) (h : d.Id.data.count '/' = 1)
    (hok : AllOk (resourceKeycloakRoleImport k kc d s).log) :
    ∃ first s1 role s2 d1,
      kc.getRole (importRealm d.Id) (importRoleId d.Id) s = (.ok first, s1) ∧
      kc.getRole (importRealm d.Id) (importRoleId d.Id) s1 = (.ok role, s2) ∧
      (resourceKeycloakRoleImport k kc d s).result = .ok [d1] ∧
      d1.realm_id = role.RealmId ∧ d1.Id = role.Id ∧ d1.import_ = false := by
  rw [resourceKeycloakRoleImport_of_count_one k kc d s h] at hok ⊢
  simp only [KeycloakClient.GetRole] at hok ⊢
  obtain ⟨first, s1, hfirst, hrun⟩ := Remote.step_call hok
  rw [hrun] at hok ⊢
  have hok2 := Remote.AllOk_tail hok
  clear hok hrun
  simp only at hok2 ⊢
  rcases hread : resourceKeycloakRoleRead k kc
      { d with realm_id := importRealm d.Id, import_ := false, Id := importRoleId d.Id } s1
    with ⟨res, s2, l2⟩
  have hattempt : (resourceKeycloakRoleRead k kc
      { d with realm_id := importRealm d.Id, import_ := false, Id := importRoleId d.Id }).attempt
      s1 = ⟨.ok res, s2, l2⟩ := by
    simp [Remote.attempt, hread]
  rw [Remote.bind_run_ok hattempt] at hok2 ⊢
  have hokr : AllOk (resourceKeycloakRoleRead k kc
      { d with realm_id := importRealm d.Id, import_ := false, Id := importRoleId d.Id }
        s1).log := by
    rw [hread]
    intro e he
    exact hok2 e (List.mem_append_left _ he)
  obtain ⟨role, s3, d1, hget, hres, hid, hrealm, himp⟩ :=
    resourceKeycloakRoleRead_found k kc _ s1 hokr
  rw [hread] at hres
  simp only at hres
  subst hres
  exact ⟨first, s1, role, s3, d1, hfirst, hget, rfl, hrealm, hid, himp⟩

/-- An import whose first lookup finds the role and whose read is then answered "not
found" returns success, with one document whose id is empty. -/
theorem resourceKeycloakRoleImport_notFound {σ : Type} (k : ProviderConstants)
    (kc : KeycloakClient σ) (d : RoleData) (s s1 s2 : σ) (first : Role) (e : GoError)
    (h : d.Id.data.count '/' = 1)
    (hfirst : kc.getRole (importRealm d.Id) (importRoleId d.Id) s = (.ok first, s1))
    (hsecond : kc.getRole (importRealm d.Id) (importRoleId d.Id) s1 = (.error e, s2))
    (h404 : e.is404 = true) :
    (resourceKeycloakRoleImport k kc d s).result
      = .ok [{ d with realm_id := importRealm d.Id, import_ := false, Id := "" }] := by
  rw [resourceKeycloakRoleImport_of_count_one k kc d s h]
  simp only [KeycloakClient.GetRole]
  rw [Remote.bind_run_ok (Remote.call_run_ok hfirst)]
  have hread := resourceKeycloakRoleRead_notFound k kc
    { d with realm_id := importRealm d.Id, import_ := false, Id := importRoleId d.Id } s1 s2 e
    hsecond h404
  have hattempt : (resourceKeycloakRoleRead k kc
      { d with realm_id := importRealm d.Id, import_ := false, Id := importRoleId d.Id }).attempt
      s1 = ⟨.ok (.ok { d with realm_id := importRealm d.Id, import_ := false, Id := "" }), s2,
        [⟨.GetRole (importRealm d.Id) (importRoleId d.Id), .err e⟩]⟩ := by
    simp [Remote.attempt, hread]
  simp only
  rw [Remote.bind_run_ok hattempt]
  rfl

/-! ### The feature check -/

theorem Char.toLower_eq_iff (c : Char) (lower upper : Char)
    (hl : lower.toNat = upper.toNat + 32) (hu : 65 ≤ upper.toNat ∧ upper.toNat ≤ 90) :
    c.toLower = lower ↔ (c = lower ∨ c = upper) := by
  have hofNat : ∀ x : Char, Char.ofNat x.toNat = x := Char.ofNat_toNat
  unfold Char.toLower
  simp only [ge_iff_le]
  by_cases hr : 65 ≤ c.toNat ∧ c.toNat ≤ 90
  · rw [if_pos hr]
    constructor
    · intro h
      right
      have key : ∀ n, 65 ≤ n → n ≤ 90 → (Char.ofNat (n + 32)).toNat = n + 32 := by
        intro n h1 h2
        interval_cases n <;> rfl
      have h1 : (Char.ofNat (c.toNat + 32)).toNat = c.toNat + 32 := key _ hr.1 hr.2
      have h2 := congrArg Char.toNat h
      rw [h1, hl] at h2
      have h3 : c.toNat = upper.toNat := by omega
      rw [← hofNat c, ← hofNat upper, h3]
    · rintro (h | h)
      · rw [h] at hr
        omega
      · rw [h, ← hl, hofNat]
  · rw [if_neg hr]
    constructor
    · intro h
      exact Or.inl h
    · rintro (h | h)
      · exact h
      · rw [h] at hr
        exact absurd hu hr

theorem ToLower_eq_true_iff (s : String) :
    strings.ToLower s = "true" ↔ equalsTrueIgnoringCase s = true := by
  have ht := fun c => Char.toLower_eq_iff c 't' 'T' (by decide) (by decide)
  have hr := fun c => Char.toLower_eq_iff c 'r' 'R' (by decide) (by decide)
  have hu := fun c => Char.toLower_eq_iff c 'u' 'U' (by decide) (by decide)
  have he := fun c => Char.toLower_eq_iff c 'e' 'E' (by decide) (by decide)
  have hdata : ("true" : String).data = ['t', 'r', 'u', 'e'] := rfl
  rw [String.ext_iff, hdata]
  unfold strings.ToLower equalsTrueIgnoringCase
  rcases s with ⟨l⟩
  rcases l with _ | ⟨a, _ | ⟨b, _ | ⟨c, _ | ⟨d, _ | ⟨e, rest⟩⟩⟩⟩⟩
  · simp
  · simp
  · simp
  · simp
  · simp only [List.map_cons, List.map_nil, List.cons.injEq, and_true, ht, hr, hu, he,
      Bool.and_eq_true, Bool.or_eq_true, decide_eq_true_eq]
    tauto
  · simp

theorem checkUserProfileEnabled_new {σ : Type} (kc : KeycloakClient σ) (realmId : String)
    (s s1 : σ) (h : kc.versionIsGreaterThanOrEqualTo keycloak.Version_24 s = (.ok true, s1)) :
    checkUserProfileEnabled kc realmId s
      = ⟨.ok (), s1, [⟨.VersionIsGreaterThanOrEqualTo keycloak.Version_24, .bool true⟩]⟩ := by
  unfold checkUserProfileEnabled
  simp only [Remote.bind_eq, Remote.pure_eq, KeycloakClient.VersionIsGreaterThanOrEqualTo]
  rw [Remote.bind_run_ok (Remote.call_run_ok h)]
  simp [Remote.pure]

theorem checkUserProfileEnabled_legacy {σ : Type} (kc : KeycloakClient σ) (realmId : String)
    (s s1 s2 : σ) (realm : Realm)
    (h : kc.versionIsGreaterThanOrEqualTo keycloak.Version_24 s = (.ok false, s1))
    (hrealm : kc.getRealm realmId s1 = (.ok realm, s2)) :
    checkUserProfileEnabled kc realmId s
      = ⟨if userProfileFlag realm then .ok () else .error (userProfileDisabledError realmId),
          s2,
          [⟨.VersionIsGreaterThanOrEqualTo keycloak.Version_24, .bool false⟩,
            ⟨.GetRealm realmId, .realm realm⟩]⟩ := by
  unfold checkUserProfileEnabled
  simp only [Remote.bind_eq, Remote.pure_eq, KeycloakClient.VersionIsGreaterThanOrEqualTo,
    KeycloakClient.GetRealm]
  rw [Remote.bind_run_ok (Remote.call_run_ok h)]
  simp only [Bool.false_eq_true, if_false]
  rw [Remote.bind_run_ok (Remote.call_run_ok hrealm)]
  have hkey : USER_PROFILE_ENABLED = "userProfileEnabled" := rfl
  unfold userProfileFlag
  rw [hkey]
  rcases List.lookup "userProfileEnabled" realm.Attributes with _ | v
  · simp [Remote.fail]
  · cases v with
    | bool b => cases b <;> simp [Remote.fail, Remote.pure]
    | str v =>
      by_cases hv : strings.ToLower v = "true"
      · have := (ToLower_eq_true_iff v).mp hv
        simp [hv, this, Remote.pure]
      · have : equalsTrueIgnoringCase v = false := by
          rw [Bool.eq_false_iff]
          exact fun h => hv ((ToLower_eq_true_iff v).mpr h)
        simp [hv, this, Remote.fail]
    | _ => simp [Remote.fail]

/-! ### The unmanaged-attribute policy -/

theorem getRealmUserProfileFromData_run {σ : Type} (json : JsonCodec) (kc : KeycloakClient σ)
    (data : ProfileData String) (run : Remote σ RealmUserProfile) (s s1 : σ) (b : Bool)
    (hrun : getRealmUserProfileFromData json kc data = some run)
    (h : kc.versionIsGreaterThanOrEqualTo keycloak.Version_24 s = (.ok b, s1)) :
    ∃ attributes, getRealmUserProfileAttributesFromData json data.attribute_ = some attributes ∧
      run s
        = ⟨.ok { Attributes := attributes
                 Groups := getRealmUserProfileGroupsFromData json data.group
                 UnmanagedAttributePolicy :=
                   if b then writtenPolicy data.unmanaged_attribute_policy else none },
            s1, [⟨.VersionIsGreaterThanOrEqualTo keycloak.Version_24, .bool b⟩]⟩ := by
  unfold getRealmUserProfileFromData at hrun
  rcases hattrs : getRealmUserProfileAttributesFromData json data.attribute_ with _ | attributes
  · rw [hattrs] at hrun
    exact Option.noConfusion hrun
  · rw [hattrs] at hrun
    injection hrun with hrun
    subst hrun
    refine ⟨attributes, rfl, ?_⟩
    simp only [Remote.bind_eq, Remote.pure_eq, KeycloakClient.VersionIsGreaterThanOrEqualTo]
    rw [Remote.bind_run_ok (Remote.call_run_ok h)]
    cases b
    · simp [Remote.pure]
    · by_cases hp : data.unmanaged_attribute_policy = DISABLED
      · simp [Remote.pure, writtenPolicy, hp]
      · simp [Remote.pure, writtenPolicy, hp]

theorem setRealmUserProfileData_run {σ : Type} (json : JsonCodec) (kc : KeycloakClient σ)
    (data : ProfileData Value) (realmUserProfile : RealmUserProfile) (s s1 : σ) (b : Bool)
    (h : kc.versionIsGreaterThanOrEqualTo keycloak.Version_24 s = (.ok b, s1)) :
    setRealmUserProfileData json kc data realmUserProfile s
      = ⟨.ok { data with
               attribute_ := realmUserProfile.Attributes.map (getRealmUserProfileAttributeData json)
               group := realmUserProfile.Groups.map (getRealmUserProfileGroupData json)
               unmanaged_attribute_policy :=
                 if b then realmUserProfile.UnmanagedAttributePolicy.getD DISABLED
                 else data.unmanaged_attribute_policy },
          s1, [⟨.VersionIsGreaterThanOrEqualTo keycloak.Version_24, .bool b⟩]⟩ := by
  unfold setRealmUserProfileData
  simp only [Remote.bind_eq, Remote.pure_eq, KeycloakClient.VersionIsGreaterThanOrEqualTo]
  rw [Remote.bind_run_ok (Remote.call_run_ok h)]
  cases b
  · simp [Remote.pure]
  · cases hp : realmUserProfile.UnmanagedAttributePolicy <;> simp [Remote.pure]

theorem writtenPolicy_getD (declared : String) :
    (writtenPolicy declared).getD DISABLED = declared := by
  unfold writtenPolicy
  by_cases h : declared = DISABLED
  · simp [h]
  · simp [h]

/-! ### Delete -/

/-- A single call run on its own: its result, the state it leaves and its one log entry. -/
theorem Remote.call_unit_run {σ : Type} (c : Call) (f : σ → Except GoError Unit × σ) (s : σ) :
    Remote.call c (fun _ => Reply.done) f s
      = ⟨(f s).1, (f s).2, [⟨c, Reply.ofResult (f s).1⟩]⟩ := by
  rcases hf : f s with ⟨e | a, s1⟩
  · rw [Remote.call_run_err hf]
    rfl
  · rw [Remote.call_run_ok hf]
    rfl

theorem resourceKeycloakRoleDelete_run {σ : Type} (kc : KeycloakClient σ) (data : RoleData)
    (s : σ) :
    resourceKeycloakRoleDelete kc data s
      = if data.import_ then ⟨.ok (), s, []⟩
        else ⟨(kc.deleteRole data.realm_id data.Id s).1, (kc.deleteRole data.realm_id data.Id s).2,
          [⟨.DeleteRole data.realm_id data.Id,
            Reply.ofResult (kc.deleteRole data.realm_id data.Id s).1⟩]⟩ := by
  unfold resourceKeycloakRoleDelete
  by_cases h : data.import_ = true
  · simp [h, Remote.pure]
  · simp only [h, Bool.false_eq_true, if_false, KeycloakClient.DeleteRole]
    exact Remote.call_unit_run _ _ s

theorem checkUserProfileEnabled_noProfileUpdate {σ : Type} (kc : KeycloakClient σ)
    (realmId : String) (s : σ) :
    ∀ e ∈ (checkUserProfileEnabled kc realmId s).log, e.call.isProfileUpdate = false := by
  unfold checkUserProfileEnabled
  simp only [Remote.bind_eq, Remote.pure_eq, KeycloakClient.VersionIsGreaterThanOrEqualTo,
    KeycloakClient.GetRealm]
  apply Remote.all_bind
  · exact Remote.all_call _ (fun _ => rfl)
  intro versionOk _ _ _
  cases versionOk
  · simp only [Bool.false_eq_true, if_false]
    apply Remote.all_bind
    · exact Remote.all_call _ (fun _ => rfl)
    intro realm _ _ _
    rcases List.lookup USER_PROFILE_ENABLED realm.Attributes with _ | v
    · exact Remote.all_fail _
    · cases v with
      | bool value =>
        cases value
        · exact Remote.all_fail _
        · exact Remote.all_pure _
      | str value =>
        by_cases hv : strings.ToLower value = "true"
        · simp only [hv, if_true]
          exact Remote.all_pure _
        · simp only [hv, if_false]
          exact Remote.all_fail _
      | _ => exact Remote.all_fail _
  · simp only [if_true]
    exact Remote.all_pure _

/-- The run of a profile delete after a check that passed: the version query for 23 is
made and its error, if any, is dropped; the replace is sent in the state the query left. -/
theorem resourceKeycloakRealmUserProfileDelete_run {σ : Type} (kc : KeycloakClient σ)
    (data : ProfileData String) (s s1 : σ) (l1 : List Event)
    (hcheck : checkUserProfileEnabled kc data.realm_id s = ⟨.ok (), s1, l1⟩) :
    resourceKeycloakRealmUserProfileDelete kc data s
      = ⟨(kc.updateRealmUserProfile data.realm_id
            (resetProfile (answeredYes (kc.versionIsGreaterThanOrEqualTo keycloak.Version_23 s1).1))
            (kc.versionIsGreaterThanOrEqualTo keycloak.Version_23 s1).2).1,
          (kc.updateRealmUserProfile data.realm_id
            (resetProfile (answeredYes (kc.versionIsGreaterThanOrEqualTo keycloak.Version_23 s1).1))
            (kc.versionIsGreaterThanOrEqualTo keycloak.Version_23 s1).2).2,
          l1 ++ [⟨.VersionIsGreaterThanOrEqualTo keycloak.Version_23,
              Reply.ofAnswer (kc.versionIsGreaterThanOrEqualTo keycloak.Version_23 s1).1⟩,
            ⟨.UpdateRealmUserProfile data.realm_id
              (resetProfile
                (answeredYes (kc.versionIsGreaterThanOrEqualTo keycloak.Version_23 s1).1)),
              Reply.ofResult (kc.updateRealmUserProfile data.realm_id
                (resetProfile
                  (answeredYes (kc.versionIsGreaterThanOrEqualTo keycloak.Version_23 s1).1))
                (kc.versionIsGreaterThanOrEqualTo keycloak.Version_23 s1).2).1⟩]⟩ := by
  unfold resourceKeycloakRealmUserProfileDelete
  simp only [Remote.bind_eq, Remote.pure_eq, KeycloakClient.VersionIsGreaterThanOrEqualTo,
    KeycloakClient.UpdateRealmUserProfile]
  rw [Remote.bind_run_ok hcheck]
  rcases hversion : kc.versionIsGreaterThanOrEqualTo keycloak.Version_23 s1 with ⟨e | b, s2⟩
  · have hattempt : (Remote.call (Call.VersionIsGreaterThanOrEqualTo keycloak.Version_23)
        Reply.bool (kc.versionIsGreaterThanOrEqualTo keycloak.Version_23)).attempt s1
        = ⟨.ok (.error e), s2,
            [⟨.VersionIsGreaterThanOrEqualTo keycloak.Version_23, .err e⟩]⟩ := by
      simp [Remote.attempt, Remote.call_run_err hversion]
    rw [Remote.bind_run_ok hattempt]
    simp only [Remote.call_unit_run, resetProfile, answeredYes, Reply.ofAnswer,
      Bool.false_eq_true, if_false, List.cons_append, List.nil_append]
  · have hattempt : (Remote.call (Call.VersionIsGreaterThanOrEqualTo keycloak.Version_23)
        Reply.bool (kc.versionIsGreaterThanOrEqualTo keycloak.Version_23)).attempt s1
        = ⟨.ok (.ok b), s2, [⟨.VersionIsGreaterThanOrEqualTo keycloak.Version_23, .bool b⟩]⟩ := by
      simp [Remote.attempt, Remote.call_run_ok hversion]
    rw [Remote.bind_run_ok hattempt]
    cases b
    · simp only [Remote.call_unit_run, resetProfile, answeredYes, Reply.ofAnswer,
        Bool.false_eq_true, if_false, List.cons_append, List.nil_append]
    · simp only [Remote.call_unit_run, resetProfile, answeredYes, Reply.ofAnswer, if_true,
        nameOnlyAttribute, List.cons_append, List.nil_append]

/-! ### Annotations -/

/-- What the two mappings make of one annotation with a stable text. -/
theorem annotationEntry_roundTrip (json : JsonCodec) (kv : String × String)
    (h : json.stableObjectText kv.2 = true) :
    (fun kv : String × Value =>
        match kv.2 with
        | .obj _ => (kv.1, Value.str (json.marshalString kv.2))
        | v => (kv.1, v))
      ((fun kv : String × String =>
        if strings.HasPrefix kv.2 "\x7b" then (kv.1, json.unmarshalAny kv.2)
        else (kv.1, Value.str kv.2)) kv)
      = (kv.1, Value.str kv.2) := by
  by_cases hp : strings.HasPrefix kv.2 "\x7b" = true
  · simp only [hp, if_true]
    simp only [JsonCodec.stableObjectText, hp, Bool.not_true, Bool.false_or] at h
    rcases hu : json.Unmarshal kv.2 with _ | v
    · simp [hu] at h
    · cases v with
      | obj kvs =>
        simp only [hu, decide_eq_true_eq] at h
        simp [JsonCodec.unmarshalAny, hu, JsonCodec.marshalString, h]
      | _ => simp [hu] at h
  · simp [hp]

/-- An annotation of an attribute with a stable text comes back unchanged, whatever the
other annotations are. -/
theorem getRealmUserProfileAttributeData_annotations (json : JsonCodec)
    (m : AttributeData String) (attr : RealmUserProfileAttribute)
    (hmapped : getRealmUserProfileAttributeFromData json m = some attr)
    (anns : List (String × String)) (hm : m.annotations = some anns)
    (kv : String × String) (hkv : kv ∈ anns) (hstable : json.stableObjectText kv.2 = true) :
    (kv.1, Value.str kv.2) ∈ (getRealmUserProfileAttributeData json attr).annotations.getD [] := by
  obtain ⟨-, -, -, -, -, -, hann⟩ := getRealmUserProfileAttributeFromData_eq_some json m attr hmapped
  rw [hm, Option.map_some'] at hann
  simp only [getRealmUserProfileAttributeData, hann, Option.getD_some, List.map_map]
  exact List.mem_map.mpr ⟨kv, hkv, annotationEntry_roundTrip json kv hstable⟩

/-- An annotation of a group with a stable text comes back unchanged, whatever the other
annotations are. -/
theorem getRealmUserProfileGroupData_annotations (json : JsonCodec)
    (m : GroupData String) (anns : List (String × String))
    (hm : m.annotations = some anns)
    (kv : String × String) (hkv : kv ∈ anns) (hstable : json.stableObjectText kv.2 = true) :
    (kv.1, Value.str kv.2) ∈
      (getRealmUserProfileGroupData json
        (getRealmUserProfileGroupFromData json m)).annotations.getD [] := by
  simp only [getRealmUserProfileGroupData, getRealmUserProfileGroupFromData, hm,
    Option.getD_some, List.map_map]
  exact List.mem_map.mpr ⟨kv, hkv, annotationEntry_roundTrip json kv hstable⟩

/-! ## The claims -/

set_option maxRecDepth 100000 in
/-- C1 (code defect). The update reconciles the composites as long as no two of the ids at
hand share a hash code: when the remote answers the composite query with `R` (distinct
ids), the declared ids have no repetition, no declared id has the hash code of another
remote id and every remote call succeeds, the update issues, after `UpdateRole` and
`GetRoleComposites` and before the final read, exactly these calls: one
`RemoveCompositesFromRole` with the remote roles whose id is not declared (none if there is
no such role), one `GetRole` for each declared id the remote lacks, and one
`AddCompositesToRole` with the roles those lookups returned (none if there is no such id).
On the example of the specification, with A, B, C on the remote and B, C, D declared, the
composite changes are the removal of A and the addition of D.
But the declared set is keyed by the CRC-32 code of the id, and the loop over the remote
composites asks the set by code: when the remote holds `plumless` and `buckeroo` is
declared, two ids with the same code, the role that is to be removed is taken for the
declared one, and the update removes nothing and adds nothing. The same happens with two
ids in the form of a UUID. -/
theorem roleUpdate_reconciles_composites :
    (∀ (σ : Type) (k : ProviderConstants) (kc : KeycloakClient σ) (data : RoleData)
      (s s1 s2 : σ) (R : List Role),
      kc.updateRole (mapFromDataToRole k data) s = (.ok (), s1) →
      kc.getRoleComposites (mapFromDataToRole k data) s1 = (.ok R, s2) →
      (R.map Role.Id).Nodup →
      (data.composite_roles.getD []).Nodup →
      (∀ r ∈ R, ∀ d ∈ data.composite_roles.getD [],
        schema.HashString d = schema.HashString r.Id → d = r.Id) →
      AllOk (resourceKeycloakRoleUpdate k kc data s).log →
      ∃ (added : List Role) (s3 : σ) (d3 : RoleData),
        added.length = (compositeIdsToAdd R (data.composite_roles.getD [])).length ∧
        d3.realm_id = data.realm_id ∧ d3.Id = data.Id ∧
        (resourceKeycloakRoleUpdate k kc data s).log =
          [⟨.UpdateRole (mapFromDataToRole k data), .done⟩,
            ⟨.GetRoleComposites (mapFromDataToRole k data), .roles R⟩]
          ++ (if (compositesToRemove R (data.composite_roles.getD [])).length ≠ 0 then
                [⟨.RemoveCompositesFromRole (mapFromDataToRole k data)
                  (compositesToRemove R (data.composite_roles.getD [])), .done⟩]
              else [])
          ++ List.zipWith (fun id r => ⟨.GetRole data.realm_id id, .role r⟩)
              (compositeIdsToAdd R (data.composite_roles.getD [])) added
          ++ (if (compositeIdsToAdd R (data.composite_roles.getD [])).length ≠ 0 then
                [⟨.AddCompositesToRole (mapFromDataToRole k data) added, .done⟩]
              else [])
          ++ (resourceKeycloakRoleRead k kc d3 s3).log) ∧
    (resourceKeycloakRoleUpdate simConstants simClient simData simRemoteABC).log.filter
        (fun e => e.call.isCompositeChange)
      = [⟨.RemoveCompositesFromRole (mapFromDataToRole simConstants simData) [simRole "A"],
            .done⟩,
          ⟨.AddCompositesToRole (mapFromDataToRole simConstants simData) [simRole "D"],
            .done⟩] ∧
    (schema.HashString "plumless" = 1306201125 ∧ schema.HashString "buckeroo" = 1306201125) ∧
    (compositesToRemove [simRole "plumless"] ["buckeroo"] = [simRole "plumless"] ∧
      compositeIdsToAdd [simRole "plumless"] ["buckeroo"] = ["buckeroo"]) ∧
    (resourceKeycloakRoleUpdate simConstants simClient (simCollisionData "buckeroo")
        (simCollisionRemote "plumless" "buckeroo")).log
      = [⟨.UpdateRole (mapFromDataToRole simConstants (simCollisionData "buckeroo")), .done⟩,
          ⟨.GetRoleComposites (mapFromDataToRole simConstants (simCollisionData "buckeroo")),
            .roles [simRole "plumless"]⟩,
          ⟨.GetRole "realm" "role", .role (simRole "role")⟩] ∧
    (resourceKeycloakRoleUpdate simConstants simClient (simCollisionData "buckeroo")
        (simCollisionRemote "plumless" "buckeroo")).state.composites = [simRole "plumless"] ∧
    (schema.HashString "9ef70b69-2531-4663-8a2f-da139eb6b43d" = 3610743550 ∧
      schema.HashString "f827f5ee-413f-4ceb-bfb9-0cd24f4674f9" = 3610743550) ∧
    (resourceKeycloakRoleUpdate simConstants simClient
        (simCollisionData "f827f5ee-413f-4ceb-bfb9-0cd24f4674f9")
        (simCollisionRemote "9ef70b69-2531-4663-8a2f-da139eb6b43d"
          "f827f5ee-413f-4ceb-bfb9-0cd24f4674f9")).state.composites
      = [simRole "9ef70b69-2531-4663-8a2f-da139eb6b43d"] := by
  refine ⟨?_, rfl, ⟨by decide, by decide⟩, ⟨by decide, by decide⟩, rfl, by decide,
    ⟨by decide, by decide⟩, by decide⟩
  intro σ k kc data s s1 s2 R hUpdate hComposites hR hD hinj hok
  obtain ⟨added, s3, d3, hlen, hrealm, hid, hlog⟩ :=
    resourceKeycloakRoleUpdate_log k kc data s s1 s2 R hUpdate hComposites hok
  rw [compositeDiff_eq R (data.composite_roles.getD []) [] hR hD hinj] at hlen hlog
  exact ⟨added, s3, d3, hlen, hrealm, hid, hlog⟩

/-- C2. Update is idempotent: take a first update that succeeded on a remote whose composite
set was `R` (distinct ids) and whose role lookups were answered faithfully. If a second
update with the same configuration is run in a state `t` in which the remote answers the
composite query with what the first run's add and remove calls left of `R` (in any order),
the second update issues no `AddCompositesToRole` and no `RemoveCompositesFromRole` call.
Nothing is assumed of the hash codes of the ids: after the first run the remote composites
carry the hash codes of the declared set, which is all the second run looks at. -/
theorem roleUpdate_idempotent {σ : Type} (k : ProviderConstants)
    (kc : KeycloakClient σ) (data : RoleData) (s s1 s2 t : σ) (R : List Role)
    (hUpdate : kc.updateRole (mapFromDataToRole k data) s = (.ok (), s1))
    (hComposites : kc.getRoleComposites (mapFromDataToRole k data) s1 = (.ok R, s2))
    (hR : (R.map Role.Id).Nodup)
    (hok : AllOk (resourceKeycloakRoleUpdate k kc data s).log)
    (hfaithful : ∀ e ∈ (resourceKeycloakRoleUpdate k kc data s).log, e.faithfulLookup = true)
    (hsecond : ∀ R2, (kc.getRoleComposites (mapFromDataToRole k data)
          (kc.updateRole (mapFromDataToRole k data) t).2).1 = .ok R2 →
        (R2.map Role.Id).Perm
          ((applyCompositeCalls R (resourceKeycloakRoleUpdate k kc data s).log).map Role.Id)) :
    NoCompositeChange (resourceKeycloakRoleUpdate k kc data t).log := by
  have hsettled := resourceKeycloakRoleUpdate_settles k kc data s s1 s2 R hUpdate
    hComposites hR hok hfaithful
  apply resourceKeycloakRoleUpdate_noChange
  intro R2 hR2
  have hperm := (hsecond R2 hR2).map schema.HashString
  rw [List.map_map, List.map_map] at hperm
  exact hperm.trans hsettled

/-- C2 on the example remote: after the update that removes A and adds D, a second update
with the same document, run in the state the first one left, changes no composite. -/
theorem roleUpdate_idempotent_witness :
    NoCompositeChange (resourceKeycloakRoleUpdate simConstants simClient simData
      (resourceKeycloakRoleUpdate simConstants simClient simData simRemoteABC).state).log :=
  roleUpdate_idempotent simConstants simClient simData simRemoteABC simRemoteABC simRemoteABC
    (resourceKeycloakRoleUpdate simConstants simClient simData simRemoteABC).state
    [simRole "A", simRole "B", simRole "C"] rfl rfl (by decide) (by decide) (by decide)
    (by
      intro R2 h
      have h2 : (resourceKeycloakRoleUpdate simConstants simClient simData
          simRemoteABC).state.composites = R2 := Except.ok.inj h
      rw [← h2]
      exact List.Perm.of_eq (by decide))

/-- C3 fails on the update path: on the example remote the update of a role that declares
B, C, D sends a role whose composite flag is false, and leaves the role with the non-empty
composite set B, C, D. -/
theorem compositeFlag_update_counterexample :
    AllOk (resourceKeycloakRoleUpdate simConstants simClient simData simRemoteABC).log ∧
    (sentRoles (resourceKeycloakRoleUpdate simConstants simClient simData simRemoteABC).log).map
      Role.Composite = [false] ∧
    (resourceKeycloakRoleUpdate simConstants simClient simData simRemoteABC).state.composites.map
      Role.Id = ["B", "C", "D"] ∧
    ¬ (∀ role ∈ sentRoles
        (resourceKeycloakRoleUpdate simConstants simClient simData simRemoteABC).log,
      (role.Composite = true ↔
        (resourceKeycloakRoleUpdate simConstants simClient simData simRemoteABC).state.composites
          ≠ [])) := by
  decide

/-- C3, amended. In the direct create path the role sent to the remote has its composite
flag set exactly when composites are declared, and when every call succeeds exactly when
the composite set the remote holds after the create is non-empty. In the update path the
role sent to the remote always has the composite flag unset. -/
theorem compositeFlag_of_sent_role {σ : Type} (k : ProviderConstants)
    (kc : KeycloakClient σ) (data : RoleData) (s : σ) :
    (data.import_ = false →
      (∀ role ∈ sentRoles (resourceKeycloakRoleCreate k kc data s).log,
        (role.Composite = true ↔ data.composite_roles.getD [] ≠ [])) ∧
      (AllOk (resourceKeycloakRoleCreate k kc data s).log →
        ∀ role ∈ sentRoles (resourceKeycloakRoleCreate k kc data s).log,
          (role.Composite = true ↔
            applyCompositeCalls [] (resourceKeycloakRoleCreate k kc data s).log ≠ []))) ∧
    (∀ role ∈ sentRoles (resourceKeycloakRoleUpdate k kc data s).log,
      role.Composite = false) := by
  refine ⟨fun himport => ?_, ?_⟩
  · have hflag : ∀ role ∈ sentRoles (resourceKeycloakRoleCreate k kc data s).log,
        (role.Composite = true ↔ data.composite_roles.getD [] ≠ []) := by
      intro role hrole
      obtain ⟨e, he, hsent⟩ := mem_sentRoles.mp hrole
      exact resourceKeycloakRoleCreate_flag k kc data s himport e he role hsent
    refine ⟨hflag, fun hok role hrole => ?_⟩
    rw [hflag role hrole]
    have hlen := resourceKeycloakRoleCreate_direct_applied k kc data s himport hok
    rw [ne_eq, ne_eq, ← List.length_eq_zero, ← List.length_eq_zero, hlen]
  · intro role hrole
    obtain ⟨e, he, hsent⟩ := mem_sentRoles.mp hrole
    exact resourceKeycloakRoleUpdate_flag k kc data s e he role hsent

/-- C3 amended, on the example: a direct create of a role that declares B, C, D succeeds and
sends a role whose composite flag is set. -/
theorem compositeFlag_of_sent_role_witness :
    AllOk (resourceKeycloakRoleCreate simConstants simClient simData simRemoteABC).log ∧
    (sentRoles (resourceKeycloakRoleCreate simConstants simClient simData simRemoteABC).log).map
      Role.Composite = [true] ∧
    ∀ role ∈ sentRoles
        (resourceKeycloakRoleCreate simConstants simClient simData simRemoteABC).log,
      (role.Composite = true ↔
        applyCompositeCalls []
          (resourceKeycloakRoleCreate simConstants simClient simData simRemoteABC).log ≠ []) :=
  ⟨by decide, by decide,
    ((compositeFlag_of_sent_role simConstants simClient simData simRemoteABC).1 rfl).2
      (by decide)⟩

/-- C4 (code defect). Mapping an attribute document to the remote form and back returns the
declared `name`, `display_name`, `group` and `multivalued`, but `multi_valued` comes back as
the declared `multivalued`: the remote `MultiValued` is read from the key `multivalued`.
A document with `multi_valued = true` and `multivalued = false` comes back with
`multi_valued = false`. -/
theorem attribute_roundTrip_multi_valued :
    (∀ (json : JsonCodec) (m : AttributeData String) (attr : RealmUserProfileAttribute),
      getRealmUserProfileAttributeFromData json m = some attr →
      (getRealmUserProfileAttributeData json attr).name = m.name ∧
      (getRealmUserProfileAttributeData json attr).display_name = m.display_name ∧
      (getRealmUserProfileAttributeData json attr).group = m.group ∧
      (getRealmUserProfileAttributeData json attr).multivalued = m.multivalued ∧
      (getRealmUserProfileAttributeData json attr).multi_valued = m.multivalued) ∧
    (simAttribute "department" true false).multi_valued = true ∧
    (getRealmUserProfileAttributeFromData goJsonCodec
        (simAttribute "department" true false)).map
      (fun attr => (getRealmUserProfileAttributeData goJsonCodec attr).multi_valued)
      = some false := by
  refine ⟨fun json m attr h => ?_, rfl, rfl⟩
  obtain ⟨h1, h2, h3, h4, h5, -, -⟩ := getRealmUserProfileAttributeFromData_eq_some json m attr h
  exact ⟨h1, h2, h3, h4, h5⟩

/-- C5 fails for texts that start with `[` and are not the compact JSON of a list: the
unparsable text `[` comes back as `[]`, and `["a", "b"]` written with a space comes back
without it. It also fails for a value of a validator with an empty name, which is dropped
with its configuration, for a value of a validator whose name a later validator of the
attribute repeats (of two validators `length` only the configuration of the second comes
back), and for every value of an attribute whose `permissions` block holds a nil element,
where the mapping panics and nothing comes back. -/
theorem validatorConfig_roundTrip_counterexample :
    (attributeRoundTrip goJsonCodec (simValidatorAttribute "[")).bind firstValidatorConfigValue
      = some "[]" ∧
    (attributeRoundTrip goJsonCodec (simValidatorAttribute "[\"a\", \"b\"]")).bind
        firstValidatorConfigValue
      = some "[\"a\",\"b\"]" ∧
    (attributeRoundTrip goJsonCodec
        (simValidatorsAttribute [{ name := "", config := some [("min", "1")] }])).map
        (fun d => d.validator)
      = some (some []) ∧
    (attributeRoundTrip goJsonCodec
        (simValidatorsAttribute [{ name := "length", config := some [("min", "1")] },
          { name := "length", config := some [("max", "2")] }])).map
        (fun d => d.validator)
      = some (some [{ name := "length", config := some [("max", Value.str "2")] }]) ∧
    attributeRoundTrip goJsonCodec
        { simValidatorAttribute "x" with permissions := some [none] }
      = none :=
  ⟨by decide, by decide, rfl, rfl, rfl⟩

/-- C5, amended. Take an attribute document that the mapping to the remote form accepts,
and in it a validator with a non-empty name that no later validator of the attribute
repeats. Mapping the attribute to the remote form and back returns a validator with that
name, and in its configuration every value of the declared configuration that does not
start with `[`, or is the text that `json.Marshal` writes for the list it decodes to,
stands unchanged under its key, whatever the other values are. -/
theorem validatorConfig_roundTrip (json : JsonCodec) (m : AttributeData String)
    (attr : RealmUserProfileAttribute)
    (hmapped : getRealmUserProfileAttributeFromData json m = some attr)
    (before after : List (ValidatorData String)) (v : ValidatorData String)
    (hm : m.validator = some (before ++ v :: after))
    (hname : v.name ≠ "") (hlast : ∀ w ∈ after, w.name ≠ v.name) :
    ∃ out ∈ (getRealmUserProfileAttributeData json attr).validator.getD [],
      out.name = v.name ∧
      ∀ kv ∈ v.config.getD [], json.stableListText kv.2 = true →
        (kv.1, Value.str kv.2) ∈ out.config.getD [] :=
  getRealmUserProfileAttributeData_validator json m attr hmapped before after v hm hname hlast

/-- C5 amended, on the example of the specification: `["a","b"]` is held remotely as the
list of `a` and `b` and comes back as the same text; and in a configuration that also holds
the plain value `x` and the unparsable value `[`, the first two come back unchanged. -/
theorem validatorConfig_roundTrip_witness :
    (getRealmUserProfileAttributeFromData goJsonCodec
        (simValidatorAttribute "[\"a\",\"b\"]")).map (fun attr => attr.Validations)
      = some (some [("options", [("options", Value.list [Value.str "a", Value.str "b"])])]) ∧
    ∃ attr, getRealmUserProfileAttributeFromData goJsonCodec
        (simValidatorsAttribute
          [{ name := "options"
             config := some [("good", "[\"a\",\"b\"]"), ("plain", "x"), ("bad", "[")] }])
        = some attr ∧
      ∃ out ∈ (getRealmUserProfileAttributeData goJsonCodec attr).validator.getD [],
        out.name = "options" ∧
        ("good", Value.str "[\"a\",\"b\"]") ∈ out.config.getD [] ∧
        ("plain", Value.str "x") ∈ out.config.getD [] := by
  refine ⟨rfl, _, rfl, ?_⟩
  obtain ⟨out, hout, hname, hvalues⟩ := validatorConfig_roundTrip goJsonCodec
    (simValidatorsAttribute
      [{ name := "options"
         config := some [("good", "[\"a\",\"b\"]"), ("plain", "x"), ("bad", "[")] }])
    _ rfl [] []
    { name := "options"
      config := some [("good", "[\"a\",\"b\"]"), ("plain", "x"), ("bad", "[")] }
    rfl (by decide) (by simp)
  exact ⟨out, hout, hname,
    hvalues ("good", "[\"a\",\"b\"]") (by simp) (by decide),
    hvalues ("plain", "x") (by simp) (by decide)⟩

/-- C6 fails: with the separator `##`, an empty value list comes back as the list of one
empty string, and the values `a#` and `b`, neither of which contains `##`, come back as
`a` and `#b`. -/
theorem roleAttribute_roundTrip_counterexample :
    (strings.Contains "a#" "##" = false ∧ strings.Contains "b" "##" = false) ∧
    strings.Split (strings.Join [] "##") "##" = [""] ∧
    strings.Split (strings.Join ["a#", "b"] "##") "##" = ["a", "#b"] ∧
    (mapFromDataToRole simConstants (mapFromRoleToData simConstants simData
        { simRole "role" with Attributes := [("none", []), ("tags", ["a#", "b"])] })).Attributes
      = [("none", [""]), ("tags", ["a", "#b"])] := by
  decide

/-- C6, amended. With a non-empty separator, joining a list of values with the separator
and splitting the joined text on the separator returns the original list exactly when the
list is not empty, its last value does not contain the separator, and in no value before
the last an occurrence of the separator starts, not even one that runs into the separator
that follows the value. Storing a role in the configuration document and building the role
from the document again joins and splits the value list of every attribute, so every
attribute with such a list comes back with its original list, whatever the other
attributes hold. -/
theorem roleAttribute_roundTrip (k : ProviderConstants)
    (hsep : k.MULTIVALUE_ATTRIBUTE_SEPARATOR ≠ "") :
    (∀ vs : List String,
      strings.Split (strings.Join vs k.MULTIVALUE_ATTRIBUTE_SEPARATOR)
          k.MULTIVALUE_ATTRIBUTE_SEPARATOR = vs
        ↔ separable k.MULTIVALUE_ATTRIBUTE_SEPARATOR vs = true) ∧
    (∀ (data : RoleData) (role : Role),
      (mapFromDataToRole k (mapFromRoleToData k data role)).Attributes
        = role.Attributes.map (fun kv =>
            (kv.1, strings.Split (strings.Join kv.2 k.MULTIVALUE_ATTRIBUTE_SEPARATOR)
              k.MULTIVALUE_ATTRIBUTE_SEPARATOR))) ∧
    (∀ (data : RoleData) (role : Role), ∀ kv ∈ role.Attributes,
      separable k.MULTIVALUE_ATTRIBUTE_SEPARATOR kv.2 = true →
      kv ∈ (mapFromDataToRole k (mapFromRoleToData k data role)).Attributes) := by
  have hmap : ∀ (data : RoleData) (role : Role),
      (mapFromDataToRole k (mapFromRoleToData k data role)).Attributes
        = role.Attributes.map (fun kv =>
            (kv.1, strings.Split (strings.Join kv.2 k.MULTIVALUE_ATTRIBUTE_SEPARATOR)
              k.MULTIVALUE_ATTRIBUTE_SEPARATOR)) := by
    intro data role
    simp only [mapFromDataToRole, mapFromRoleToData, List.map_map]
    rfl
  refine ⟨fun vs => strings.Split_Join _ hsep vs, hmap, fun data role kv hkv hs => ?_⟩
  rw [hmap]
  refine List.mem_map.mpr ⟨kv, hkv, ?_⟩
  rw [(strings.Split_Join _ hsep kv.2).mpr hs]

/-- C6 amended, on examples with the separator `##`: the lists `a#` and `b, a#`, whose last
value ends in a single `#`, come back unchanged, and of a role with three attributes the
two with separable lists come back unchanged although the third does not. -/
theorem roleAttribute_roundTrip_witness :
    strings.Split (strings.Join ["a#"] "##") "##" = ["a#"] ∧
    strings.Split (strings.Join ["b", "a#"] "##") "##" = ["b", "a#"] ∧
    separable "##" ["a#", "b"] = false ∧
    (("tags", ["a", "b#c", ""]) ∈
      (mapFromDataToRole simConstants (mapFromRoleToData simConstants simData
        { simRole "role" with
          Attributes := [("tags", ["a", "b#c", ""]), ("bad", ["a#", "b"]),
            ("last", ["b", "a#"])] })).Attributes) ∧
    (("last", ["b", "a#"]) ∈
      (mapFromDataToRole simConstants (mapFromRoleToData simConstants simData
        { simRole "role" with
          Attributes := [("tags", ["a", "b#c", ""]), ("bad", ["a#", "b"]),
            ("last", ["b", "a#"])] })).Attributes) :=
  ⟨((roleAttribute_roundTrip simConstants (by decide)).1 ["a#"]).mpr (by decide),
    ((roleAttribute_roundTrip simConstants (by decide)).1 ["b", "a#"]).mpr (by decide),
    by decide,
    (roleAttribute_roundTrip simConstants (by decide)).2.2 simData _ _ (by decide) (by decide),
    (roleAttribute_roundTrip simConstants (by decide)).2.2 simData _ _ (by decide) (by decide)⟩

/-- C7 fails in its last part: on a remote where the role is deleted between the lookup
of the import and the lookup of the read that follows, the import of `realm/role` returns
success, and the document it returns has the empty id, not the id `role`. -/
theorem roleImport_id_format_counterexample :
    ("realm/role" : String).data.count '/' = 1 ∧
    importRoleId "realm/role" = "role" ∧
    (resourceKeycloakRoleImport simConstants simClientRoleVanishes
        { simData with Id := "realm/role" } simRemoteABC).result
      = .ok [{ simData with realm_id := "realm", import_ := false, Id := "" }] ∧
    (resourceKeycloakRoleImport simConstants simClientRoleVanishes
        { simData with Id := "realm/role" } simRemoteABC).log
      = [⟨.GetRole "realm" "role", .role (simRole "role")⟩,
          ⟨.GetRole "realm" "role", .err ⟨"role not found", true⟩⟩] :=
  ⟨by decide, by decide, rfl, rfl⟩

/-- C7, amended. Import by reference: the import fails with the format error, in the state
it was started in and without a remote call, exactly when the id does not contain exactly
one `/`. With exactly one `/` the first remote call is the lookup of the role with the text
before the `/` as realm and the text after it as id. When every call succeeds, the import
returns one document with `import = false` and the realm and id of the role that the lookup
of its read returned, which are the realm and id asked for when the lookups are answered
faithfully. When the lookup of the read is answered "not found", the import returns success
as well, with one document whose id is empty. -/
theorem roleImport_id_format {σ : Type} (k : ProviderConstants) (kc : KeycloakClient σ)
    (d : RoleData) (s : σ) :
    (d.Id.data.count '/' ≠ 1 ↔
      resourceKeycloakRoleImport k kc d s = ⟨.error invalidImportError, s, []⟩) ∧
    (d.Id.data.count '/' = 1 →
      (∃ reply rest, (resourceKeycloakRoleImport k kc d s).log
        = ⟨.GetRole (importRealm d.Id) (importRoleId d.Id), reply⟩ :: rest) ∧
      (AllOk (resourceKeycloakRoleImport k kc d s).log →
        ∃ first s1 role s2 d1,
          kc.getRole (importRealm d.Id) (importRoleId d.Id) s = (.ok first, s1) ∧
          kc.getRole (importRealm d.Id) (importRoleId d.Id) s1 = (.ok role, s2) ∧
          (resourceKeycloakRoleImport k kc d s).result = .ok [d1] ∧
          d1.realm_id = role.RealmId ∧ d1.Id = role.Id ∧ d1.import_ = false) ∧
      (AllOk (resourceKeycloakRoleImport k kc d s).log →
        (∀ e ∈ (resourceKeycloakRoleImport k kc d s).log, e.faithfulLookup = true) →
        ∃ d1, (resourceKeycloakRoleImport k kc d s).result = .ok [d1] ∧
          d1.realm_id = importRealm d.Id ∧ d1.Id = importRoleId d.Id ∧
          d1.import_ = false) ∧
      (∀ first s1 e s2,
        kc.getRole (importRealm d.Id) (importRoleId d.Id) s = (.ok first, s1) →
        kc.getRole (importRealm d.Id) (importRoleId d.Id) s1 = (.error e, s2) →
        e.is404 = true →
        (resourceKeycloakRoleImport k kc d s).result
          = .ok [{ d with realm_id := importRealm d.Id, import_ := false, Id := "" }])) := by
  refine ⟨⟨fun h => resourceKeycloakRoleImport_of_count_ne_one k kc d s h, fun hrun h => ?_⟩,
    fun h => ⟨?_, fun hok => resourceKeycloakRoleImport_found k kc d s h hok,
      fun hok hfaithful => resourceKeycloakRoleImport_ok k kc d s h hok hfaithful,
      fun first s1 e s2 hfirst hsecond h404 =>
        resourceKeycloakRoleImport_notFound k kc d s s1 s2 first e h hfirst hsecond h404⟩⟩
  · rw [resourceKeycloakRoleImport_of_count_one k kc d s h] at hrun
    obtain ⟨reply, rest, hlog⟩ := Remote.call_bind_log
      (c := Call.GetRole (importRealm d.Id) (importRoleId d.Id)) (r := Reply.role)
      (f := kc.getRole (importRealm d.Id) (importRoleId d.Id))
      (g := fun _ => (resourceKeycloakRoleRead k kc
          { d with realm_id := importRealm d.Id, import_ := false,
                   Id := importRoleId d.Id }).attempt.bind (fun r =>
            match r with
            | .error e => Remote.fail ⟨e.message, false⟩
            | .ok d => Remote.pure [d])) (s := s)
    have hlog2 := congrArg Outcome.log hrun
    simp only [KeycloakClient.GetRole] at hlog2
    rw [hlog] at hlog2
    exact List.cons_ne_nil _ _ hlog2
  · rw [resourceKeycloakRoleImport_of_count_one k kc d s h]
    exact Remote.call_bind_log

/-- C7 amended, on the examples of the specification: `onlyrealm` and `realm/id/extra` fail
with the format error before any remote call; `realm/role` is looked up and imported. -/
theorem roleImport_id_format_witness :
    resourceKeycloakRoleImport simConstants simClient { simData with Id := "onlyrealm" }
        simRemoteABC = ⟨.error invalidImportError, simRemoteABC, []⟩ ∧
    resourceKeycloakRoleImport simConstants simClient { simData with Id := "realm/id/extra" }
        simRemoteABC = ⟨.error invalidImportError, simRemoteABC, []⟩ ∧
    ∃ d1, (resourceKeycloakRoleImport simConstants simClient { simData with Id := "realm/role" }
        simRemoteABC).result = .ok [d1] ∧
      d1.realm_id = "realm" ∧ d1.Id = "role" ∧ d1.import_ = false :=
  ⟨(roleImport_id_format simConstants simClient { simData with Id := "onlyrealm" }
      simRemoteABC).1.mp (by decide),
    (roleImport_id_format simConstants simClient { simData with Id := "realm/id/extra" }
      simRemoteABC).1.mp (by decide),
    ((roleImport_id_format simConstants simClient { simData with Id := "realm/role" }
      simRemoteABC).2 (by decide)).2.2.1 (by decide) (by decide)⟩

/-- C8. The legacy feature check: when the version query answers that the server is at
version 24 or above, the check succeeds and the version query is its only remote call. When
it answers that the server is below 24 and the realm is fetched, the check makes these two
calls and succeeds if the realm attribute `userProfileEnabled` is the boolean `true` or a
string equal to `true` ignoring case; in every other case (absent, `false`, another value
or type) it returns the "User Profile is disabled" error. -/
theorem checkUserProfileEnabled_spec {σ : Type} (kc : KeycloakClient σ) (realmId : String)
    (s s1 : σ) :
    (kc.versionIsGreaterThanOrEqualTo keycloak.Version_24 s = (.ok true, s1) →
      checkUserProfileEnabled kc realmId s
        = ⟨.ok (), s1, [⟨.VersionIsGreaterThanOrEqualTo keycloak.Version_24, .bool true⟩]⟩) ∧
    (∀ (s2 : σ) (realm : Realm),
      kc.versionIsGreaterThanOrEqualTo keycloak.Version_24 s = (.ok false, s1) →
      kc.getRealm realmId s1 = (.ok realm, s2) →
      checkUserProfileEnabled kc realmId s
        = ⟨if userProfileFlag realm then .ok () else .error (userProfileDisabledError realmId),
            s2,
            [⟨.VersionIsGreaterThanOrEqualTo keycloak.Version_24, .bool false⟩,
              ⟨.GetRealm realmId, .realm realm⟩]⟩) :=
  ⟨fun h => checkUserProfileEnabled_new kc realmId s s1 h,
    fun s2 realm h hrealm => checkUserProfileEnabled_legacy kc realmId s s1 s2 realm h hrealm⟩

/-- C8 on examples: a server at version 24 passes without a realm fetch; a server at
version 23 passes with `userProfileEnabled = "TRUE"` and fails with `"false"`, with the
number 1, and without the attribute. -/
theorem checkUserProfileEnabled_spec_witness :
    (checkUserProfileEnabled simClient "realm" (simRemoteRealm 24 [])).log.length = 1 ∧
    (checkUserProfileEnabled simClient "realm" (simRemoteRealm 24 [])).result = .ok () ∧
    (checkUserProfileEnabled simClient "realm"
      (simRemoteRealm 23 [("userProfileEnabled", .str "TRUE")])).result = .ok () ∧
    (checkUserProfileEnabled simClient "realm"
      (simRemoteRealm 23 [("userProfileEnabled", .str "false")])).result
        = .error (userProfileDisabledError "realm") ∧
    (checkUserProfileEnabled simClient "realm"
      (simRemoteRealm 23 [("userProfileEnabled", .num 1)])).result
        = .error (userProfileDisabledError "realm") ∧
    (checkUserProfileEnabled simClient "realm" (simRemoteRealm 23 [])).result
        = .error (userProfileDisabledError "realm") :=
  ⟨congrArg (fun o => o.log.length)
      ((checkUserProfileEnabled_spec simClient "realm" (simRemoteRealm 24 [])
        (simRemoteRealm 24 [])).1 rfl),
    congrArg Outcome.result
      ((checkUserProfileEnabled_spec simClient "realm" (simRemoteRealm 24 [])
        (simRemoteRealm 24 [])).1 rfl),
    congrArg Outcome.result
      ((checkUserProfileEnabled_spec simClient "realm"
        (simRemoteRealm 23 [("userProfileEnabled", .str "TRUE")])
        (simRemoteRealm 23 [("userProfileEnabled", .str "TRUE")])).2 _ _ rfl rfl),
    congrArg Outcome.result
      ((checkUserProfileEnabled_spec simClient "realm"
        (simRemoteRealm 23 [("userProfileEnabled", .str "false")])
        (simRemoteRealm 23 [("userProfileEnabled", .str "false")])).2 _ _ rfl rfl),
    congrArg Outcome.result
      ((checkUserProfileEnabled_spec simClient "realm"
        (simRemoteRealm 23 [("userProfileEnabled", .num 1)])
        (simRemoteRealm 23 [("userProfileEnabled", .num 1)])).2 _ _ rfl rfl),
    congrArg Outcome.result
      ((checkUserProfileEnabled_spec simClient "realm" (simRemoteRealm 23 [])
        (simRemoteRealm 23 [])).2 _ _ rfl rfl)⟩

/-- C9. Create in import mode: when every remote call succeeds, the calls are the lookups
of the declared composite ids, `GetRoleByName`, `UpdateRole` with the merged role,
`GetRoleComposites`, then, exactly when composites are declared,
`RemoveCompositesFromRole` with all existing composites followed by `AddCompositesToRole`
with all resolved declared composites, and the final read; `CreateRole` is never called.
Whether the existing role is composite plays no part. -/
theorem importCreate_replaces_composites {σ : Type} (k : ProviderConstants)
    (kc : KeycloakClient σ) (data : RoleData) (s : σ) (himport : data.import_ = true)
    (hok : AllOk (resourceKeycloakRoleCreate k kc data s).log) :
    ∃ (resolved : List Role) (existingRole : Role) (existingCompositeRoles : List Role)
      (s1 : σ),
      resolved.length = (data.composite_roles.getD []).length ∧
      (resourceKeycloakRoleCreate k kc data s).log =
        List.zipWith (fun id r => ⟨.GetRole data.realm_id id, .role r⟩)
            (data.composite_roles.getD []) resolved
        ++ [⟨.GetRoleByName data.realm_id data.client_id data.name, .role existingRole⟩,
            ⟨.UpdateRole (importMergedRole k data resolved existingRole), .done⟩,
            ⟨.GetRoleComposites (importMergedRole k data resolved existingRole),
              .roles existingCompositeRoles⟩]
        ++ (if (data.composite_roles.getD []).length ≠ 0 then
              [⟨.RemoveCompositesFromRole (importMergedRole k data resolved existingRole)
                  existingCompositeRoles, .done⟩,
                ⟨.AddCompositesToRole (importMergedRole k data resolved existingRole)
                  resolved, .done⟩]
            else [])
        ++ (resourceKeycloakRoleRead k kc
              (mapFromRoleToData k data (importMergedRole k data resolved existingRole))
              s1).log ∧
      ∀ e ∈ (resourceKeycloakRoleCreate k kc data s).log, e.call.isCreateRole = false := by
  obtain ⟨resolved, existingRole, existingCompositeRoles, s1, hlen, hlog⟩ :=
    resourceKeycloakRoleCreate_import_log k kc data s himport hok
  refine ⟨resolved, existingRole, existingCompositeRoles, s1, hlen, hlog, ?_⟩
  rw [hlog]
  intro e he
  simp only [List.mem_append] at he
  rcases he with ((h | h) | h) | h
  · exact lookups_noCreate _ _ _ e h
  · simp only [List.mem_cons, List.mem_singleton, List.not_mem_nil, or_false] at h
    rcases h with h | h | h <;> rw [h] <;> rfl
  · split at h
    · simp only [List.mem_cons, List.mem_singleton, List.not_mem_nil, or_false] at h
      rcases h with h | h <;> rw [h] <;> rfl
    · simp at h
  · exact resourceKeycloakRoleRead_noCreate k kc _ s1 e h

/-- C9 on the example remote, whose role has the composites A, B, C: importing with B and
D declared leaves it with B and D; importing with nothing declared leaves A, B, C. In both
runs every call succeeds and none is `CreateRole`. -/
theorem importCreate_replaces_composites_witness :
    (resourceKeycloakRoleCreate simConstants simClient simImportData
      simRemoteABC).state.composites.map Role.Id = ["B", "D"] ∧
    (resourceKeycloakRoleCreate simConstants simClient simImportDataPlain
      simRemoteABC).state.composites.map Role.Id = ["A", "B", "C"] ∧
    (∀ e ∈ (resourceKeycloakRoleCreate simConstants simClient simImportData simRemoteABC).log,
      e.call.isCreateRole = false) ∧
    (∀ e ∈ (resourceKeycloakRoleCreate simConstants simClient simImportDataPlain
      simRemoteABC).log, e.call.isCreateRole = false) := by
  obtain ⟨_, _, _, _, _, _, h1⟩ := importCreate_replaces_composites simConstants simClient
    simImportData simRemoteABC rfl (by decide)
  obtain ⟨_, _, _, _, _, _, h2⟩ := importCreate_replaces_composites simConstants simClient
    simImportDataPlain simRemoteABC rfl (by decide)
  exact ⟨by decide, by decide, h1, h2⟩

/-- C10 (code defect). The loop over the attribute documents drops the mapped attributes
with an empty name and keeps the others in their order, and the name of a mapped attribute
is the name of its document; the loop over the group documents does the same for groups.
But the attribute list is only returned when every document can be mapped: the mapping of
a document panics when its `permissions` list starts with a nil element, and then the whole
call returns nothing. A list whose only document has an empty name and such a
`permissions` block is not mapped to the empty list: the call panics, also when the
document follows one that is mapped. -/
theorem emptyName_elements_dropped :
    (∀ (json : JsonCodec) (attributes : List (AttributeData String)),
      getRealmUserProfileAttributesFromData json attributes
        = (attributes.mapM (getRealmUserProfileAttributeFromData json)).map
            (List.filter (fun a => decide (a.Name ≠ "")))) ∧
    (∀ (json : JsonCodec) (m : AttributeData String) (attr : RealmUserProfileAttribute),
      getRealmUserProfileAttributeFromData json m = some attr → attr.Name = m.name) ∧
    (∀ (json : JsonCodec) (m : AttributeData String),
      getRealmUserProfileAttributeFromData json m = none
        ↔ ∃ rest, m.permissions = some (none :: rest)) ∧
    (∀ (json : JsonCodec) (groups : List (GroupData String)),
      getRealmUserProfileGroupsFromData json groups
        = (groups.map (getRealmUserProfileGroupFromData json)).filter
            (fun g => decide (g.Name ≠ ""))) ∧
    (∀ (json : JsonCodec) (m : GroupData String),
      (getRealmUserProfileGroupFromData json m).Name = m.name) ∧
    (simNilPermissionsAttribute "").name = "" ∧
    getRealmUserProfileAttributesFromData goJsonCodec [simNilPermissionsAttribute ""] = none ∧
    getRealmUserProfileAttributesFromData goJsonCodec
      [simAttribute "department" false false, simNilPermissionsAttribute ""] = none := by
  refine ⟨fun json attributes => ?_,
    fun json m attr h => (getRealmUserProfileAttributeFromData_eq_some json m attr h).1,
    fun json m => getRealmUserProfileAttributeFromData_eq_none json m,
    fun json groups => ?_, fun _ _ => rfl, rfl, rfl, rfl⟩
  · unfold getRealmUserProfileAttributesFromData
    refine (foldlM_append_filter (getRealmUserProfileAttributeFromData json)
      (fun a => a.Name ≠ "") _ ?_ attributes []).trans ?_
    · intro out m
      cases getRealmUserProfileAttributeFromData json m <;> rfl
    · cases attributes.mapM (getRealmUserProfileAttributeFromData json) <;> simp
  · unfold getRealmUserProfileGroupsFromData
    rw [foldl_append_filter (getRealmUserProfileGroupFromData json) (fun g => g.Name ≠ "")]
    rfl

/-- C11. The unmanaged-attribute policy, for a call of `getRealmUserProfileFromData` in
which the attribute list of the document is mapped (`run` is what the call does after
that). When the version query answers "at least 24", `getRealmUserProfileFromData` writes
`DISABLED` as no remote policy and any other declared policy (`ENABLED`, `ADMIN_VIEW`,
`ADMIN_EDIT`) literally, `setRealmUserProfileData` reads no remote policy as `DISABLED` and
another one literally, and reading back the written profile gives the declared policy.
When the query answers "below 24", the written remote policy is none and reading leaves
the policy field of the document as it was. -/
theorem unmanagedPolicy_mapping {σ : Type} (json : JsonCodec) (kc : KeycloakClient σ)
    (data : ProfileData String) (state : ProfileData Value) (profile : RealmUserProfile)
    (s s1 t t1 : σ) (run : Remote σ RealmUserProfile)
    (hrun : getRealmUserProfileFromData json kc data = some run) :
    (kc.versionIsGreaterThanOrEqualTo keycloak.Version_24 s = (.ok true, s1) →
      ∃ p, (run s).result = .ok p ∧
        p.UnmanagedAttributePolicy
          = if data.unmanaged_attribute_policy = DISABLED then none
            else some data.unmanaged_attribute_policy) ∧
    (kc.versionIsGreaterThanOrEqualTo keycloak.Version_24 t = (.ok true, t1) →
      ∃ d, (setRealmUserProfileData json kc state profile t).result = .ok d ∧
        d.unmanaged_attribute_policy = profile.UnmanagedAttributePolicy.getD DISABLED) ∧
    (kc.versionIsGreaterThanOrEqualTo keycloak.Version_24 s = (.ok true, s1) →
      kc.versionIsGreaterThanOrEqualTo keycloak.Version_24 t = (.ok true, t1) →
      ∃ p d, (run s).result = .ok p ∧
        (setRealmUserProfileData json kc state p t).result = .ok d ∧
        d.unmanaged_attribute_policy = data.unmanaged_attribute_policy) ∧
    (kc.versionIsGreaterThanOrEqualTo keycloak.Version_24 s = (.ok false, s1) →
      ∃ p, (run s).result = .ok p ∧ p.UnmanagedAttributePolicy = none) ∧
    (kc.versionIsGreaterThanOrEqualTo keycloak.Version_24 t = (.ok false, t1) →
      ∃ d, (setRealmUserProfileData json kc state profile t).result = .ok d ∧
        d.unmanaged_attribute_policy = state.unmanaged_attribute_policy) := by
  refine ⟨fun hs => ?_, fun ht => ?_, fun hs ht => ?_, fun hs => ?_, fun ht => ?_⟩
  · obtain ⟨attributes, -, h⟩ := getRealmUserProfileFromData_run json kc data run s s1 true hrun hs
    rw [h]
    exact ⟨_, rfl, rfl⟩
  · rw [setRealmUserProfileData_run json kc state profile t t1 true ht]
    exact ⟨_, rfl, rfl⟩
  · obtain ⟨attributes, -, h⟩ := getRealmUserProfileFromData_run json kc data run s s1 true hrun hs
    exact ⟨_, _, congrArg Outcome.result h,
      congrArg Outcome.result (setRealmUserProfileData_run json kc state _ t t1 true ht),
      writtenPolicy_getD data.unmanaged_attribute_policy⟩
  · obtain ⟨attributes, -, h⟩ := getRealmUserProfileFromData_run json kc data run s s1 false hrun hs
    rw [h]
    exact ⟨_, rfl, rfl⟩
  · rw [setRealmUserProfileData_run json kc state profile t t1 false ht]
    exact ⟨_, rfl, rfl⟩

/-- C11 on the example remote. At version 24 each of the four policies is read back as
declared, `DISABLED` being written as no policy and `ENABLED` literally; at version 23
`ENABLED` is written as no policy and a read leaves the field of the document alone. -/
theorem unmanagedPolicy_mapping_witness :
    (∀ policy ∈ [DISABLED, ENABLED, ADMIN_VIEW, ADMIN_EDIT],
      ∃ run p d,
        getRealmUserProfileFromData goJsonCodec simClient (simProfileData policy [])
          = some run ∧
        (run (simRemoteRealm 24 [])).result = .ok p ∧
        (setRealmUserProfileData goJsonCodec simClient (simProfileState "") p
          (simRemoteRealm 24 [])).result = .ok d ∧
        d.unmanaged_attribute_policy = policy) ∧
    (∃ run p, getRealmUserProfileFromData goJsonCodec simClient (simProfileData DISABLED [])
        = some run ∧
      (run (simRemoteRealm 24 [])).result = .ok p ∧ p.UnmanagedAttributePolicy = none) ∧
    (∃ run p, getRealmUserProfileFromData goJsonCodec simClient (simProfileData ENABLED [])
        = some run ∧
      (run (simRemoteRealm 24 [])).result = .ok p ∧
      p.UnmanagedAttributePolicy = some ENABLED) ∧
    (∃ run p, getRealmUserProfileFromData goJsonCodec simClient (simProfileData ENABLED [])
        = some run ∧
      (run (simRemoteRealm 23 [])).result = .ok p ∧ p.UnmanagedAttributePolicy = none) ∧
    (∃ d, (setRealmUserProfileData goJsonCodec simClient (simProfileState "kept")
        ⟨[], [], some ENABLED⟩ (simRemoteRealm 23 [])).result = .ok d ∧
      d.unmanaged_attribute_policy = "kept") :=
  ⟨fun policy _ =>
      ⟨_, (fun ⟨p, d, h⟩ => ⟨p, d, rfl, h⟩)
        ((unmanagedPolicy_mapping goJsonCodec simClient (simProfileData policy [])
          (simProfileState "") ⟨[], [], none⟩ (simRemoteRealm 24 []) (simRemoteRealm 24 [])
          (simRemoteRealm 24 []) (simRemoteRealm 24 []) _ rfl).2.2.1 rfl rfl)⟩,
    ⟨_, (fun ⟨p, h⟩ => ⟨p, rfl, h⟩)
      ((unmanagedPolicy_mapping goJsonCodec simClient (simProfileData DISABLED [])
        (simProfileState "") ⟨[], [], none⟩ (simRemoteRealm 24 []) (simRemoteRealm 24 [])
        (simRemoteRealm 24 []) (simRemoteRealm 24 []) _ rfl).1 rfl)⟩,
    ⟨_, (fun ⟨p, h⟩ => ⟨p, rfl, h⟩)
      ((unmanagedPolicy_mapping goJsonCodec simClient (simProfileData ENABLED [])
        (simProfileState "") ⟨[], [], none⟩ (simRemoteRealm 24 []) (simRemoteRealm 24 [])
        (simRemoteRealm 24 []) (simRemoteRealm 24 []) _ rfl).1 rfl)⟩,
    ⟨_, (fun ⟨p, h⟩ => ⟨p, rfl, h⟩)
      ((unmanagedPolicy_mapping goJsonCodec simClient (simProfileData ENABLED [])
        (simProfileState "") ⟨[], [], none⟩ (simRemoteRealm 23 []) (simRemoteRealm 23 [])
        (simRemoteRealm 23 []) (simRemoteRealm 23 []) _ rfl).2.2.2.1 rfl)⟩,
    (unmanagedPolicy_mapping goJsonCodec simClient (simProfileData ENABLED [])
        (simProfileState "kept") ⟨[], [], some ENABLED⟩ (simRemoteRealm 23 [])
        (simRemoteRealm 23 []) (simRemoteRealm 23 []) (simRemoteRealm 23 []) _ rfl).2.2.2.2 rfl⟩

/-- C13. Delete of a role: when the import flag of the state is true, the delete makes no
remote call, leaves the remote as it is and returns success. When the flag is false it
makes exactly one call, `DeleteRole` with the realm and id of the state, and returns the
result of that call. -/
theorem roleDelete_imported_noop {σ : Type} (kc : KeycloakClient σ) (data : RoleData) (s : σ) :
    (data.import_ = true → resourceKeycloakRoleDelete kc data s = ⟨.ok (), s, []⟩) ∧
    (data.import_ = false →
      resourceKeycloakRoleDelete kc data s
        = ⟨(kc.deleteRole data.realm_id data.Id s).1,
            (kc.deleteRole data.realm_id data.Id s).2,
            [⟨.DeleteRole data.realm_id data.Id,
              Reply.ofResult (kc.deleteRole data.realm_id data.Id s).1⟩]⟩) := by
  constructor
  · intro h
    rw [resourceKeycloakRoleDelete_run, h]
    rfl
  · intro h
    rw [resourceKeycloakRoleDelete_run, h]
    rfl

/-- C13 on the example remote: deleting the imported role A makes no call and keeps A;
deleting the role A that was not imported makes one call and A is gone. -/
theorem roleDelete_imported_noop_witness :
    (resourceKeycloakRoleDelete simClient (simRoleState "A" true) simRemoteABC).log.length = 0 ∧
    (resourceKeycloakRoleDelete simClient (simRoleState "A" true) simRemoteABC).state.roles.map
      Role.Id = ["role", "A", "B", "C", "D"] ∧
    (resourceKeycloakRoleDelete simClient (simRoleState "A" false) simRemoteABC).log.length = 1 ∧
    (resourceKeycloakRoleDelete simClient (simRoleState "A" false) simRemoteABC).state.roles.map
      Role.Id = ["role", "B", "C", "D"] :=
  ⟨congrArg (fun o => o.log.length)
      ((roleDelete_imported_noop simClient (simRoleState "A" true) simRemoteABC).1 rfl),
    congrArg (fun o => o.state.roles.map Role.Id)
      ((roleDelete_imported_noop simClient (simRoleState "A" true) simRemoteABC).1 rfl),
    congrArg (fun o => o.log.length)
      ((roleDelete_imported_noop simClient (simRoleState "A" false) simRemoteABC).2 rfl),
    by decide⟩

/-- C14. Profile delete resets to the default profile: whenever the feature check passes,
the delete makes, after the calls of the check, the version query for 23 and then exactly
one more call, the replace of the realm's profile by a profile without groups and without
policy; its attributes are `username` and `email` by name only when the query answers "at
least 23", and none when it answers "below 23" (and also none when the query fails: the
error is dropped and the replace is still sent). No other call of the run replaces the
profile, the delete returns the result of the replace, and nothing of the prior
configuration but the realm enters the call. -/
theorem profileDelete_resets {σ : Type} (kc : KeycloakClient σ) (data : ProfileData String)
    (s s1 : σ) (l1 : List Event)
    (hcheck : checkUserProfileEnabled kc data.realm_id s = ⟨.ok (), s1, l1⟩) :
    ∃ sent : RealmUserProfile,
      resourceKeycloakRealmUserProfileDelete kc data s
        = ⟨(kc.updateRealmUserProfile data.realm_id sent
              (kc.versionIsGreaterThanOrEqualTo keycloak.Version_23 s1).2).1,
            (kc.updateRealmUserProfile data.realm_id sent
              (kc.versionIsGreaterThanOrEqualTo keycloak.Version_23 s1).2).2,
            l1 ++ [⟨.VersionIsGreaterThanOrEqualTo keycloak.Version_23,
                Reply.ofAnswer (kc.versionIsGreaterThanOrEqualTo keycloak.Version_23 s1).1⟩,
              ⟨.UpdateRealmUserProfile data.realm_id sent,
                Reply.ofResult (kc.updateRealmUserProfile data.realm_id sent
                  (kc.versionIsGreaterThanOrEqualTo keycloak.Version_23 s1).2).1⟩]⟩ ∧
      (resourceKeycloakRealmUserProfileDelete kc data s).log.filter
          (fun e => e.call.isProfileUpdate)
        = [⟨.UpdateRealmUserProfile data.realm_id sent,
            Reply.ofResult (kc.updateRealmUserProfile data.realm_id sent
              (kc.versionIsGreaterThanOrEqualTo keycloak.Version_23 s1).2).1⟩] ∧
      sent.Groups = [] ∧
      sent.UnmanagedAttributePolicy = none ∧
      ((kc.versionIsGreaterThanOrEqualTo keycloak.Version_23 s1).1 = .ok true →
        sent.Attributes = [nameOnlyAttribute "username", nameOnlyAttribute "email"]) ∧
      ((kc.versionIsGreaterThanOrEqualTo keycloak.Version_23 s1).1 = .ok false →
        sent.Attributes = []) ∧
      (∀ e, (kc.versionIsGreaterThanOrEqualTo keycloak.Version_23 s1).1 = .error e →
        sent.Attributes = []) := by
  have hrun := resourceKeycloakRealmUserProfileDelete_run kc data s s1 l1 hcheck
  refine ⟨resetProfile (answeredYes (kc.versionIsGreaterThanOrEqualTo keycloak.Version_23 s1).1),
    hrun, ?_, rfl, rfl, fun h => ?_, fun h => ?_, fun e h => ?_⟩
  · have hl1 : l1.filter (fun e => e.call.isProfileUpdate) = [] := by
      rw [List.filter_eq_nil_iff]
      intro e he
      have hlog : (checkUserProfileEnabled kc data.realm_id s).log = l1 := by rw [hcheck]
      have := checkUserProfileEnabled_noProfileUpdate kc data.realm_id s e (hlog ▸ he)
      simp [this]
    rw [hrun]
    simp only [List.filter_append, hl1, List.nil_append]
    rfl
  · rw [h]; rfl
  · rw [h]; rfl
  · rw [h]; rfl

/-- C14 on the example remote, with a populated prior configuration: at version 24 the
one replace carries `username` and `email` by name only; at version 22 with the feature
flag set it carries no attribute; and when the version query for 23 fails after a check
that passed, the replace is still sent, with no attribute. -/
theorem profileDelete_resets_witness :
    ((resourceKeycloakRealmUserProfileDelete simClient
        (simProfileData ENABLED [simPriorAttribute]) (simRemoteRealm 24 [])).log.filter
          (fun e => e.call.isProfileUpdate))
      = [⟨.UpdateRealmUserProfile "realm"
            ⟨[nameOnlyAttribute "username", nameOnlyAttribute "email"], [], none⟩, .done⟩] ∧
    ((resourceKeycloakRealmUserProfileDelete simClient
        (simProfileData ENABLED [simPriorAttribute])
        (simRemoteRealm 22 [("userProfileEnabled", .bool true)])).log.filter
          (fun e => e.call.isProfileUpdate))
      = [⟨.UpdateRealmUserProfile "realm" ⟨[], [], none⟩, .done⟩] ∧
    (resourceKeycloakRealmUserProfileDelete simClientQueryFails
        (simProfileData ENABLED [simPriorAttribute]) (simRemoteRealm 24 [])).log
      = [⟨.VersionIsGreaterThanOrEqualTo keycloak.Version_24, .bool true⟩,
          ⟨.VersionIsGreaterThanOrEqualTo keycloak.Version_23,
            .err ⟨"version query failed", false⟩⟩,
          ⟨.UpdateRealmUserProfile "realm" ⟨[], [], none⟩, .done⟩] := by
  obtain ⟨sent1, -, hf1, hg1, hp1, ha1, -, -⟩ := profileDelete_resets simClient
    (simProfileData ENABLED [simPriorAttribute]) (simRemoteRealm 24 []) (simRemoteRealm 24 [])
    _ rfl
  obtain ⟨sent2, -, hf2, hg2, hp2, -, ha2, -⟩ := profileDelete_resets simClient
    (simProfileData ENABLED [simPriorAttribute])
    (simRemoteRealm 22 [("userProfileEnabled", .bool true)])
    (simRemoteRealm 22 [("userProfileEnabled", .bool true)]) _ rfl
  obtain ⟨sent3, h3, -, hg3, hp3, -, -, ha3⟩ := profileDelete_resets simClientQueryFails
    (simProfileData ENABLED [simPriorAttribute]) (simRemoteRealm 24 []) (simRemoteRealm 24 [])
    _ rfl
  have e1 : sent1 = ⟨[nameOnlyAttribute "username", nameOnlyAttribute "email"], [], none⟩ := by
    obtain ⟨a, g, p⟩ := sent1
    have ha := ha1 rfl
    simp only at hg1 hp1 ha
    rw [hg1, hp1, ha]
  have e2 : sent2 = ⟨[], [], none⟩ := by
    obtain ⟨a, g, p⟩ := sent2
    have ha := ha2 rfl
    simp only at hg2 hp2 ha
    rw [hg2, hp2, ha]
  have e3 : sent3 = ⟨[], [], none⟩ := by
    obtain ⟨a, g, p⟩ := sent3
    have ha := ha3 _ rfl
    simp only at hg3 hp3 ha
    rw [hg3, hp3, ha]
  subst e1 e2 e3
  exact ⟨hf1, hf2, congrArg Outcome.log h3⟩

/-- C12 fails for texts that start with an opening brace and are not the compact JSON of an
object with sorted keys: the unparsable text of a single brace comes back as nil and not as
a string, `{"x": 1}` written with a space comes back without it, and in a group
`{"b":1,"a":2}` comes back with its keys in order. It also fails for every annotation of an
attribute whose `permissions` block holds a nil element, where the mapping panics and
nothing comes back. -/
theorem annotation_roundTrip_counterexample :
    (attributeRoundTrip goJsonCodec (simAnnotatedAttribute "\x7b")).map
        (fun d => d.annotations) = some (some [("note", Value.null)]) ∧
    (attributeRoundTrip goJsonCodec (simAnnotatedAttribute "\x7b")).bind
        (fun d => firstAnnotationText d.annotations) ≠ some "\x7b" ∧
    (attributeRoundTrip goJsonCodec (simAnnotatedAttribute "\x7b\"x\": 1\x7d")).bind
        (fun d => firstAnnotationText d.annotations)
      = some "\x7b\"x\":1\x7d" ∧
    firstAnnotationText (getRealmUserProfileGroupData goJsonCodec
      (getRealmUserProfileGroupFromData goJsonCodec
        (simAnnotatedGroup "\x7b\"b\":1,\"a\":2\x7d"))).annotations
      = some "\x7b\"a\":2,\"b\":1\x7d" ∧
    attributeRoundTrip goJsonCodec
        { simAnnotatedAttribute "x" with permissions := some [none] }
      = none :=
  ⟨rfl, by decide, by decide, by decide, rfl⟩

/-- C12, amended. In an attribute document that the mapping to the remote form accepts, and
in every group document: mapping the document to the remote form and back returns every
annotation whose value does not start with an opening brace, or is the text that
`json.Marshal` writes for the object it decodes to, with its value unchanged under its key,
whatever the other annotations are. -/
theorem annotation_roundTrip (json : JsonCodec) :
    (∀ (m : AttributeData String) (attr : RealmUserProfileAttribute),
      getRealmUserProfileAttributeFromData json m = some attr →
      ∀ anns, m.annotations = some anns →
      ∀ kv ∈ anns, json.stableObjectText kv.2 = true →
        (kv.1, Value.str kv.2)
          ∈ (getRealmUserProfileAttributeData json attr).annotations.getD []) ∧
    (∀ (g : GroupData String),
      ∀ anns, g.annotations = some anns →
      ∀ kv ∈ anns, json.stableObjectText kv.2 = true →
        (kv.1, Value.str kv.2)
          ∈ (getRealmUserProfileGroupData json
              (getRealmUserProfileGroupFromData json g)).annotations.getD []) :=
  ⟨fun m attr hmapped anns hm kv hkv hstable =>
      getRealmUserProfileAttributeData_annotations json m attr hmapped anns hm kv hkv hstable,
    fun g anns hg kv hkv hstable =>
      getRealmUserProfileGroupData_annotations json g anns hg kv hkv hstable⟩

/-- C12 amended, on the example of the specification: `{"x":1}` is held remotely as the
object with the member `x = 1` and comes back as the same text, in an attribute and in a
group; and next to an annotation written with a space, which does not come back as it
was, the compact one still does. -/
theorem annotation_roundTrip_witness :
    (getRealmUserProfileAttributeFromData goJsonCodec
        (simAnnotatedAttribute "\x7b\"x\":1\x7d")).map (fun attr => attr.Annotations)
      = some (some [("note", Value.obj [("x", Value.num 1)])]) ∧
    (∃ attr, getRealmUserProfileAttributeFromData goJsonCodec
        { simAttribute "department" false false with
          annotations := some [("good", "\x7b\"x\":1\x7d"), ("bad", "\x7b\"x\": 1\x7d")] }
        = some attr ∧
      ("good", Value.str "\x7b\"x\":1\x7d")
        ∈ (getRealmUserProfileAttributeData goJsonCodec attr).annotations.getD []) ∧
    ("note", Value.str "\x7b\"x\":1\x7d")
      ∈ (getRealmUserProfileGroupData goJsonCodec
          (getRealmUserProfileGroupFromData goJsonCodec
            (simAnnotatedGroup "\x7b\"x\":1\x7d"))).annotations.getD [] :=
  ⟨rfl,
    ⟨_, rfl, (annotation_roundTrip goJsonCodec).1
      { simAttribute "department" false false with
        annotations := some [("good", "\x7b\"x\":1\x7d"), ("bad", "\x7b\"x\": 1\x7d")] }
      _ rfl _ rfl ("good", "\x7b\"x\":1\x7d") (by simp) (by decide)⟩,
    (annotation_roundTrip goJsonCodec).2 (simAnnotatedGroup "\x7b\"x\":1\x7d") _ rfl
      ("note", "\x7b\"x\":1\x7d") (by simp) (by decide)⟩
